import Mathlib

/-!
The blob container format and the payload appendix.

A shallow embedding of the two vendored packages of the game repository,
`github.com/gonutz/blob` (an indexed binary container with an eager and a lazy
reader) and `github.com/gonutz/payload` (data appended to an executable and
located through a 16 byte trailer), together with the properties their
specification states.

Conventions of the embedding.

* A Go byte is a `Fin 256`; a Go `[]byte` and a Go `string` are `List Byte`.
* Go's `int` is the 64 bit one.  `len(x)` of a slice is a non-negative `int`, so a
  conversion `uint64(len(x))` is exact; theorems that encode a length state the
  bound `< 2 ^ 63` on the lengths they depend on.
* Fixed width arithmetic is written out: `% 2 ^ 16`, `% 2 ^ 32`, `% 2 ^ 64`,
  `toInt64` and `wrapInt64`.
* Go errors are values of `GoError`; `io.EOF` and `io.ErrUnexpectedEOF` are
  constructors of their own because the code compares against them by identity.
* An `io.Writer`, `io.Reader` or `io.ReadSeeker` that a function receives is an
  explicit state that the function returns updated.
* A Go panic (a slice expression out of range, an allocation that is too large) is
  not modelled; the functions are total.
-/

/-! ## Bytes, integers, errors -/

/-- One byte. -/
abbrev Byte := Fin 256

/-- The `k` low bytes of `n`, least significant first
(`binary.LittleEndian.PutUint16/32/64`). -/
def leBytes : Nat → Nat → List Byte
  | 0, _ => []
  | k + 1, n => ⟨n % 256, Nat.mod_lt _ (by decide)⟩ :: leBytes k (n / 256)

/-- The number a little-endian byte sequence stands for
(`binary.LittleEndian.Uint16/32/64`). -/
def leValue : List Byte → Nat
  | [] => 0
  | b :: bs => b.val + 256 * leValue bs

/-- Go's conversion `int64(x)` of a `uint64`. -/
@[irreducible] def toInt64 (n : Nat) : Int :=
  if n % 2 ^ 64 < 2 ^ 63 then ((n % 2 ^ 64 : Nat) : Int) else ((n % 2 ^ 64 : Nat) : Int) - 2 ^ 64

/-- The result of an `int64` addition or subtraction whose exact value is `x`. -/
@[irreducible] def wrapInt64 (x : Int) : Int :=
  (x + 2 ^ 63) % 2 ^ 64 - 2 ^ 63

/-- Go's conversion `uint64(x)` of an `int64`. -/
@[irreducible] def toUint64 (x : Int) : Nat :=
  (x % 2 ^ 64).toNat

/-- Go error values: the two sentinels of package `io` and `errors.New(msg)`. -/
inductive GoError where
  | EOF
  | ErrUnexpectedEOF
  | New (msg : String)
deriving DecidableEq, Repr

deriving instance DecidableEq for Except

/-- The method `Error()` of an error value. -/
def GoError.Error : GoError → String
  | .EOF => "EOF"
  | .ErrUnexpectedEOF => "unexpected EOF"
  | .New msg => msg

/-! ## Streams

`GoWriter` is a `bytes.Buffer` used as an `io.Writer`, optionally wrapped in the
`failingWriter` of `blob_test.go`.  `GoStream` is a `bytes.Reader` used as an
`io.Reader` or `io.ReadSeeker`, optionally wrapped in the `failingReader` and the
`failingSeeker` of `blob_test.go`. -/

/-- An `io.Writer`.  `out` is what has been written so far.  `failAtWrite = none` is a
`bytes.Buffer`, which never fails.  `failAtWrite = some k` is the `failingWriter` of
`blob_test.go` with the fields `failAtWrite = k` and `errMsg`: every call of `Write`
counts `failAtWrite` down, and the call fails with `errors.New(errMsg)` when the count
has gone below zero. -/
structure GoWriter where
  out : List Byte
  failAtWrite : Option Int
  errMsg : String
deriving DecidableEq, Repr

/-- One call `w.Write(p)`: the error, if any, and the writer afterwards.  A call that
fails counts too, so the writer afterwards tells how many calls have been made. -/
def GoWriter.Write (w : GoWriter) (p : List Byte) : Option GoError × GoWriter :=
  match w.failAtWrite with
  | none => (none, ⟨w.out ++ p, none, w.errMsg⟩)
  | some k =>
    if wrapInt64 (k - 1) < 0 then
      (some (.New w.errMsg), ⟨w.out, some (wrapInt64 (k - 1)), w.errMsg⟩)
    else (none, ⟨w.out ++ p, some (wrapInt64 (k - 1)), w.errMsg⟩)

/-- The field `hasFailed` of a `failingWriter` that was set up with a `failAtWrite`
that is not negative: a call has failed exactly when the count is below zero. -/
def GoWriter.hasFailed (w : GoWriter) : Bool :=
  match w.failAtWrite with
  | none => false
  | some k => decide (k < 0)

/-- A fresh `bytes.Buffer`. -/
def GoWriter.buffer : GoWriter := ⟨[], none, ""⟩

/-- An `io.ReadSeeker` over the bytes `s` with read position `i`.  `failAtRead` and
`failAtSeek` are `none` for a stream that never fails, and `some k` for one whose
`Read` (`Seek`) succeeds `k` more times and fails from then on. -/
structure GoStream where
  s : List Byte
  i : Nat
  failAtRead : Option Nat
  failAtSeek : Option Nat
  errMsg : String
deriving DecidableEq, Repr

/-- The stream `bytes.NewReader(s)` after its position has been set to `i`. -/
def GoStream.at (s : List Byte) (i : Nat) : GoStream := ⟨s, i, none, none, ""⟩

/-- A stream whose `Read` and `Seek` never fail. -/
def GoStream.wellBehaved (r : GoStream) : Prop :=
  r.failAtRead = none ∧ r.failAtSeek = none

instance (r : GoStream) : Decidable r.wellBehaved := by
  unfold GoStream.wellBehaved; exact inferInstance

/-- One call `r.Read(p)` with `len(p) = n`: the bytes stored at the front of `p`, the
error, and the stream afterwards.  At the end of the bytes the call returns `io.EOF`
and no bytes, otherwise as many bytes as are left, at most `n`. -/
def GoStream.Read (r : GoStream) (n : Nat) : (List Byte × Option GoError) × GoStream :=
  match r.failAtRead with
  | some 0 => (([], some (.New r.errMsg)), r)
  | fr =>
    let fr1 := fr.map (fun k => k - 1)
    if r.s.length ≤ r.i then (([], some .EOF), ⟨r.s, r.i, fr1, r.failAtSeek, r.errMsg⟩)
    else
      let bs := (r.s.drop r.i).take n
      ((bs, none), ⟨r.s, r.i + bs.length, fr1, r.failAtSeek, r.errMsg⟩)

/-- The constants `io.SeekStart`, `io.SeekCurrent`, `io.SeekEnd`. -/
def SeekStart : Int := 0
/-- See `SeekStart`. -/
def SeekCurrent : Int := 1
/-- See `SeekStart`. -/
def SeekEnd : Int := 2

/-- One call `r.Seek(offset, whence)`: the returned position, the error, and the
stream afterwards. -/
def GoStream.Seek (r : GoStream) (offset : Int) (whence : Int) : (Int × Option GoError) × GoStream :=
  match r.failAtSeek with
  | some 0 => ((0, some (.New "failingSeeker.Seek fails")), r)
  | fs =>
    let r1 : GoStream := ⟨r.s, r.i, r.failAtRead, fs.map (fun k => k - 1), r.errMsg⟩
    if whence ≠ SeekStart ∧ whence ≠ SeekCurrent ∧ whence ≠ SeekEnd then
      ((0, some (.New "bytes.Reader.Seek: invalid whence")), r1)
    else
      let abs : Int :=
        if whence = SeekStart then offset
        else if whence = SeekCurrent then wrapInt64 ((r.i : Int) + offset)
        else wrapInt64 ((r.s.length : Int) + offset)
      if abs < 0 then ((0, some (.New "bytes.Reader.Seek: negative position")), r1)
      else ((abs, none), ⟨r.s, abs.toNat, r.failAtRead, fs.map (fun k => k - 1), r.errMsg⟩)

/-- The loop of `io.ReadAtLeast(r, buf, min)` with `len(buf) = min = need + got`:
`fuel` bounds the number of `Read` calls, `acc` are the bytes read so far. -/
def readAtLeastLoop : Nat → GoStream → Nat → List Byte → (List Byte × Option GoError) × GoStream
  | 0, r, _, acc => ((acc, none), r)
  | fuel + 1, r, need, acc =>
    if need = 0 then ((acc, none), r)
    else
      match r.Read need with
      | ((bs, none), r1) => readAtLeastLoop fuel r1 (need - bs.length) (acc ++ bs)
      | ((bs, some e), r1) => ((acc ++ bs, some e), r1)

/-- The call `io.ReadFull(r, buf)` with `len(buf) = n`: the bytes read, the error
(`nil` exactly when all `n` bytes were read), and the stream afterwards.  Every
successful `Read` of a `GoStream` with a non-empty buffer returns at least one byte, so
`n + 1` calls are enough. -/
def ReadFull (r : GoStream) (n : Nat) : (List Byte × Option GoError) × GoStream :=
  match readAtLeastLoop (n + 1) r n [] with
  | ((bs, err), r1) =>
    if n ≤ bs.length then ((bs, none), r1)
    else if 0 < bs.length ∧ err = some .EOF then ((bs, some .ErrUnexpectedEOF), r1)
    else ((bs, err), r1)

/-- The method `(*bytes.Buffer).Next(n)` on the unread bytes `buf`: the next `n` bytes,
or all of them when fewer are left, and the unread bytes afterwards. -/
def bufferNext (buf : List Byte) (n : Nat) : List Byte × List Byte :=
  (buf.take n, buf.drop n)

/-- The call `io.ReadFull(buffer, p)` with `0 < len(p) = n` on a `bytes.Buffer` whose
unread bytes are `buf`: the bytes read, the error, and the unread bytes afterwards. -/
def bufferReadFull (buf : List Byte) (n : Nat) : (List Byte × Option GoError) × List Byte :=
  if n ≤ buf.length then ((buf.take n, none), buf.drop n)
  else if buf.length = 0 then (([], some .EOF), [])
  else ((buf, some .ErrUnexpectedEOF), [])

/-- The Go slice expression `data[lo:hi]`. -/
def subslice (data : List Byte) (lo hi : Nat) : List Byte :=
  (data.drop lo).take (hi - lo)

/-! ## Package blob -/

namespace blob

/-- The struct `indexItem`: an id and the byte range `[start, end)` of its data. -/
structure indexItem where
  id : List Byte
  start : Nat
  end_ : Nat
deriving DecidableEq, Repr

/-- The type `header`. -/
abbrev header := List indexItem

/-- The struct `Blob`. -/
structure Blob where
  header : header
  data : List Byte
deriving DecidableEq, Repr

/-- `header.ItemCount`. -/
def ItemCount (h : header) : Int :=
  h.length

/-- `header.GetIDAtIndex`. -/
def GetIDAtIndex (h : header) (i : Int) : List Byte :=
  if i < 0 ∨ i ≥ h.length then []
  else
    match h.get? i.toNat with
    | some it => it.id
    | none => []

/-- `New`. -/
def New : Blob := ⟨[], []⟩

/-- `Blob.Append`.  The lengths are non-negative values of type `int`, so the
conversions `uint64(len(b.data))` and `uint64(len(b.data) + len(data))` are exact. -/
def Blob.Append (b : Blob) (id : List Byte) (data : List Byte) : Blob :=
  ⟨b.header ++ [⟨id, b.data.length, b.data.length + data.length⟩], b.data ++ data⟩

/-- The search loop of `GetByID` over the index. -/
def findByID : header → List Byte → Option indexItem
  | [], _ => none
  | it :: rest, id => if it.id = id then some it else findByID rest id

/-- `Blob.GetByID`: the pair `(data, found)`. -/
def Blob.GetByID (b : Blob) (id : List Byte) : List Byte × Bool :=
  match findByID b.header id with
  | some it => (subslice b.data it.start it.end_, true)
  | none => ([], false)

/-- `Blob.GetByIndex`: the pair `(data, found)`. -/
def Blob.GetByIndex (b : Blob) (i : Int) : List Byte × Bool :=
  if i < 0 ∨ i ≥ b.header.length then ([], false)
  else
    match b.header.get? i.toNat with
    | some it => (subslice b.data it.start it.end_, true)
    | none => ([], false)

/-- `MaxIDLen`. -/
def MaxIDLen : Nat := 65535

/-- The loop of `Blob.Write` that fills the local `buffer` with the header entries. -/
def writeHeader : List indexItem → List Byte → Except GoError (List Byte)
  | [], buffer => .ok buffer
  | it :: rest, buffer =>
    if it.id.length > MaxIDLen then .error (.New "blob.Blob.Write: ID is too long")
    else
      writeHeader rest
        (buffer ++ leBytes 2 (it.id.length % 2 ^ 16) ++ it.id
          ++ leBytes 8 ((it.end_ + 2 ^ 64 - it.start) % 2 ^ 64))

/-- `Blob.Write` on any `io.Writer`, given as a state `w` and its method `write`: the
returned error and the writer afterwards. -/
def Blob.WriteTo {σ : Type} (write : σ → List Byte → Option GoError × σ) (b : Blob) (w : σ) :
    Option GoError × σ :=
  match writeHeader b.header [] with
  | .error err => (some err, w)
  | .ok buffer =>
    match write w (leBytes 4 (buffer.length % 2 ^ 32)) with
    | (some err, w1) =>
      (some (.New ("blob.Blob.Write: cannot write header length: " ++ err.Error)), w1)
    | (none, w1) =>
      match write w1 buffer with
      | (some err, w2) => (some (.New ("write blob header: " ++ err.Error)), w2)
      | (none, w2) =>
        match write w2 b.data with
        | (some err, w3) => (some (.New ("write blob data: " ++ err.Error)), w3)
        | (none, w3) => (none, w3)

/-- `Blob.Write` on a `GoWriter`: the returned error and the writer afterwards. -/
def Blob.Write (b : Blob) (w : GoWriter) : Option GoError × GoWriter :=
  b.WriteTo GoWriter.Write w

/-- The loop of `readHeader` that dissects the header bytes.  `buf` are the unread
bytes of `headerReader`, `overall` is `overallDataLength`, `h` the entries so far.
Every round that does not fail consumes at least ten bytes, so with `fuel` at least
`buf.length` the loop ends because `buf` is empty. -/
def dissect : Nat → List Byte → Nat → header → Except GoError (header × Nat)
  | 0, _, overall, h => .ok (h, overall)
  | fuel + 1, buf, overall, h =>
    if buf.length > 0 then
      match bufferReadFull buf 2 with
      | ((_, some err), _) => .error (.New ("read blob header id length: " ++ err.Error))
      | ((bs, none), buf1) =>
        let idLength := leValue bs
        let (id, buf2) := bufferNext buf1 idLength
        if id.length ≠ idLength then .error (.New "read blob header id: unexpected EOF")
        else
          match bufferReadFull buf2 8 with
          | ((_, some err), _) =>
            .error (.New ("read blob header data length: " ++ err.Error))
          | ((ds, none), buf3) =>
            let dataLength := leValue ds
            dissect fuel buf3 ((overall + dataLength) % 2 ^ 64)
              (h ++ [⟨id, overall, (overall + dataLength) % 2 ^ 64⟩])
    else .ok (h, overall)

/-- `readHeader`: the header and the overall data length, or the error, and the stream
afterwards.  `headerData` is a zeroed buffer of `headerLength` bytes of which the one
call `r.Read(headerData)` overwrites as many as it returns. -/
def readHeader (r : GoStream) : Except GoError (header × Nat) × GoStream :=
  match ReadFull r 4 with
  | ((_, some err), r1) => (.error (.New ("read blob header length: " ++ err.Error)), r1)
  | ((bs, none), r1) =>
    let headerLength := leValue bs
    if headerLength = 0 then (.ok ([], 0), r1)
    else
      match r1.Read headerLength with
      | ((_, some err), r2) => (.error (.New ("read blob header: " ++ err.Error)), r2)
      | ((got, none), r2) =>
        let headerData := got ++ List.replicate (headerLength - got.length) 0
        (dissect headerData.length headerData 0 [], r2)

/-- `Read`: the blob, or the error with which the returned blob is `nil`, and the
stream afterwards. -/
def Read (r : GoStream) : Except GoError Blob × GoStream :=
  match readHeader r with
  | (.error err, r1) => (.error err, r1)
  | (.ok (h, overallDataLength), r1) =>
    if overallDataLength > 0 then
      match ReadFull r1 overallDataLength with
      | ((_, some err), r2) => (.error (.New ("read blob data: " ++ err.Error)), r2)
      | ((data, none), r2) => (.ok ⟨h, data⟩, r2)
    else (.ok ⟨h, []⟩, r1)

/-- The struct `BlobReader`; its field `r`, the shared stream, is passed to and
returned by every operation that uses it. -/
structure BlobReader where
  header : header
  zero : Int
deriving DecidableEq, Repr

/-- `Open`: the reader, or the error with which the returned reader is `nil`, and the
stream afterwards. -/
def Open (r : GoStream) : Except GoError BlobReader × GoStream :=
  match readHeader r with
  | (.error err, r1) => (.error err, r1)
  | (.ok (h, _), r1) =>
    match r1.Seek 0 SeekCurrent with
    | ((_, some err), r2) => (.error (.New ("open blob: " ++ err.Error)), r2)
    | ((zero, none), r2) => (.ok ⟨h, zero⟩, r2)

/-- The struct `reader`, a window `[start, end)` of the shared stream; its field `file`
is passed to and returned by `Read` and `Seek`. -/
structure reader where
  start : Int
  pos : Int
  end_ : Int
deriving DecidableEq, Repr

/-- The sub-reader that `BlobReader.GetByID` and `BlobReader.GetByIndex` build for an
entry. -/
def BlobReader.readerFor (b : BlobReader) (it : indexItem) : reader :=
  ⟨wrapInt64 (b.zero + toInt64 it.start), wrapInt64 (b.zero + toInt64 it.start),
    wrapInt64 (b.zero + toInt64 it.end_)⟩

/-- `BlobReader.GetByID`: the pair `(r, found)`, `r = none` being the `nil` reader. -/
def BlobReader.GetByID (b : BlobReader) (id : List Byte) : Option reader × Bool :=
  match findByID b.header id with
  | some it => (some (b.readerFor it), true)
  | none => (none, false)

/-- `BlobReader.GetByIndex`: the pair `(r, found)`, `r = none` being the `nil`
reader. -/
def BlobReader.GetByIndex (b : BlobReader) (i : Int) : Option reader × Bool :=
  if i < 0 ∨ i ≥ b.header.length then (none, false)
  else
    match b.header.get? i.toNat with
    | some it => (some (b.readerFor it), true)
    | none => (none, false)

/-- `reader.Read` with `len(p) = n` on the shared stream `file`: the bytes stored at
the front of `p` (their number is the returned `n`), the error, the sub-reader
afterwards and the stream afterwards. -/
def reader.Read (r : reader) (file : GoStream) (n : Nat) :
    ((List Byte × Option GoError) × reader) × GoStream :=
  if r.pos ≥ r.end_ then ((([], some .EOF), r), file)
  else
    let n1 : Nat :=
      if (n : Int) > wrapInt64 (r.end_ - r.pos) then (wrapInt64 (r.end_ - r.pos)).toNat else n
    match file.Seek r.pos SeekStart with
    | ((_, some err), file1) => ((([], some err), r), file1)
    | ((_, none), file1) =>
      match file1.Read n1 with
      | ((bs, err), file2) =>
        (((bs, err), ⟨r.start, wrapInt64 (r.pos + bs.length), r.end_⟩), file2)

/-- `reader.Seek` on the shared stream `file`: the returned offset, the error, the
sub-reader afterwards and the stream afterwards. -/
def reader.Seek (r : reader) (file : GoStream) (offset : Int) (whence : Int) :
    ((Int × Option GoError) × reader) × GoStream :=
  if whence ≠ SeekStart ∧ whence ≠ SeekCurrent ∧ whence ≠ SeekEnd then
    (((0, some (.New "blob.reader.Seek: invalid whence")), r), file)
  else
    let newPos : Int :=
      if whence = SeekStart then wrapInt64 (r.start + offset)
      else if whence = SeekCurrent then wrapInt64 (r.pos + offset)
      else wrapInt64 (r.end_ + offset)
    if newPos < r.start then
      (((wrapInt64 (r.pos - r.start), some (.New "blob.reader.Seek: negative position")), r),
        file)
    else
      let newPos1 : Int := if newPos > r.end_ then r.end_ else newPos
      match file.Seek newPos1 SeekStart with
      | ((p, err), file1) =>
        (((wrapInt64 (p - r.start), err), ⟨r.start, p, r.end_⟩), file1)

end blob

/-! ## Reading a stream to its end -/

/-- The loop of `ioutil.ReadAll(r)` over a reader with state `σ` whose `Read` is
`read`: the `k`-th call gets a buffer of `sizes k` bytes, the size the growing result
buffer has free at that moment; the loop ends at the first error, and `io.EOF` is
reported as success.  `acc` are the bytes read so far.  The result is `none` when
`fuel` calls did not reach an error. -/
def readAllLoop {σ : Type} (read : σ → Nat → (List Byte × Option GoError) × σ) :
    Nat → (Nat → Nat) → σ → List Byte → Option ((List Byte × Option GoError) × σ)
  | 0, _, _, _ => none
  | fuel + 1, sizes, st, acc =>
    match read st (sizes 0) with
    | ((bs, none), st1) => readAllLoop read fuel (fun k => sizes (k + 1)) st1 (acc ++ bs)
    | ((bs, some .EOF), st1) => some ((acc ++ bs, none), st1)
    | ((bs, some err), st1) => some ((acc ++ bs, some err), st1)

namespace blob

/-- `reader.Read` as a step on the pair of a sub-reader and the shared stream. -/
def reader.step (st : reader × GoStream) (n : Nat) :
    (List Byte × Option GoError) × (reader × GoStream) :=
  match st.1.Read st.2 n with
  | ((res, r1), file1) => (res, (r1, file1))

/-- The call `ioutil.ReadAll(r)` on a sub-reader `r` over the shared stream `file`. -/
def reader.ReadAll (fuel : Nat) (sizes : Nat → Nat) (r : reader) (file : GoStream) :
    Option ((List Byte × Option GoError) × (reader × GoStream)) :=
  readAllLoop reader.step fuel sizes (r, file) []

end blob

/-! ## Package payload -/

namespace payload

/-- The magic string `"payload "`. -/
def magic : List Byte := [112, 97, 121, 108, 111, 97, 100, 32]

/-- The output file that `main` of `cmd/payload` writes for the contents `exe` of the
executable and `data` of the data file. -/
def cmdMain (exe data : List Byte) : List Byte :=
  let originalSize := leBytes 8 (exe.length % 2 ^ 64)
  exe ++ data ++ magic ++ originalSize

/-- The struct `reader`, a window `[start, end)` of the opened executable; its field
`file` is passed to and returned by `Read` and `Seek`. -/
structure reader where
  start : Int
  pos : Int
  end_ : Int
deriving DecidableEq, Repr

/-- The closure `annotate` of `Open`. -/
def annotate (msg : String) (err : Option GoError) : GoError :=
  match err with
  | some e => .New ("payload.Open: " ++ msg ++ ": " ++ e.Error)
  | none => .New ("payload.Open: " ++ msg)

/-- `Open` from the point where the executable has been opened as `file`, an `os.File`
at offset zero, taken to behave as a `GoStream` does: the reader, or the error, and the
file afterwards. -/
def Open (file : GoStream) : Except GoError reader × GoStream :=
  match file.Seek (-16) SeekEnd with
  | ((_, some err), f1) => (.error (annotate "unable to seek to executable's end" (some err)), f1)
  | ((dataEnd, none), f1) =>
    match ReadFull f1 8 with
    | ((_, some err), f2) => (.error (annotate "unable to read magic string" (some err)), f2)
    | ((magicBytes, none), f2) =>
      if magicBytes ≠ magic then
        (.error (annotate "the executable does not contain a payload" none), f2)
      else
        match ReadFull f2 8 with
        | ((_, some err), f3) => (.error (annotate "unable to read payload size" (some err)), f3)
        | ((bs, none), f3) =>
          let dataStart := leValue bs
          if dataStart > toUint64 dataEnd then
            (.error (annotate "invalid data size at file end" none), f3)
          else
            match f3.Seek (toInt64 dataStart) SeekStart with
            | ((_, some err), f4) =>
              (.error (annotate "unable to seek to payload start" (some err)), f4)
            | ((_, none), f4) => (.ok ⟨toInt64 dataStart, toInt64 dataStart, dataEnd⟩, f4)

/-- `reader.Read` with `len(p) = n`: the bytes stored at the front of `p`, the error,
the reader afterwards and the file afterwards. -/
def reader.Read (r : reader) (file : GoStream) (n : Nat) :
    ((List Byte × Option GoError) × reader) × GoStream :=
  if r.pos ≥ r.end_ then ((([], some .EOF), r), file)
  else
    let n1 : Nat :=
      if (n : Int) > wrapInt64 (r.end_ - r.pos) then (wrapInt64 (r.end_ - r.pos)).toNat else n
    match file.Read n1 with
    | ((bs, err), file1) =>
      (((bs, err), ⟨r.start, wrapInt64 (r.pos + bs.length), r.end_⟩), file1)

/-- `reader.Read` as a step on the pair of a reader and its file. -/
def reader.step (st : reader × GoStream) (n : Nat) :
    (List Byte × Option GoError) × (reader × GoStream) :=
  match st.1.Read st.2 n with
  | ((res, r1), file1) => (res, (r1, file1))

/-- `Read` from the point where the executable has been opened as `file`: the whole
payload or the error; `none` when `fuel` calls of `reader.Read` did not reach the end
of the data. -/
def Read (fuel : Nat) (sizes : Nat → Nat) (file : GoStream) : Option (Except GoError (List Byte)) :=
  match Open file with
  | (.error err, _) => some (.error (.New ("payload.Read: " ++ err.Error)))
  | (.ok r, f1) =>
    match readAllLoop reader.step fuel sizes (r, f1) [] with
    | none => none
    | some ((_, some err), _) =>
      some (.error (.New ("payload.Read: unable to read payload: " ++ err.Error)))
    | some ((data, none), _) => some (.ok data)

end payload

/-! ## Definitions that the statements use -/

namespace blob

/-- The blob after `b.Append(id, data)` has been called for each pair in order. -/
def appendAll (b : Blob) : List (List Byte × List Byte) → Blob
  | [] => b
  | p :: rest => appendAll (b.Append p.1 p.2) rest

/-- The entries `h` tile the byte range `[lo, total)`: the first starts at `lo`, each one
ends where the next one starts, none ends before it starts, the last ends at `total`. -/
def tiles : header → Nat → Nat → Prop
  | [], lo, total => lo = total
  | it :: rest, lo, total => it.start = lo ∧ it.start ≤ it.end_ ∧ tiles rest it.end_ total

instance decTiles : (h : header) → (lo total : Nat) → Decidable (tiles h lo total)
  | [], lo, total => inferInstanceAs (Decidable (lo = total))
  | it :: rest, _, total =>
    have := decTiles rest it.end_ total
    inferInstanceAs (Decidable (it.start = _ ∧ it.start ≤ it.end_ ∧ tiles rest it.end_ total))

/-- The invariant of a `Blob`: its entries tile its data. -/
def Blob.Tiled (b : Blob) : Prop :=
  tiles b.header 0 b.data.length

instance (b : Blob) : Decidable b.Tiled := by
  unfold Blob.Tiled; exact inferInstance

/-- One header entry of the format described at `Blob.Write`: the length of the id as
a `uint16`, the id, the length of the data as a `uint64`. -/
def formatEntry (id : List Byte) (dataLength : Nat) : List Byte :=
  leBytes 2 id.length ++ id ++ leBytes 8 dataLength

/-- The header of the format described at `Blob.Write` for a list of ids with their
data lengths. -/
def formatHeader : List (List Byte × Nat) → List Byte
  | [] => []
  | e :: rest => formatEntry e.1 e.2 ++ formatHeader rest

/-- The ids of an index with the data lengths `end - start`. -/
def lengthsOf (h : header) : List (List Byte × Nat) :=
  h.map (fun it => (it.id, it.end_ - it.start))

/-- The data of all entries of a blob back-to-back, in index order. -/
def entriesData (b : Blob) : List Byte :=
  (b.header.map (fun it => subslice b.data it.start it.end_)).flatten

/-- The serialized form of a blob in the words of the format description: the header
length as a `uint32`, the header, the data of all entries. -/
def formatBlob (b : Blob) : List Byte :=
  leBytes 4 (formatHeader (lengthsOf b.header)).length
    ++ formatHeader (lengthsOf b.header) ++ entriesData b

/-- The index that the running sum of the data lengths gives, starting at offset
`overall`, with the `uint64` sum that is reached. -/
def runningSum : List (List Byte × Nat) → Nat → header × Nat
  | [], overall => ([], overall)
  | e :: rest, overall =>
    let next := (overall + e.2) % 2 ^ 64
    ((⟨e.1, overall, next⟩ : indexItem) :: (runningSum rest next).1, (runningSum rest next).2)

/-- A caller that issues `Read` calls on two sub-readers of one `BlobReader` in the
given order: each call names the sub-reader (`true` for the first) and the length of
its buffer.  The result lists, for each sub-reader, what its calls returned and the
sub-reader after each call. -/
def interleave : List (Bool × Nat) → reader → reader → GoStream →
    List ((List Byte × Option GoError) × reader) × List ((List Byte × Option GoError) × reader)
  | [], _, _, _ => ([], [])
  | (true, n) :: rest, r1, r2, file =>
    ((r1.Read file n).1 :: (interleave rest (r1.Read file n).1.2 r2 (r1.Read file n).2).1,
      (interleave rest (r1.Read file n).1.2 r2 (r1.Read file n).2).2)
  | (false, n) :: rest, r1, r2, file =>
    ((interleave rest r1 (r2.Read file n).1.2 (r2.Read file n).2).1,
      (r2.Read file n).1 :: (interleave rest r1 (r2.Read file n).1.2 (r2.Read file n).2).2)

/-- A caller that issues `Read` calls with the given buffer lengths on one sub-reader
only. -/
def alone : List Nat → reader → GoStream → List ((List Byte × Option GoError) × reader)
  | [], _, _ => []
  | n :: rest, r, file => (r.Read file n).1 :: alone rest (r.Read file n).1.2 (r.Read file n).2

/-- The pairs `65536` times `(id, [])` where `id` is `65526` bytes long: ids within
`MaxIDLen` whose header entries take `65536 * (2 + 65526 + 8) = 2 ^ 32` bytes. -/
@[irreducible] def hugePairs : List (List Byte × List Byte) :=
  List.replicate 65536 (List.replicate 65526 97, [])

/-- The blob of the scenario `Append("a", [1,2,3])`, `Append("bb", [4,5])`. -/
def scenarioBlob : Blob :=
  (New.Append [97] [1, 2, 3]).Append [98, 98] [4, 5]

/-- A fresh stream whose bytes declare `hdr` as the header region: the length of `hdr`
as a `uint32`, then `hdr`, then the bytes `post`. -/
def streamDeclaring (hdr post : List Byte) : GoStream :=
  GoStream.at (leBytes 4 hdr.length ++ (hdr ++ post)) 0

/-- The position that the offset of a `Seek` is relative to: the start of the window for
`io.SeekStart`, the current position for `io.SeekCurrent`, the end of the window for
`io.SeekEnd`. -/
def reader.base (r : reader) (whence : Int) : Int :=
  if whence = SeekStart then r.start
  else if whence = SeekCurrent then r.pos
  else r.end_

/-- The bytes that `b.Write` writes to a fresh `bytes.Buffer`. -/
def written (b : Blob) : List Byte :=
  (b.Write GoWriter.buffer).2.out

/-- The tiling invariant in the words of the data model, for entries that are to tile the
byte range `[lo, total)`: the first entry starts at `lo`, each entry's end equals the next
entry's start, every entry has `start ≤ end`, the last entry's end equals `total`, and
without entries the range is empty. -/
def tilesInWords (h : header) (lo total : Nat) : Prop :=
  (∀ it, h.head? = some it → it.start = lo) ∧
  (∀ i a c, h.get? i = some a → h.get? (i + 1) = some c → a.end_ = c.start) ∧
  (∀ it ∈ h, it.start ≤ it.end_) ∧
  (∀ it, h.getLast? = some it → it.end_ = total) ∧
  (h = [] → lo = total)

/-- The tiling invariant of a blob in the words of the data model: the entries tile the
data from offset 0 to `len(data)`. -/
def Blob.tilingInvariant (b : Blob) : Prop :=
  tilesInWords b.header 0 b.data.length

/-- The sub-reader `r`, read until end-of-data with `ioutil.ReadAll` while the shared
stream holds the bytes `s`, never fails and is at any position, yields `bytes`. -/
def readsAs (r : reader) (s : List Byte) (bytes : List Byte) : Prop :=
  ∀ file2 : GoStream, file2.wellBehaved → file2.s = s →
    ∀ (fuel : Nat) (sizes : Nat → Nat), (∀ k, 0 < sizes k) → bytes.length < fuel →
      (reader.ReadAll fuel sizes r file2).map (fun x => x.1) = some (bytes, none)

/-- The id of `65526` bytes of the pairs `hugePairs`. -/
@[irreducible] def hugeId : List Byte :=
  List.replicate 65526 97

/-- The pairs `65535` times `(hugeId, [])`. -/
@[irreducible] def hugeFront : List (List Byte × List Byte) :=
  List.replicate 65535 (List.replicate 65526 97, [])

/-- One call on a sub-reader: `Read(p)` with `len(p) = n`, or `Seek(offset, whence)`. -/
inductive Call where
  | read (n : Nat)
  | seek (offset whence : Int)
deriving DecidableEq, Repr

/-- The sub-reader and the shared stream after one call. -/
def reader.call (r : reader) (file : GoStream) : Call → reader × GoStream
  | .read n => ((r.Read file n).1.2, (r.Read file n).2)
  | .seek offset whence => ((r.Seek file offset whence).1.2, (r.Seek file offset whence).2)

/-- The sub-reader after each call of a sequence of calls, in order. -/
def reader.trace : List Call → reader → GoStream → List reader
  | [], _, _ => []
  | c :: rest, r, file =>
    (r.call file c).1 :: reader.trace rest (r.call file c).1 (r.call file c).2

/-- The position of a sub-reader lies within its window. -/
def reader.inWindow (r : reader) : Prop :=
  r.start ≤ r.pos ∧ r.pos ≤ r.end_

instance (r : reader) : Decidable r.inWindow := by
  unfold reader.inWindow; exact inferInstance

/-- An `io.Writer` that records the argument of every call of `Write` and answers the
calls as scripted: the next call fails with `errors.New(msg)` when the script begins
with `some msg`, and succeeds when it begins with `none` or is used up. -/
structure scriptedWriter where
  calls : List (List Byte)
  script : List (Option String)
deriving DecidableEq, Repr

/-- One call `w.Write(p)` of a `scriptedWriter`. -/
def scriptedWriter.Write (w : scriptedWriter) (p : List Byte) :
    Option GoError × scriptedWriter :=
  match w.script with
  | [] => (none, ⟨w.calls ++ [p], []⟩)
  | none :: rest => (none, ⟨w.calls ++ [p], rest⟩)
  | some msg :: rest => (some (.New msg), ⟨w.calls ++ [p], rest⟩)

end blob

/-! ## The two build tools

The tools talk to the operating system; what the operating system answers is an input
of the model (`Env`), what the tool prints, writes and returns is its output
(`Result`).  Both models start after `flag.Parse()` has returned. -/

namespace payload.cmd

/-- What `main` of `cmd/payload` finds: the values of the flags `-exe`, `-data` and
`-output`, the text that `flag.Usage` prints, the file mode or the error of
`os.Stat(*exeFile)`, the contents or the error of the two `ioutil.ReadFile`, and the
error of `ioutil.WriteFile`. -/
structure Env where
  exeFile : String
  dataFile : String
  outputFile : String
  usage : String
  stat : Except GoError Nat
  readExe : Except GoError (List Byte)
  readData : Except GoError (List Byte)
  writeFile : Option GoError

/-- What `main` of `cmd/payload` does: the texts printed to standard output and to
standard error, the file handed to a successful `ioutil.WriteFile` (path, contents,
mode), and the exit status of the process. -/
structure Result where
  stdout : List String
  stderr : List String
  written : Option (String × List Byte × Nat)
  exitStatus : Nat
deriving DecidableEq, Repr

/-- The text of `fmt.Println(msg, err)`: the operands separated by a space, and a
newline. -/
def Println (msg : String) (err : GoError) : String :=
  msg ++ " " ++ err.Error ++ "\n"

/-- `main` of `cmd/payload`.  Every path leaves `main` by `return`, so the process
exits with status 0. -/
def main (env : Env) : Result :=
  if env.exeFile = "" ∨ env.dataFile = "" then ⟨[], [env.usage], none, 0⟩
  else
    let outputFile := if env.outputFile = "" then env.exeFile else env.outputFile
    match env.stat with
    | .error err => ⟨[Println "error reading file attributes:" err], [], none, 0⟩
    | .ok fileMode =>
      match env.readExe with
      | .error err => ⟨[Println "error reading exe file:" err], [], none, 0⟩
      | .ok exe =>
        match env.readData with
        | .error err => ⟨[Println "error reading data file:" err], [], none, 0⟩
        | .ok data =>
          match env.writeFile with
          | some err => ⟨[Println "error writing output file:" err], [], none, 0⟩
          | none => ⟨[], [], some (outputFile, cmdMain exe data, fileMode), 0⟩

end payload.cmd

namespace blob.cmd

/-- What `runMain` of `cmd/blob` finds: the values of the flags `-path` and `-out`, the
text that `flag.Usage` prints, `IsDir()` or the error of `os.Lstat(*inPath)`, the pairs
`(id, data)` that the callback of `filepath.Walk` appends, in order, or the error of the
walk, the contents or the error of `ioutil.ReadFile(*inPath)`, the name
`filepath.Base(*inPath)`, and the file or the error of `os.Create(*outPath)`. -/
structure Env where
  inPath : String
  outPath : String
  usage : String
  lstat : Except GoError Bool
  walk : Except GoError (List (List Byte × List Byte))
  readFile : Except GoError (List Byte)
  base : List Byte
  create : Except GoError GoWriter

/-- What `main` of `cmd/blob` does: the texts printed to standard error, the output
file after the run if it was created, and the exit status of the process. -/
structure Result where
  stderr : List String
  outFile : Option GoWriter
  exitStatus : Nat
deriving DecidableEq, Repr

/-- The text that `errln(msg)` prints to standard error. -/
def errln (msg : String) : String :=
  "ERROR " ++ msg ++ "\n"

/-- The blob that `runMain` fills from a folder or from a single file, or the text of
the error it prints. -/
def fill (env : Env) (isDir : Bool) : Except String Blob :=
  if isDir then
    match env.walk with
    | .error err => .error (errln ("unable to traverse input directory: " ++ err.Error))
    | .ok files => .ok (appendAll ⟨[], []⟩ files)
  else
    match env.readFile with
    | .error err => .error (errln ("unable to read input file: " ++ err.Error))
    | .ok data => .ok ((⟨[], []⟩ : Blob).Append env.base data)

/-- `runMain` of `cmd/blob`; the field `exitStatus` is the returned `int`. -/
def runMain (env : Env) : Result :=
  if env.inPath = "" then ⟨[errln "input path not specified", env.usage], none, 1⟩
  else if env.outPath = "" then ⟨[errln "output path not specified", env.usage], none, 1⟩
  else
    match env.lstat with
    | .error err =>
      ⟨[errln ("cannot find input path '" ++ env.inPath ++ "': " ++ err.Error)], none, 1⟩
    | .ok isDir =>
      match fill env isDir with
      | .error line => ⟨[line], none, 1⟩
      | .ok b =>
        match env.create with
        | .error err => ⟨[errln ("unable to create output file: " ++ err.Error)], none, 1⟩
        | .ok outFile =>
          match b.Write outFile with
          | (some err, w) =>
            ⟨[errln ("unable to write output file: " ++ err.Error)], some w, 1⟩
          | (none, w) => ⟨[], some w, 0⟩

/-- `main` of `cmd/blob`: `os.Exit(runMain())`. -/
def main (env : Env) : Result :=
  runMain env

end blob.cmd

/-! ## The game: assignments and Roman numerals -/

namespace game

/-- The type `mathOp`, an `int`. -/
abbrev mathOp := Int

/-- The constant `add`. -/
def add : mathOp := 0
/-- The constant `subtract`. -/
def subtract : mathOp := 1
/-- The constant `multiply`. -/
def multiply : mathOp := 2
/-- The constant `divide`. -/
def divide : mathOp := 3
/-- The constant `opCount`. -/
def opCount : mathOp := 4

/-- `mathOp.String`; the default case panics in the source and gives the empty string
here. -/
def mathOp.String (op : mathOp) : String :=
  if op = add then "+"
  else if op = subtract then "-"
  else if op = multiply then "*"
  else if op = divide then "/"
  else ""

/-- The struct `mathGenerator`. -/
structure mathGenerator where
  ops : List mathOp
  max : Int
deriving DecidableEq, Repr

/-- The struct `assignment`. -/
structure assignment where
  question : String
  answer : Int
deriving DecidableEq, Repr

/-- The loop `for result%a != 0 { a-- }` of `generate`: the final `a`, or `none` when
`fuel` rounds did not end it. -/
def divisorLoop : Nat → Int → Int → Option Int
  | 0, _, _ => none
  | fuel + 1, result, a =>
    if Int.tmod result a ≠ 0 then divisorLoop fuel result (wrapInt64 (a - 1)) else some a

/-- The loop `for result*b > g.max { b-- }` of `generate`: the final `b`, or `none` when
`fuel` rounds did not end it. -/
def shrinkLoop : Nat → Int → Int → Int → Option Int
  | 0, _, _, _ => none
  | fuel + 1, max, result, b =>
    if wrapInt64 (result * b) > max then shrinkLoop fuel max result (wrapInt64 (b - 1))
    else some b

/-- The body of `generate` up to its `return`: the operator and the values of `a`, `b`
and `result`.  The `k`-th call of `rand` returns `rand k`; `int` arithmetic wraps at 64
bits, `%` and `/` truncate.  An index out of range and a division by zero panic in the
source; here they give the operator `opCount` and the value of `Int.tmod`. -/
def mathGenerator.operands (g : mathGenerator) (fuel : Nat) (rand : Nat → Int) :
    Option (mathOp × Int × Int × Int) :=
  let op := g.ops.getD (Int.tmod (rand 0) g.ops.length).toNat opCount
  if op = add then
    let result := Int.tmod (rand 1) (wrapInt64 (g.max + 1))
    if result = 0 then some (op, 0, 0, result)
    else
      let a := Int.tmod (rand 2) result
      some (op, a, wrapInt64 (result - a), result)
  else if op = subtract then
    let result := Int.tmod (rand 1) (wrapInt64 (g.max + 1))
    if result = g.max then some (op, result, 0, result)
    else
      let a := wrapInt64 (result + Int.tmod (rand 2) (wrapInt64 (g.max - result)))
      some (op, a, wrapInt64 (a - result), result)
  else if op = multiply then
    let result := Int.tmod (rand 1) (wrapInt64 (g.max + 1))
    if result = 0 then
      let b := Int.tmod (rand 2) (wrapInt64 (g.max + 1))
      if Int.tmod (rand 3) 2 = 0 then some (op, b, 0, result) else some (op, 0, b, result)
    else
      match divisorLoop fuel result (wrapInt64 (1 + Int.tmod (rand 2) result)) with
      | none => none
      | some a => some (op, a, Int.tdiv result a, result)
  else if op = divide then
    let result := wrapInt64 (1 + Int.tmod (rand 1) g.max)
    match shrinkLoop fuel g.max result (wrapInt64 (1 + Int.tmod (rand 2) g.max)) with
    | none => none
    | some b => some (op, wrapInt64 (result * b), b, result)
  else some (op, 0, 0, 0)

/-- `mathGenerator.generate`: the assignment built from the operands,
`fmt.Sprintf("%d %s %d", a, op, b)` being the question. -/
def mathGenerator.generate (g : mathGenerator) (fuel : Nat) (rand : Nat → Int) :
    Option assignment :=
  match g.operands fuel rand with
  | none => none
  | some (op, a, b, result) =>
    some ⟨toString a ++ " " ++ op.String ++ " " ++ toString b, result⟩

/-- The value of an operation on its operands: what the question asks for. -/
def evaluate (op : mathOp) (a b : Int) : Int :=
  if op = add then a + b
  else if op = subtract then a - b
  else if op = multiply then a * b
  else Int.tdiv a b

/-- The generator that `playingState.enter` sets up. -/
def gameGenerator : mathGenerator :=
  ⟨[add, subtract, add, subtract, multiply, divide], 9⟩

/-- The length of the array `fireKeys`. -/
def fireKeysLen : Nat := 10

/-- `strings.Repeat(s, count)` for a count that is not negative. -/
def Repeat (s : String) : Nat → String
  | 0 => ""
  | count + 1 => s ++ Repeat s count

/-- `convertDigitBelow5`. -/
def convertDigitBelow5 (d : Nat) (high mid low : String) : String :=
  if d = 4 then low ++ high else mid ++ Repeat low d

/-- `convertDigit`. -/
def convertDigit (d : Nat) (high mid low : String) : String :=
  if d < 5 then convertDigitBelow5 d mid "" low else convertDigitBelow5 (d - 5) high mid low

/-- The loop `for n >= 1000 { result += "M"; n -= 1000 }` of `romanNumeral`: the final
`result` and `n`, or `none` when `fuel` rounds did not end it. -/
def thousands : Nat → String → Nat → Option (String × Nat)
  | 0, _, _ => none
  | fuel + 1, result, n =>
    if n ≥ 1000 then thousands fuel (result ++ "M") (n - 1000) else some (result, n)

/-- `romanNumeral` for an `n` that is not negative; `fuel` bounds both the depth of the
recursion and the rounds of the loop, and the result is `none` when it does not
suffice. -/
def romanNumeral : Nat → Nat → Option String
  | 0, _ => none
  | fuel + 1, n =>
    if n < 10 then some (convertDigit n "X" "V" "I")
    else if n < 100 then
      match romanNumeral fuel (n % 10) with
      | none => none
      | some s => some (convertDigit (n / 10) "C" "L" "X" ++ s)
    else if n < 1000 then
      match romanNumeral fuel (n % 100) with
      | none => none
      | some s => some (convertDigit (n / 100) "M" "D" "C" ++ s)
    else
      match thousands fuel "" n with
      | none => none
      | some (result, n1) =>
        match romanNumeral fuel n1 with
        | none => none
        | some s => some (result ++ s)

/-- The table of the subtractive notation, largest value first. -/
def romanTable : List (Nat × String) :=
  [(1000, "M"), (900, "CM"), (500, "D"), (400, "CD"), (100, "C"), (90, "XC"), (50, "L"),
    (40, "XL"), (10, "X"), (9, "IX"), (5, "V"), (4, "IV"), (1, "I")]

/-- The greedy conversion over a table: as long as the first entry of the table fits
into `n`, write its symbol and subtract its value, then go on with the rest of the
table.  Every round takes from `n` or from the table, so `fuel = n + table.length`
suffices. -/
def greedy : Nat → List (Nat × String) → Nat → String
  | 0, _, _ => ""
  | _ + 1, [], _ => ""
  | fuel + 1, (v, s) :: rest, n =>
    if v ≤ n then s ++ greedy fuel ((v, s) :: rest) (n - v) else greedy fuel rest n

/-- The standard Roman numeral of `n` in subtractive notation. -/
def standardNumeral (n : Nat) : String :=
  greedy (n + romanTable.length) romanTable n

/-- The value of a Roman symbol. -/
def symbolValue (c : Char) : Nat :=
  if c = 'M' then 1000
  else if c = 'D' then 500
  else if c = 'C' then 100
  else if c = 'L' then 50
  else if c = 'X' then 10
  else if c = 'V' then 5
  else if c = 'I' then 1
  else 0

/-- The value of a Roman numeral: a symbol that stands before a larger one is
subtracted from it, every other symbol is added. -/
def numeralValue : List Char → Nat
  | [] => 0
  | [c] => symbolValue c
  | c :: d :: rest =>
    if symbolValue c < symbolValue d then (symbolValue d - symbolValue c) + numeralValue rest
    else symbolValue c + numeralValue (d :: rest)

end game

/-! ## Little-endian encoding -/

theorem leBytes_length (k n : Nat) : (leBytes k n).length = k := by
  induction k generalizing n with
  | zero => rfl
  | succ k ih => simp [leBytes, ih]

theorem leValue_leBytes (k n : Nat) : leValue (leBytes k n) = n % 256 ^ k := by
  induction k generalizing n with
  | zero => simp [leBytes, leValue, Nat.mod_one]
  | succ k ih =>
    simp only [leBytes, leValue, ih]
    rw [pow_succ, Nat.mul_comm (256 ^ k) 256, Nat.mod_mul]

theorem leValue_leBytes_of_lt (k n : Nat) (h : n < 256 ^ k) : leValue (leBytes k n) = n := by
  rw [leValue_leBytes, Nat.mod_eq_of_lt h]

theorem leValue_lt (bs : List Byte) : leValue bs < 256 ^ bs.length := by
  induction bs with
  | nil => simp [leValue]
  | cons b bs ih =>
    simp only [leValue, List.length_cons, pow_succ]
    have := b.isLt
    omega

theorem leBytes_leValue (bs : List Byte) : leBytes bs.length (leValue bs) = bs := by
  induction bs with
  | nil => rfl
  | cons b bs ih =>
    simp only [List.length_cons, leBytes, leValue]
    have hb := b.isLt
    have h1 : (b.val + 256 * leValue bs) % 256 = b.val := by omega
    have h2 : (b.val + 256 * leValue bs) / 256 = leValue bs := by omega
    simp only [h1, h2, ih]

theorem leBytes_mod (k n : Nat) : leBytes k (n % 256 ^ k) = leBytes k n := by
  have h := leBytes_leValue (leBytes k n)
  rw [leBytes_length, leValue_leBytes] at h
  exact h

/-! ## Streams that never fail -/

theorem bufferReadFull_append (bs rest : List Byte) :
    bufferReadFull (bs ++ rest) bs.length = ((bs, none), rest) := by
  simp [bufferReadFull]

theorem GoStream.Read_wellBehaved (r : GoStream) (n : Nat) (h : r.wellBehaved) :
    r.Read n =
      if r.s.length ≤ r.i then (([], some .EOF), r)
      else (((r.s.drop r.i).take n, none),
        ⟨r.s, r.i + ((r.s.drop r.i).take n).length, none, none, r.errMsg⟩) := by
  obtain ⟨s, i, fr, fs, m⟩ := r
  obtain ⟨h1, h2⟩ := h
  simp only at h1 h2
  subst h1 h2
  simp [GoStream.Read]

theorem GoStream.Read_plain (s : List Byte) (i : Nat) (m : String) (n : Nat) :
    (⟨s, i, none, none, m⟩ : GoStream).Read n =
      if s.length ≤ i then (([], some .EOF), ⟨s, i, none, none, m⟩)
      else (((s.drop i).take n, none), ⟨s, i + ((s.drop i).take n).length, none, none, m⟩) := by
  simp [GoStream.Read]

theorem wrapInt64_of_bounds (x : Int) (h1 : -(2 ^ 63) ≤ x) (h2 : x < 2 ^ 63) :
    wrapInt64 x = x := by
  unfold wrapInt64
  omega

theorem toInt64_of_lt (n : Nat) (h : n < 2 ^ 63) : toInt64 n = n := by
  unfold toInt64
  have h1 : n % 2 ^ 64 = n := Nat.mod_eq_of_lt (by omega)
  rw [h1, if_pos h]

theorem toUint64_of_nonneg (x : Int) (h1 : 0 ≤ x) (h2 : x < 2 ^ 63) : toUint64 x = x.toNat := by
  unfold toUint64
  congr 1
  omega

theorem GoStream.Seek_start_plain (s : List Byte) (i : Nat) (m : String) (p : Int) (hp : 0 ≤ p) :
    (⟨s, i, none, none, m⟩ : GoStream).Seek p SeekStart =
      ((p, none), ⟨s, p.toNat, none, none, m⟩) := by
  simp [GoStream.Seek, SeekStart, SeekCurrent, SeekEnd]
  omega

theorem GoStream.Seek_current_plain (s : List Byte) (i : Nat) (m : String) (hi : i < 2 ^ 63) :
    (⟨s, i, none, none, m⟩ : GoStream).Seek 0 SeekCurrent =
      (((i : Int), none), ⟨s, i, none, none, m⟩) := by
  have h : wrapInt64 (i : Int) = i := wrapInt64_of_bounds _ (by omega) (by omega)
  simp [GoStream.Seek, SeekStart, SeekCurrent, SeekEnd, h]

theorem ReadFull_plain (s : List Byte) (i : Nat) (m : String) (n : Nat)
    (h : i + n ≤ s.length) :
    ReadFull ⟨s, i, none, none, m⟩ n =
      (((s.drop i).take n, none), ⟨s, i + n, none, none, m⟩) := by
  have hlen : ((s.drop i).take n).length = n := by
    simp [List.length_take, List.length_drop]; omega
  rcases Nat.eq_zero_or_pos n with h0 | hpos
  · subst h0
    simp [ReadFull, readAtLeastLoop]
  · have hi : ¬ s.length ≤ i := by omega
    have hn : n ≠ 0 := by omega
    unfold ReadFull
    rw [readAtLeastLoop]
    simp only [hn, if_false, GoStream.Read_plain, hi, List.nil_append, hlen, Nat.sub_self]
    cases n with
    | zero => omega
    | succ k =>
      rw [readAtLeastLoop]
      simp [hlen]

theorem subslice_append (data : List Byte) (a b c : Nat) (hab : a ≤ b) (hbc : b ≤ c) :
    subslice data a b ++ subslice data b c = subslice data a c := by
  unfold subslice
  have h1 : c - a = (b - a) + (c - b) := by omega
  rw [h1, List.take_add, List.drop_drop]
  have h2 : a + (b - a) = b := by omega
  rw [h2]

namespace blob

/-! ## The tiling invariant -/

theorem tiles_le : ∀ (h : header) (lo total : Nat), tiles h lo total → lo ≤ total
  | [], lo, total, ht => by simp [tiles] at ht; omega
  | it :: rest, lo, total, ht => by
    obtain ⟨h1, h2, h3⟩ := ht
    have := tiles_le rest _ _ h3
    omega

theorem tiles_mem : ∀ (h : header) (lo total : Nat), tiles h lo total →
    ∀ it ∈ h, lo ≤ it.start ∧ it.start ≤ it.end_ ∧ it.end_ ≤ total
  | [], _, _, _ => by simp
  | x :: rest, lo, total, ht => by
    obtain ⟨h1, h2, h3⟩ := ht
    intro it hit
    rcases List.mem_cons.1 hit with rfl | hmem
    · exact ⟨by omega, h2, tiles_le rest _ _ h3⟩
    · have := tiles_mem rest _ _ h3 it hmem
      omega

theorem tiles_append : ∀ (h : header) (lo mid : Nat) (id : List Byte) (n : Nat),
    tiles h lo mid → tiles (h ++ [⟨id, mid, mid + n⟩]) lo (mid + n)
  | [], lo, mid, id, n, ht => by
    simp only [tiles] at ht
    subst ht
    simp [tiles]
  | x :: rest, lo, mid, id, n, ht => by
    obtain ⟨h1, h2, h3⟩ := ht
    exact ⟨h1, h2, tiles_append rest _ _ id n h3⟩

theorem Tiled_New : New.Tiled := by
  simp [Blob.Tiled, New, tiles]

theorem Tiled_Append (b : Blob) (id data : List Byte) (hb : b.Tiled) :
    (b.Append id data).Tiled := by
  unfold Blob.Tiled Blob.Append
  simp only [List.length_append]
  exact tiles_append _ _ _ _ _ hb

theorem Tiled_appendAll : ∀ (pairs : List (List Byte × List Byte)) (b : Blob),
    b.Tiled → (appendAll b pairs).Tiled
  | [], _, hb => hb
  | p :: rest, b, hb => Tiled_appendAll rest _ (Tiled_Append b p.1 p.2 hb)

theorem tiles_flatten (data : List Byte) : ∀ (h : header) (lo total : Nat), tiles h lo total →
    (h.map (fun it => subslice data it.start it.end_)).flatten = subslice data lo total
  | [], lo, total, ht => by
    simp only [tiles] at ht
    subst ht
    simp [subslice]
  | it :: rest, lo, total, ht => by
    obtain ⟨h1, h2, h3⟩ := ht
    simp only [List.map_cons, List.flatten_cons, tiles_flatten data rest _ _ h3]
    subst h1
    exact subslice_append data _ _ _ h2 (tiles_le _ _ _ h3)

theorem entriesData_eq (b : Blob) (hb : b.Tiled) : entriesData b = b.data := by
  unfold entriesData
  rw [tiles_flatten b.data b.header 0 b.data.length hb]
  simp [subslice]

theorem runningSum_tiles : ∀ (h : header) (lo total : Nat), tiles h lo total →
    total < 2 ^ 64 → runningSum (lengthsOf h) lo = (h, total)
  | [], lo, total, ht, _ => by
    simp only [tiles] at ht
    subst ht
    simp [lengthsOf, runningSum]
  | it :: rest, lo, total, ht, hlt => by
    obtain ⟨h1, h2, h3⟩ := ht
    have hle := tiles_le _ _ _ h3
    have ih := runningSum_tiles rest _ _ h3 hlt
    simp only [lengthsOf, List.map_cons, runningSum] at ih ⊢
    have hs : (lo + (it.end_ - it.start)) % 2 ^ 64 = it.end_ := by
      rw [Nat.mod_eq_of_lt] <;> omega
    rw [hs, ih]
    subst h1
    rfl

/-! ## What `Blob.Write` emits -/

theorem formatHeader_append (es fs : List (List Byte × Nat)) :
    formatHeader (es ++ fs) = formatHeader es ++ formatHeader fs := by
  induction es with
  | nil => rfl
  | cons e es ih => simp [formatHeader, ih]

theorem formatHeader_length (es : List (List Byte × Nat)) :
    (formatHeader es).length = (es.map (fun e => e.1.length + 10)).sum := by
  induction es with
  | nil => rfl
  | cons e es ih =>
    simp only [formatHeader, formatEntry, List.length_append, leBytes_length, ih, List.map_cons,
      List.sum_cons]
    omega

theorem writeHeader_ok : ∀ (h : header) (buffer : List Byte),
    (∀ it ∈ h, it.id.length ≤ MaxIDLen) → (∀ it ∈ h, it.start ≤ it.end_) →
    writeHeader h buffer = .ok (buffer ++ formatHeader (lengthsOf h))
  | [], buffer, _, _ => by simp [writeHeader, lengthsOf, formatHeader]
  | it :: rest, buffer, hid, hse => by
    have h1 : ¬ it.id.length > MaxIDLen := by
      have := hid it (List.mem_cons_self _ _)
      omega
    have h2 : leBytes 2 (it.id.length % 2 ^ 16) = leBytes 2 it.id.length :=
      leBytes_mod 2 it.id.length
    have h3 : leBytes 8 ((it.end_ + 2 ^ 64 - it.start) % 2 ^ 64) = leBytes 8 (it.end_ - it.start) := by
      have hle := hse it (List.mem_cons_self _ _)
      have e1 : it.end_ + 2 ^ 64 - it.start = (it.end_ - it.start) + 2 ^ 64 := by omega
      rw [e1, Nat.add_mod_right]
      exact leBytes_mod 8 _
    rw [writeHeader, if_neg h1, h2, h3,
      writeHeader_ok rest _ (fun x hx => hid x (List.mem_cons_of_mem _ hx))
        (fun x hx => hse x (List.mem_cons_of_mem _ hx))]
    simp [lengthsOf, formatHeader, formatEntry]

theorem writeHeader_error : ∀ (h : header) (buffer : List Byte),
    (∃ it ∈ h, it.id.length > MaxIDLen) →
    writeHeader h buffer = .error (.New "blob.Blob.Write: ID is too long")
  | [], _, hex => by simp at hex
  | it :: rest, buffer, hex => by
    rw [writeHeader]
    by_cases h1 : it.id.length > MaxIDLen
    · rw [if_pos h1]
    · rw [if_neg h1]
      apply writeHeader_error rest
      obtain ⟨x, hx, hlen⟩ := hex
      rcases List.mem_cons.1 hx with rfl | hmem
      · exact absurd hlen h1
      · exact ⟨x, hmem, hlen⟩

theorem Write_ok (b : Blob) (out : List Byte) (m : String) (hb : b.Tiled)
    (hid : ∀ it ∈ b.header, it.id.length ≤ MaxIDLen) :
    b.Write ⟨out, none, m⟩ = (none, ⟨out ++ formatBlob b, none, m⟩) := by
  have hse : ∀ it ∈ b.header, it.start ≤ it.end_ :=
    fun it hit => (tiles_mem _ _ _ hb it hit).2.1
  have h4 : leBytes 4 ((formatHeader (lengthsOf b.header)).length % 2 ^ 32)
      = leBytes 4 (formatHeader (lengthsOf b.header)).length := leBytes_mod 4 _
  simp only [Blob.Write, Blob.WriteTo, writeHeader_ok b.header [] hid hse, GoWriter.Write, List.nil_append, h4,
    formatBlob, entriesData_eq b hb, List.append_assoc]

/-! ## Dissecting a header -/

theorem dissect_nil (fuel overall : Nat) (h : header) :
    dissect fuel [] overall h = .ok (h, overall) := by
  cases fuel <;> simp [dissect]

theorem dissect_entry (fuel : Nat) (id : List Byte) (len : Nat) (rest : List Byte)
    (overall : Nat) (h : header) (hid : id.length < 2 ^ 16) (hlen : len < 2 ^ 64) :
    dissect (fuel + 1) (formatEntry id len ++ rest) overall h =
      dissect fuel rest ((overall + len) % 2 ^ 64)
        (h ++ [⟨id, overall, (overall + len) % 2 ^ 64⟩]) := by
  have e1 : formatEntry id len ++ rest
      = leBytes 2 id.length ++ (id ++ (leBytes 8 len ++ rest)) := by
    simp [formatEntry]
  have hpos : (leBytes 2 id.length ++ (id ++ (leBytes 8 len ++ rest))).length > 0 := by
    simp [leBytes_length]
  have r1 : bufferReadFull (leBytes 2 id.length ++ (id ++ (leBytes 8 len ++ rest))) 2
      = ((leBytes 2 id.length, none), id ++ (leBytes 8 len ++ rest)) := by
    have := bufferReadFull_append (leBytes 2 id.length) (id ++ (leBytes 8 len ++ rest))
    rwa [leBytes_length] at this
  have v1 : leValue (leBytes 2 id.length) = id.length :=
    leValue_leBytes_of_lt 2 _ (by norm_num at hid ⊢; exact hid)
  have r2 : bufferReadFull (leBytes 8 len ++ rest) 8 = ((leBytes 8 len, none), rest) := by
    have := bufferReadFull_append (leBytes 8 len) rest
    rwa [leBytes_length] at this
  have v2 : leValue (leBytes 8 len) = len :=
    leValue_leBytes_of_lt 8 _ (by norm_num at hlen ⊢; exact hlen)
  rw [e1, dissect, if_pos hpos, r1]
  simp only [v1, bufferNext, List.take_left, List.drop_left, ne_eq, not_true_eq_false, if_false,
    r2, v2]

theorem dissect_formatHeader : ∀ (es : List (List Byte × Nat)) (rest : List Byte)
    (fuel overall : Nat) (h : header),
    (∀ e ∈ es, e.1.length < 2 ^ 16 ∧ e.2 < 2 ^ 64) →
    es.length ≤ fuel →
    dissect fuel (formatHeader es ++ rest) overall h =
      dissect (fuel - es.length) rest (runningSum es overall).2
        (h ++ (runningSum es overall).1)
  | [], rest, fuel, overall, h, _, _ => by simp [formatHeader, runningSum]
  | e :: es, rest, fuel, overall, h, hes, hfuel => by
    obtain ⟨f, rfl⟩ : ∃ f, fuel = f + 1 := ⟨fuel - 1, by simp at hfuel; omega⟩
    have he := hes e (List.mem_cons_self _ _)
    simp only [formatHeader, List.append_assoc]
    rw [dissect_entry f e.1 e.2 _ overall h he.1 he.2,
      dissect_formatHeader es rest f _ _ (fun x hx => hes x (List.mem_cons_of_mem _ hx))
        (by simp at hfuel; omega)]
    simp [runningSum]

theorem dissect_complete (es : List (List Byte × Nat)) (fuel overall : Nat) (h : header)
    (hes : ∀ e ∈ es, e.1.length < 2 ^ 16 ∧ e.2 < 2 ^ 64) (hfuel : es.length ≤ fuel) :
    dissect fuel (formatHeader es) overall h =
      .ok (h ++ (runningSum es overall).1, (runningSum es overall).2) := by
  have := dissect_formatHeader es [] fuel overall h hes hfuel
  rw [List.append_nil, dissect_nil] at this
  exact this

theorem length_le_formatHeader_length (es : List (List Byte × Nat)) :
    es.length ≤ (formatHeader es).length := by
  induction es with
  | nil => simp [formatHeader]
  | cons e es ih =>
    simp only [formatHeader, formatEntry, List.length_append, leBytes_length, List.length_cons]
    omega

end blob

theorem drop_take_mid (pre mid post : List Byte) (i n : Nat) (hi : i = pre.length)
    (hn : n = mid.length) : ((pre ++ (mid ++ post)).drop i).take n = mid := by
  subst hi hn
  rw [List.drop_left, List.take_left]

namespace blob

/-! ## Reading what `Blob.Write` emits -/

theorem lengthsOf_valid (h : header) (lo total : Nat) (ht : tiles h lo total)
    (hid : ∀ it ∈ h, it.id.length ≤ MaxIDLen) (htot : total < 2 ^ 64) :
    ∀ e ∈ lengthsOf h, e.1.length < 2 ^ 16 ∧ e.2 < 2 ^ 64 := by
  intro e he
  simp only [lengthsOf, List.mem_map] at he
  obtain ⟨it, hit, rfl⟩ := he
  have h1 := hid it hit
  have h2 := tiles_mem h lo total ht it hit
  simp only [MaxIDLen] at h1
  constructor
  · simp only; omega
  · simp only; omega

theorem readHeader_format (pre post : List Byte) (es : List (List Byte × Nat)) (m : String)
    (hes : ∀ e ∈ es, e.1.length < 2 ^ 16 ∧ e.2 < 2 ^ 64)
    (hlen : (formatHeader es).length < 2 ^ 32) :
    readHeader ⟨pre ++ (leBytes 4 (formatHeader es).length ++ (formatHeader es ++ post)),
        pre.length, none, none, m⟩ =
      (.ok (runningSum es 0),
        ⟨pre ++ (leBytes 4 (formatHeader es).length ++ (formatHeader es ++ post)),
          pre.length + 4 + (formatHeader es).length, none, none, m⟩) := by
  have hfull : pre.length + 4 ≤
      (pre ++ (leBytes 4 (formatHeader es).length ++ (formatHeader es ++ post))).length := by
    simp only [List.length_append, leBytes_length]; omega
  have h4 : ((pre ++ (leBytes 4 (formatHeader es).length ++ (formatHeader es ++ post))).drop
      pre.length).take 4 = leBytes 4 (formatHeader es).length :=
    drop_take_mid _ _ _ _ _ rfl (leBytes_length _ _).symm
  have hv : leValue (leBytes 4 (formatHeader es).length) = (formatHeader es).length :=
    leValue_leBytes_of_lt 4 _ (by norm_num at hlen ⊢; exact hlen)
  unfold readHeader
  rw [ReadFull_plain _ _ _ _ hfull, h4]
  simp only [hv]
  by_cases h0 : (formatHeader es).length = 0
  · have hnil : es = [] := by
      have := length_le_formatHeader_length es
      exact List.length_eq_zero.1 (by omega)
    subst hnil
    simp [formatHeader, runningSum]
  · rw [if_neg h0, GoStream.Read_plain]
    have hnot : ¬ (pre ++ (leBytes 4 (formatHeader es).length ++ (formatHeader es ++ post))).length
        ≤ pre.length + 4 := by
      simp only [List.length_append, leBytes_length]; omega
    have hmid : ((pre ++ (leBytes 4 (formatHeader es).length ++ (formatHeader es ++ post))).drop
        (pre.length + 4)).take (formatHeader es).length = formatHeader es := by
      have e : pre ++ (leBytes 4 (formatHeader es).length ++ (formatHeader es ++ post))
          = (pre ++ leBytes 4 (formatHeader es).length) ++ (formatHeader es ++ post) := by
        simp
      rw [e]
      exact drop_take_mid _ _ _ _ _ (by simp [leBytes_length]) rfl
    rw [if_neg hnot, hmid]
    simp only [Nat.sub_self, List.replicate_zero, List.append_nil]
    rw [dissect_complete es _ 0 [] hes (length_le_formatHeader_length es)]
    simp

theorem Read_format (pre post : List Byte) (b : Blob) (m : String) (hb : b.Tiled)
    (hid : ∀ it ∈ b.header, it.id.length ≤ MaxIDLen)
    (hlen : (formatHeader (lengthsOf b.header)).length < 2 ^ 32)
    (hdata : b.data.length < 2 ^ 64) :
    Read ⟨pre ++ (formatBlob b ++ post), pre.length, none, none, m⟩ =
      (.ok b, ⟨pre ++ (formatBlob b ++ post), pre.length + (formatBlob b).length,
        none, none, m⟩) := by
  have hes := lengthsOf_valid b.header 0 b.data.length hb hid hdata
  have hrs := runningSum_tiles b.header 0 b.data.length hb hdata
  have e : pre ++ (formatBlob b ++ post)
      = pre ++ (leBytes 4 (formatHeader (lengthsOf b.header)).length
          ++ (formatHeader (lengthsOf b.header) ++ (b.data ++ post))) := by
    simp only [formatBlob, entriesData_eq b hb, List.append_assoc]
  have hl : (formatBlob b).length
      = 4 + (formatHeader (lengthsOf b.header)).length + b.data.length := by
    simp only [formatBlob, entriesData_eq b hb, leBytes_length, List.length_append]
  unfold Read
  rw [e, readHeader_format pre (b.data ++ post) _ m hes hlen, hrs]
  simp only
  by_cases h0 : b.data.length > 0
  · rw [if_pos h0, ReadFull_plain _ _ _ _ (by simp only [List.length_append, leBytes_length]; omega)]
    have hd : ((pre ++ (leBytes 4 (formatHeader (lengthsOf b.header)).length
          ++ (formatHeader (lengthsOf b.header) ++ (b.data ++ post)))).drop
        (pre.length + 4 + (formatHeader (lengthsOf b.header)).length)).take b.data.length
        = b.data := by
      have e2 : pre ++ (leBytes 4 (formatHeader (lengthsOf b.header)).length
          ++ (formatHeader (lengthsOf b.header) ++ (b.data ++ post)))
          = (pre ++ leBytes 4 (formatHeader (lengthsOf b.header)).length
              ++ formatHeader (lengthsOf b.header)) ++ (b.data ++ post) := by
        simp only [List.append_assoc]
      rw [e2]
      exact drop_take_mid _ _ _ _ _ (by simp only [List.length_append, leBytes_length]) rfl
    rw [hd, hl]
    have ha : pre.length + 4 + (formatHeader (lengthsOf b.header)).length + b.data.length
        = pre.length + (4 + (formatHeader (lengthsOf b.header)).length + b.data.length) := by
      omega
    rw [ha]
  · rw [if_neg h0]
    have hnil : b.data = [] := List.length_eq_zero.1 (by omega)
    have hb2 : (⟨b.header, []⟩ : Blob) = b := by
      rw [← hnil]
    have ha : pre.length + 4 + (formatHeader (lengthsOf b.header)).length
        = pre.length + (formatBlob b).length := by
      rw [hl, hnil, List.length_nil]; omega
    rw [hb2, ha]

theorem Open_of_ok (r r1 r2 : GoStream) (h : header) (n : Nat) (z : Int)
    (h1 : readHeader r = (.ok (h, n), r1)) (h2 : r1.Seek 0 SeekCurrent = ((z, none), r2)) :
    Open r = (.ok ⟨h, z⟩, r2) := by
  unfold Open
  rw [h1]
  simp only
  rw [h2]

theorem Open_format (pre post : List Byte) (b : Blob) (m : String) (hb : b.Tiled)
    (hid : ∀ it ∈ b.header, it.id.length ≤ MaxIDLen)
    (hlen : (formatHeader (lengthsOf b.header)).length < 2 ^ 32)
    (hdata : b.data.length < 2 ^ 64)
    (hpos : pre.length + 4 + (formatHeader (lengthsOf b.header)).length < 2 ^ 63) :
    Open ⟨pre ++ (formatBlob b ++ post), pre.length, none, none, m⟩ =
      (.ok ⟨b.header, ((pre.length + 4 + (formatHeader (lengthsOf b.header)).length : Nat) : Int)⟩,
        ⟨pre ++ (formatBlob b ++ post),
          pre.length + 4 + (formatHeader (lengthsOf b.header)).length, none, none, m⟩) := by
  have hes := lengthsOf_valid b.header 0 b.data.length hb hid hdata
  have hrs := runningSum_tiles b.header 0 b.data.length hb hdata
  have e : pre ++ (formatBlob b ++ post)
      = pre ++ (leBytes 4 (formatHeader (lengthsOf b.header)).length
          ++ (formatHeader (lengthsOf b.header) ++ (b.data ++ post))) := by
    simp only [formatBlob, entriesData_eq b hb, List.append_assoc]
  have h1 := readHeader_format pre (b.data ++ post) _ m hes hlen
  rw [hrs] at h1
  rw [e]
  exact Open_of_ok _ _ _ _ _ _ h1 (GoStream.Seek_current_plain _ _ _ hpos)

end blob

theorem GoStream.Seek_start_plain_neg (s : List Byte) (i : Nat) (m : String) (p : Int)
    (hp : p < 0) :
    (⟨s, i, none, none, m⟩ : GoStream).Seek p SeekStart =
      ((0, some (.New "bytes.Reader.Seek: negative position")), ⟨s, i, none, none, m⟩) := by
  simp [GoStream.Seek, SeekStart, SeekCurrent, SeekEnd, hp]

theorem GoStream.eq_plain (f : GoStream) (h : f.wellBehaved) :
    f = ⟨f.s, f.i, none, none, f.errMsg⟩ := by
  obtain ⟨s, i, fr, fs, m⟩ := f
  obtain ⟨h1, h2⟩ := h
  simp only at h1 h2
  subst h1 h2
  rfl

namespace blob

/-! ## One `Read` of a sub-reader -/

theorem reader.Read_end (r : reader) (file : GoStream) (n : Nat) (h : r.pos ≥ r.end_) :
    r.Read file n = ((([], some .EOF), r), file) := by
  unfold reader.Read
  rw [if_pos h]

theorem reader.Read_seek_error (r : reader) (file file1 : GoStream) (n : Nat) (x : Int)
    (err : GoError) (h : ¬ r.pos ≥ r.end_)
    (h1 : file.Seek r.pos SeekStart = ((x, some err), file1)) :
    r.Read file n = ((([], some err), r), file1) := by
  unfold reader.Read
  rw [if_neg h]
  simp only
  rw [h1]

theorem reader.Read_seek_ok (r : reader) (file file1 file2 : GoStream) (n : Nat) (x : Int)
    (bs : List Byte) (err : Option GoError) (h : ¬ r.pos ≥ r.end_)
    (h1 : file.Seek r.pos SeekStart = ((x, none), file1))
    (h2 : file1.Read (if (n : Int) > wrapInt64 (r.end_ - r.pos)
        then (wrapInt64 (r.end_ - r.pos)).toNat else n) = ((bs, err), file2)) :
    r.Read file n = (((bs, err), ⟨r.start, wrapInt64 (r.pos + bs.length), r.end_⟩), file2) := by
  unfold reader.Read
  rw [if_neg h]
  simp only
  rw [h1]
  simp only
  rw [h2]

/-- What a `Read` of a sub-reader returns, and the sub-reader afterwards, when the shared
stream never fails: a function of the bytes of the stream only. -/
theorem reader.Read_on_plain (r : reader) (s : List Byte) (i : Nat) (m : String) (n : Nat) :
    ∃ res : (List Byte × Option GoError) × reader, ∃ j : Nat,
      (∀ i2 m2, ∃ j2, r.Read ⟨s, i2, none, none, m2⟩ n = (res, ⟨s, j2, none, none, m2⟩)) ∧
      r.Read ⟨s, i, none, none, m⟩ n = (res, ⟨s, j, none, none, m⟩) := by
  by_cases h : r.pos ≥ r.end_
  · exact ⟨(([], some .EOF), r), i, fun i2 m2 => ⟨i2, reader.Read_end r _ n h⟩,
      reader.Read_end r _ n h⟩
  · by_cases hneg : r.pos < 0
    · exact ⟨(([], some (.New "bytes.Reader.Seek: negative position")), r), i,
        fun i2 m2 => ⟨i2, reader.Read_seek_error r _ _ n 0 _ h
          (GoStream.Seek_start_plain_neg s i2 m2 r.pos hneg)⟩,
        reader.Read_seek_error r _ _ n 0 _ h (GoStream.Seek_start_plain_neg s i m r.pos hneg)⟩
    · have hp : 0 ≤ r.pos := by omega
      by_cases hlen : s.length ≤ r.pos.toNat
      · have hr : ∀ i2 m2, r.Read ⟨s, i2, none, none, m2⟩ n =
            ((([], some .EOF), ⟨r.start, wrapInt64 (r.pos + ([] : List Byte).length), r.end_⟩),
              ⟨s, r.pos.toNat, none, none, m2⟩) := by
          intro i2 m2
          refine reader.Read_seek_ok r _ _ _ n r.pos [] (some .EOF) h
            (GoStream.Seek_start_plain s i2 m2 r.pos hp) ?_
          rw [GoStream.Read_plain, if_pos hlen]
        exact ⟨_, _, fun i2 m2 => ⟨_, hr i2 m2⟩, hr i m⟩
      · have hr : ∀ i2 m2, r.Read ⟨s, i2, none, none, m2⟩ n =
            ((((s.drop r.pos.toNat).take (if (n : Int) > wrapInt64 (r.end_ - r.pos)
                  then (wrapInt64 (r.end_ - r.pos)).toNat else n), none),
                ⟨r.start, wrapInt64 (r.pos + ((s.drop r.pos.toNat).take
                  (if (n : Int) > wrapInt64 (r.end_ - r.pos)
                    then (wrapInt64 (r.end_ - r.pos)).toNat else n)).length), r.end_⟩),
              ⟨s, r.pos.toNat + ((s.drop r.pos.toNat).take
                  (if (n : Int) > wrapInt64 (r.end_ - r.pos)
                    then (wrapInt64 (r.end_ - r.pos)).toNat else n)).length, none, none, m2⟩) := by
          intro i2 m2
          refine reader.Read_seek_ok r _ _ _ n r.pos _ none h
            (GoStream.Seek_start_plain s i2 m2 r.pos hp) ?_
          rw [GoStream.Read_plain, if_neg hlen]
        exact ⟨_, _, fun i2 m2 => ⟨_, hr i2 m2⟩, hr i m⟩

end blob

/-! ## Reading to the end -/

theorem readAllLoop_more {σ : Type} (read : σ → Nat → (List Byte × Option GoError) × σ)
    (fuel : Nat) (sizes : Nat → Nat) (st st1 : σ) (acc bs : List Byte)
    (h : read st (sizes 0) = ((bs, none), st1)) :
    readAllLoop read (fuel + 1) sizes st acc =
      readAllLoop read fuel (fun k => sizes (k + 1)) st1 (acc ++ bs) := by
  rw [readAllLoop, h]

theorem readAllLoop_eof {σ : Type} (read : σ → Nat → (List Byte × Option GoError) × σ)
    (fuel : Nat) (sizes : Nat → Nat) (st st1 : σ) (acc bs : List Byte)
    (h : read st (sizes 0) = ((bs, some .EOF), st1)) :
    readAllLoop read (fuel + 1) sizes st acc = some ((acc ++ bs, none), st1) := by
  rw [readAllLoop, h]

namespace blob

theorem reader.Read_window (r : reader) (s : List Byte) (i : Nat) (m : String) (n : Nat)
    (h0 : 0 ≤ r.pos) (h1 : r.pos < r.end_) (h2 : r.end_ ≤ s.length) (h3 : s.length < 2 ^ 63) :
    r.Read ⟨s, i, none, none, m⟩ n =
      (((subslice s r.pos.toNat (r.pos.toNat + min n (r.end_ - r.pos).toNat), none),
          ⟨r.start, r.pos + (min n (r.end_ - r.pos).toNat : Nat), r.end_⟩),
        ⟨s, r.pos.toNat + min n (r.end_ - r.pos).toNat, none, none, m⟩) := by
  have hw : wrapInt64 (r.end_ - r.pos) = r.end_ - r.pos :=
    wrapInt64_of_bounds _ (by omega) (by omega)
  have hn1 : (if (n : Int) > wrapInt64 (r.end_ - r.pos)
      then (wrapInt64 (r.end_ - r.pos)).toNat else n) = min n (r.end_ - r.pos).toNat := by
    rw [hw]
    split <;> omega
  have hlen : ¬ s.length ≤ r.pos.toNat := by omega
  have hbs : ((s.drop r.pos.toNat).take (min n (r.end_ - r.pos).toNat)).length
      = min n (r.end_ - r.pos).toNat := by
    rw [List.length_take, List.length_drop]; omega
  have hsub : subslice s r.pos.toNat (r.pos.toNat + min n (r.end_ - r.pos).toNat)
      = (s.drop r.pos.toNat).take (min n (r.end_ - r.pos).toNat) := by
    unfold subslice
    rw [Nat.add_sub_cancel_left]
  have hread : (⟨s, r.pos.toNat, none, none, m⟩ : GoStream).Read
      (if (n : Int) > wrapInt64 (r.end_ - r.pos)
        then (wrapInt64 (r.end_ - r.pos)).toNat else n) =
      ((subslice s r.pos.toNat (r.pos.toNat + min n (r.end_ - r.pos).toNat), none),
        ⟨s, r.pos.toNat + min n (r.end_ - r.pos).toNat, none, none, m⟩) := by
    rw [hn1, GoStream.Read_plain, if_neg hlen, hbs, hsub]
  have := reader.Read_seek_ok r _ _ _ n r.pos _ none (by omega)
    (GoStream.Seek_start_plain s i m r.pos h0) hread
  rw [this, hsub, hbs, wrapInt64_of_bounds _ (by omega) (by omega)]

theorem reader.ReadAll_window (s : List Byte) (m : String) (hs : s.length < 2 ^ 63) :
    ∀ (fuel : Nat) (sizes : Nat → Nat) (r : reader) (i : Nat) (acc : List Byte),
      (∀ k, 0 < sizes k) → 0 ≤ r.pos → r.pos ≤ r.end_ → r.end_ ≤ s.length →
      (r.end_ - r.pos).toNat < fuel →
      ∃ st, readAllLoop reader.step fuel sizes (r, ⟨s, i, none, none, m⟩) acc =
        some ((acc ++ subslice s r.pos.toNat r.end_.toNat, none), st)
  | 0, _, _, _, _, _, _, _, _, hf => by omega
  | fuel + 1, sizes, r, i, acc, hsz, h0, h1, h2, hf => by
    by_cases hend : r.pos ≥ r.end_
    · have hstep : reader.step (r, ⟨s, i, none, none, m⟩) (sizes 0)
          = (([], some .EOF), (r, ⟨s, i, none, none, m⟩)) := by
        unfold reader.step
        simp only
        rw [reader.Read_end r _ _ hend]
      refine ⟨(r, ⟨s, i, none, none, m⟩), ?_⟩
      rw [readAllLoop_eof reader.step fuel sizes _ _ acc [] hstep]
      have he : r.pos = r.end_ := by omega
      simp [subslice, he]
    · have hlt : r.pos < r.end_ := by omega
      have hk := hsz 0
      have hstep : reader.step (r, ⟨s, i, none, none, m⟩) (sizes 0)
          = ((subslice s r.pos.toNat (r.pos.toNat + min (sizes 0) (r.end_ - r.pos).toNat), none),
              ((⟨r.start, r.pos + (min (sizes 0) (r.end_ - r.pos).toNat : Nat), r.end_⟩ : reader),
                (⟨s, r.pos.toNat + min (sizes 0) (r.end_ - r.pos).toNat, none, none, m⟩
                  : GoStream))) := by
        unfold reader.step
        simp only
        rw [reader.Read_window r s i m (sizes 0) h0 hlt h2 hs]
      obtain ⟨st, hst⟩ := reader.ReadAll_window s m hs fuel (fun k => sizes (k + 1))
        ⟨r.start, r.pos + (min (sizes 0) (r.end_ - r.pos).toNat : Nat), r.end_⟩
        (r.pos.toNat + min (sizes 0) (r.end_ - r.pos).toNat)
        (acc ++ subslice s r.pos.toNat (r.pos.toNat + min (sizes 0) (r.end_ - r.pos).toNat))
        (fun k => hsz (k + 1)) (by simp only; omega) (by simp only; omega) h2
        (by simp only; omega)
      refine ⟨st, ?_⟩
      rw [readAllLoop_more reader.step fuel sizes _ _ acc _ hstep, hst]
      have e1 : (r.pos + ((min (sizes 0) (r.end_ - r.pos).toNat : Nat) : Int)).toNat
          = r.pos.toNat + min (sizes 0) (r.end_ - r.pos).toNat := by omega
      simp only [e1, List.append_assoc]
      rw [subslice_append s _ _ _ (by omega) (by omega)]

/-! ## Blobs built by `Append` -/

theorem appendAll_header_length : ∀ (pairs : List (List Byte × List Byte)) (b : Blob),
    (appendAll b pairs).header.length = b.header.length + pairs.length
  | [], b => by simp [appendAll]
  | p :: rest, b => by
    rw [appendAll, appendAll_header_length rest]
    simp [Blob.Append]
    omega

theorem appendAll_data : ∀ (pairs : List (List Byte × List Byte)) (b : Blob),
    (appendAll b pairs).data = b.data ++ (pairs.map (fun p => p.2)).flatten
  | [], b => by simp [appendAll]
  | p :: rest, b => by
    rw [appendAll, appendAll_data rest]
    simp [Blob.Append]

theorem appendAll_ids : ∀ (pairs : List (List Byte × List Byte)) (b : Blob),
    (appendAll b pairs).header.map (fun it => it.id)
      = b.header.map (fun it => it.id) ++ pairs.map (fun p => p.1)
  | [], b => by simp [appendAll]
  | p :: rest, b => by
    rw [appendAll, appendAll_ids rest]
    simp [Blob.Append]

theorem formatHeader_lengthsOf_length (h : header) :
    (formatHeader (lengthsOf h)).length = ((h.map (fun it => it.id)).map (fun x => x.length + 10)).sum := by
  rw [formatHeader_length, lengthsOf, List.map_map, List.map_map]
  rfl

theorem headerSize_appendAll (pairs : List (List Byte × List Byte)) :
    (formatHeader (lengthsOf (appendAll New pairs).header)).length
      = (pairs.map (fun p => p.1.length + 10)).sum := by
  rw [formatHeader_lengthsOf_length, appendAll_ids]
  simp [New, List.map_map, Function.comp_def]

theorem dataSize_appendAll (pairs : List (List Byte × List Byte)) :
    (appendAll New pairs).data.length = (pairs.map (fun p => p.2.length)).sum := by
  rw [appendAll_data]
  simp [New, List.length_flatten, List.map_map, Function.comp_def]

theorem ids_appendAll (pairs : List (List Byte × List Byte))
    (hid : ∀ p ∈ pairs, p.1.length ≤ MaxIDLen) :
    ∀ it ∈ (appendAll New pairs).header, it.id.length ≤ MaxIDLen := by
  intro it hit
  have h1 : it.id ∈ (appendAll New pairs).header.map (fun it => it.id) :=
    List.mem_map_of_mem _ hit
  rw [appendAll_ids] at h1
  simp only [New, List.map_nil, List.nil_append, List.mem_map] at h1
  obtain ⟨p, hp, hpe⟩ := h1
  rw [← hpe]
  exact hid p hp

/-! ## The blob whose header is `2 ^ 32` bytes long -/

theorem hugePairs_ids : ∀ p ∈ hugePairs, p.1.length ≤ MaxIDLen := by
  intro p hp
  rw [hugePairs] at hp
  have := List.eq_of_mem_replicate hp
  subst this
  rw [List.length_replicate]
  decide

theorem sum_replicate_nat (n a : Nat) : (List.replicate n a).sum = n * a := by
  induction n with
  | zero => simp
  | succ k ih => rw [List.replicate_succ, List.sum_cons, ih]; ring

theorem headerSize_replicate (n m : Nat) (x : Byte) (d : List Byte) :
    (formatHeader (lengthsOf (appendAll New (List.replicate n (List.replicate m x, d))).header)).length
      = n * (m + 10) := by
  rw [headerSize_appendAll, List.map_replicate, sum_replicate_nat]
  simp only [List.length_replicate]

theorem hugePairs_headerSize :
    (formatHeader (lengthsOf (appendAll New hugePairs).header)).length = 2 ^ 32 := by
  have h := headerSize_replicate 65536 65526 97 []
  have e : 65536 * (65526 + 10) = 2 ^ 32 := by norm_num
  rw [e] at h
  rw [hugePairs]
  exact h

theorem hugePairs_data : (appendAll New hugePairs).data = [] := by
  have hflat : ∀ n : Nat, (List.replicate n ([] : List Byte)).flatten = [] := by
    intro n
    induction n with
    | zero => rfl
    | succ k ih => rw [List.replicate_succ, List.flatten_cons, ih, List.nil_append]
  rw [appendAll_data, hugePairs, List.map_replicate, hflat]
  rfl

theorem hugePairs_Write (out : List Byte) (m : String) :
    (appendAll New hugePairs).Write ⟨out, none, m⟩ =
      (none, ⟨out ++ ([0, 0, 0, 0]
        ++ formatHeader (lengthsOf (appendAll New hugePairs).header)), none, m⟩) := by
  rw [Write_ok _ out m (Tiled_appendAll _ _ Tiled_New) (ids_appendAll _ hugePairs_ids)]
  have h4 : leBytes 4 (formatHeader (lengthsOf (appendAll New hugePairs).header)).length
      = [0, 0, 0, 0] := by
    rw [hugePairs_headerSize]
    decide
  rw [formatBlob, h4, entriesData_eq _ (Tiled_appendAll _ _ Tiled_New), hugePairs_data]
  simp only [List.append_nil]

theorem readHeader_zero (rest : List Byte) (m : String) :
    readHeader ⟨[0, 0, 0, 0] ++ rest, 0, none, none, m⟩ =
      (.ok ([], 0), ⟨[0, 0, 0, 0] ++ rest, 4, none, none, m⟩) := by
  have h := ReadFull_plain ([0, 0, 0, 0] ++ rest) 0 m 4 (by simp)
  simp only [List.drop_zero, Nat.zero_add] at h
  have h4 : ([0, 0, 0, 0] ++ rest).take 4 = [0, 0, 0, 0] := rfl
  rw [h4] at h
  unfold readHeader
  rw [h]
  simp only
  have hv : leValue ([0, 0, 0, 0] : List Byte) = 0 := by decide
  rw [if_pos hv]

theorem Read_zero (rest : List Byte) (m : String) :
    Read ⟨[0, 0, 0, 0] ++ rest, 0, none, none, m⟩ =
      (.ok ⟨[], []⟩, ⟨[0, 0, 0, 0] ++ rest, 4, none, none, m⟩) := by
  unfold Read
  rw [readHeader_zero]
  simp only
  rw [if_neg (by omega)]

theorem hugePairs_Write_buffer :
    (appendAll New hugePairs).Write GoWriter.buffer =
      (none, ⟨[0, 0, 0, 0] ++ formatHeader (lengthsOf (appendAll New hugePairs).header),
        none, ""⟩) := by
  have hw := hugePairs_Write [] ""
  rw [List.nil_append] at hw
  rw [GoWriter.buffer, hw]

theorem writeHeader_isOk : ∀ (h : header) (buffer : List Byte),
    (∀ it ∈ h, it.id.length ≤ MaxIDLen) → ∃ out, writeHeader h buffer = .ok out
  | [], buffer, _ => ⟨buffer, by simp [writeHeader]⟩
  | it :: rest, buffer, hid => by
    have h1 : ¬ it.id.length > MaxIDLen := by
      have := hid it (List.mem_cons_self _ _)
      omega
    rw [writeHeader, if_neg h1]
    exact writeHeader_isOk rest _ (fun x hx => hid x (List.mem_cons_of_mem _ hx))

theorem Write_of_header_ok (b : Blob) (out buffer : List Byte) (m : String)
    (h : writeHeader b.header [] = .ok buffer) :
    b.Write ⟨out, none, m⟩ =
      (none, ⟨out ++ leBytes 4 (buffer.length % 2 ^ 32) ++ buffer ++ b.data, none, m⟩) := by
  unfold Blob.Write Blob.WriteTo
  rw [h]
  simp only [GoWriter.Write]

theorem Write_of_header_error (b : Blob) (w : GoWriter) (err : GoError)
    (h : writeHeader b.header [] = .error err) :
    b.Write w = (some err, w) := by
  unfold Blob.Write Blob.WriteTo
  rw [h]

theorem Open_zero (rest : List Byte) (m : String) :
    Open ⟨[0, 0, 0, 0] ++ rest, 0, none, none, m⟩ =
      (.ok ⟨[], 4⟩, ⟨[0, 0, 0, 0] ++ rest, 4, none, none, m⟩) :=
  Open_of_ok _ _ _ _ _ _ (readHeader_zero rest m)
    (GoStream.Seek_current_plain _ 4 m (by norm_num))

/-! ## Claims C1, C2, C5, C6 -/

/-- The round trip of C1 where the header length fits its field: for every sequence of
`(id, data)` pairs in which each id is at most
65535 bytes long, whose header entries (ten bytes plus the id, per pair) take less than
`2 ^ 32` bytes together and whose data fit a Go slice, appending the pairs to a fresh
blob, writing it to a buffer and reading the written bytes succeeds and yields a blob
with the same `ItemCount`, the same `GetIDAtIndex`, the same `GetByIndex` and the same
`GetByID` as the original blob. -/
theorem write_read_roundtrip (pairs : List (List Byte × List Byte))
    (hid : ∀ p ∈ pairs, p.1.length ≤ MaxIDLen)
    (hhdr : (pairs.map (fun p => p.1.length + 10)).sum < 2 ^ 32)
    (hdata : (pairs.map (fun p => p.2.length)).sum < 2 ^ 63) :
    ((appendAll New pairs).Write GoWriter.buffer).1 = none ∧
    ∃ b2 : Blob,
      (Read (GoStream.at ((appendAll New pairs).Write GoWriter.buffer).2.out 0)).1 = .ok b2 ∧
      ItemCount b2.header = ItemCount (appendAll New pairs).header ∧
      (∀ i, GetIDAtIndex b2.header i = GetIDAtIndex (appendAll New pairs).header i) ∧
      (∀ i, b2.GetByIndex i = (appendAll New pairs).GetByIndex i) ∧
      (∀ id, b2.GetByID id = (appendAll New pairs).GetByID id) := by
  have hb : (appendAll New pairs).Tiled := Tiled_appendAll _ _ Tiled_New
  have hids := ids_appendAll pairs hid
  have hw := Write_ok (appendAll New pairs) [] "" hb hids
  have hr := Read_format [] [] (appendAll New pairs) "" hb hids
    (by rw [headerSize_appendAll]; exact hhdr)
    (by rw [dataSize_appendAll]; omega)
  simp only [List.nil_append, List.append_nil, List.length_nil, Nat.zero_add] at hw hr
  refine ⟨by rw [GoWriter.buffer, hw], appendAll New pairs, ?_, rfl, fun _ => rfl, fun _ => rfl,
    fun _ => rfl⟩
  rw [GoWriter.buffer, hw, GoStream.at, hr]

/-- Witness of `write_read_roundtrip`: the pairs `("a", [1,2,3])`, `("bb", [4,5])`. -/
theorem write_read_roundtrip_witness :
    ((appendAll New [([97], [1, 2, 3]), ([98, 98], [4, 5])]).Write GoWriter.buffer).1 = none ∧
    ∃ b2 : Blob,
      (Read (GoStream.at
        ((appendAll New [([97], [1, 2, 3]), ([98, 98], [4, 5])]).Write GoWriter.buffer).2.out
        0)).1 = .ok b2 ∧
      ItemCount b2.header = ItemCount (appendAll New [([97], [1, 2, 3]), ([98, 98], [4, 5])]).header ∧
      (∀ i, GetIDAtIndex b2.header i
        = GetIDAtIndex (appendAll New [([97], [1, 2, 3]), ([98, 98], [4, 5])]).header i) ∧
      (∀ i, b2.GetByIndex i
        = (appendAll New [([97], [1, 2, 3]), ([98, 98], [4, 5])]).GetByIndex i) ∧
      (∀ id, b2.GetByID id = (appendAll New [([97], [1, 2, 3]), ([98, 98], [4, 5])]).GetByID id) :=
  write_read_roundtrip [([97], [1, 2, 3]), ([98, 98], [4, 5])] (by decide) (by decide) (by decide)

/-- C1 fails on the code: the `65536` pairs `hugePairs` have ids of `65526` bytes, within
the limit, and the header of the blob built from them is `2 ^ 32` bytes long; `Write`
returns no error but stores `uint32(buffer.Len())`, which is zero, as the header length,
so reading the written bytes yields a blob with no items instead of `65536`. -/
theorem write_read_roundtrip_fails_at_hugePairs :
    (∀ p ∈ hugePairs, p.1.length ≤ 65535) ∧
    ((appendAll New hugePairs).Write GoWriter.buffer).1 = none ∧
    ∃ b2 : Blob,
      (Read (GoStream.at ((appendAll New hugePairs).Write GoWriter.buffer).2.out 0)).1 = .ok b2 ∧
      ItemCount b2.header = 0 ∧ ItemCount (appendAll New hugePairs).header = 65536 := by
  refine ⟨hugePairs_ids, by rw [hugePairs_Write_buffer], ⟨[], []⟩, ?_, rfl, ?_⟩
  · rw [hugePairs_Write_buffer, GoStream.at, Read_zero]
  · unfold ItemCount
    rw [appendAll_header_length, hugePairs, List.length_replicate]
    rfl

/-- The layout of C2 where the header length fits its field: for every blob that
satisfies the tiling invariant, whose ids are
each at most 65535 bytes long and whose header takes less than `2 ^ 32` bytes, `Write`
to a writer that never fails returns no error and appends exactly the serialized form
`formatBlob`: the header length as a little-endian `uint32`, then per entry the id
length as a `uint16`, the id and the data length `end - start` as a `uint64`, then the
data of all entries in order; the leading `uint32` is the number of header bytes, and
the header is what follows it. -/
theorem Write_layout (b : Blob) (w : GoWriter) (hw : w.failAtWrite = none) (hb : b.Tiled)
    (hid : ∀ it ∈ b.header, it.id.length ≤ MaxIDLen)
    (hhdr : (formatHeader (lengthsOf b.header)).length < 2 ^ 32) :
    b.Write w = (none, ⟨w.out ++ formatBlob b, none, w.errMsg⟩) ∧
    leValue ((formatBlob b).take 4) = (formatHeader (lengthsOf b.header)).length ∧
    ((formatBlob b).drop 4).take (leValue ((formatBlob b).take 4))
      = formatHeader (lengthsOf b.header) := by
  have h4 : (formatBlob b).take 4 = leBytes 4 (formatHeader (lengthsOf b.header)).length := by
    unfold formatBlob
    rw [List.append_assoc]
    exact List.take_left' (leBytes_length _ _)
  have hv : leValue (leBytes 4 (formatHeader (lengthsOf b.header)).length)
      = (formatHeader (lengthsOf b.header)).length :=
    leValue_leBytes_of_lt 4 _ (by norm_num at hhdr ⊢; exact hhdr)
  refine ⟨?_, by rw [h4, hv], ?_⟩
  · obtain ⟨out, f, m⟩ := w
    simp only at hw
    subst hw
    exact Write_ok b out m hb hid
  · rw [h4, hv]
    unfold formatBlob
    rw [List.append_assoc, List.drop_left' (leBytes_length _ _), List.take_left]

/-- Witness of `Write_layout`: the blob of the scenario and a fresh buffer. -/
theorem Write_layout_witness :
    scenarioBlob.Write GoWriter.buffer
      = (none, ⟨GoWriter.buffer.out ++ formatBlob scenarioBlob, none, GoWriter.buffer.errMsg⟩) ∧
    leValue ((formatBlob scenarioBlob).take 4)
      = (formatHeader (lengthsOf scenarioBlob.header)).length ∧
    ((formatBlob scenarioBlob).drop 4).take (leValue ((formatBlob scenarioBlob).take 4))
      = formatHeader (lengthsOf scenarioBlob.header) :=
  Write_layout scenarioBlob GoWriter.buffer rfl (by decide) (by decide) (by decide)

/-- C2 fails on the code: the blob built from `hugePairs` has ids within the limit, and
`Write` returns no error and emits for it a leading `uint32` of zero followed by the
`2 ^ 32` bytes of the header, so the leading `uint32` is not the number of header bytes
that follow it, which the description of the format at `Write` says it is. -/
theorem Write_layout_fails_at_hugePairs :
    (∀ it ∈ (appendAll New hugePairs).header, it.id.length ≤ 65535) ∧
    (appendAll New hugePairs).Tiled ∧
    ∃ hdr : List Byte,
      (appendAll New hugePairs).Write GoWriter.buffer
        = (none, ⟨[0, 0, 0, 0] ++ hdr, none, ""⟩) ∧
      hdr = formatHeader (lengthsOf (appendAll New hugePairs).header) ∧
      hdr.length = 4294967296 ∧ leValue ([0, 0, 0, 0] : List Byte) = 0 := by
  exact ⟨ids_appendAll _ hugePairs_ids, Tiled_appendAll _ _ Tiled_New, _,
    hugePairs_Write_buffer, rfl, hugePairs_headerSize, by decide⟩

/-- C5, as amended: appending `("a", [1,2,3])` and then `("bb", [4,5])` to a fresh blob
and calling `Write` produces exactly the bytes `23,0,0,0, 1,0,'a', 3,0,0,0,0,0,0,0,
2,0,'b','b', 2,0,0,0,0,0,0,0, 1,2,3, 4,5`: the id `"a"` is one byte long and the header
length field is `23 = (2+1+8)+(2+2+8)`. -/
theorem scenario_bytes :
    scenarioBlob = (New.Append [97] [1, 2, 3]).Append [98, 98] [4, 5] ∧
    scenarioBlob.Write GoWriter.buffer =
      (none, ⟨[23, 0, 0, 0, 1, 0, 97, 3, 0, 0, 0, 0, 0, 0, 0, 2, 0, 98, 98,
        2, 0, 0, 0, 0, 0, 0, 0, 1, 2, 3, 4, 5], none, ""⟩) :=
  ⟨rfl, by decide⟩

/-- C5 fails as stated: the bytes that `Write` produces for the scenario are not the
sequence `25,0,0,0, 2,0,'a', 3,0,0,0,0,0,0,0, 2,0,'b','b', 2,0,0,0,0,0,0,0, 1,2,3, 4,5`
of the claim. -/
theorem scenario_bytes_not_as_claimed :
    (((New.Append [97] [1, 2, 3]).Append [98, 98] [4, 5]).Write GoWriter.buffer).2.out ≠
      [25, 0, 0, 0, 2, 0, 97, 3, 0, 0, 0, 0, 0, 0, 0, 2, 0, 98, 98,
        2, 0, 0, 0, 0, 0, 0, 0, 1, 2, 3, 4, 5] := by
  decide

/-- C6: with a writer that never fails, `Write` returns an error exactly when some id is
longer than `MaxIDLen = 65535` bytes; an id of exactly 65535 bytes is written, one of
65536 bytes is rejected; and when an id is too long `Write` returns the error
`"blob.Blob.Write: ID is too long"` and leaves the writer as it was, with no byte
written. -/
theorem Write_fails_iff_id_too_long (b : Blob) (w : GoWriter) (hw : w.failAtWrite = none) :
    MaxIDLen = 65535 ∧
    ((b.Write w).1 ≠ none ↔ ∃ it ∈ b.header, it.id.length > MaxIDLen) ∧
    ((∃ it ∈ b.header, it.id.length > MaxIDLen) →
      b.Write w = (some (.New "blob.Blob.Write: ID is too long"), w)) ∧
    (∀ id data : List Byte, id.length = 65535 → ((New.Append id data).Write w).1 = none) ∧
    (∀ id data : List Byte, id.length = 65536 → ((New.Append id data).Write w).1 ≠ none) := by
  obtain ⟨out, f, m⟩ := w
  simp only at hw
  subst hw
  have hbad : ∀ b : Blob, (∃ it ∈ b.header, it.id.length > MaxIDLen) →
      b.Write ⟨out, none, m⟩ = (some (.New "blob.Blob.Write: ID is too long"), ⟨out, none, m⟩) :=
    fun b h => Write_of_header_error b _ _ (writeHeader_error b.header [] h)
  have hgood : ∀ b : Blob, (∀ it ∈ b.header, it.id.length ≤ MaxIDLen) →
      (b.Write ⟨out, none, m⟩).1 = none := by
    intro b h
    obtain ⟨buffer, hbuf⟩ := writeHeader_isOk b.header [] h
    rw [Write_of_header_ok b out buffer m hbuf]
  refine ⟨rfl, ⟨?_, ?_⟩, hbad b, ?_, ?_⟩
  · intro herr
    by_contra hno
    exact herr (hgood b (fun it hit => by
      by_contra hlt
      exact hno ⟨it, hit, by omega⟩))
  · intro hex
    rw [hbad b hex]
    simp
  · intro id data hlen
    apply hgood
    intro it hit
    simp only [Blob.Append, New, List.nil_append, List.mem_singleton] at hit
    subst hit
    simp only [MaxIDLen]
    omega
  · intro id data hlen
    rw [hbad (New.Append id data) ⟨⟨id, 0, 0 + data.length⟩, by simp [Blob.Append, New], by
      simp only [MaxIDLen]; omega⟩]
    simp

/-- Witness of `Write_fails_iff_id_too_long`: the blob of the scenario and a fresh
buffer. -/
theorem Write_fails_iff_id_too_long_witness :
    MaxIDLen = 65535 ∧
    ((scenarioBlob.Write GoWriter.buffer).1 ≠ none ↔
      ∃ it ∈ scenarioBlob.header, it.id.length > MaxIDLen) ∧
    ((∃ it ∈ scenarioBlob.header, it.id.length > MaxIDLen) →
      scenarioBlob.Write GoWriter.buffer
        = (some (.New "blob.Blob.Write: ID is too long"), GoWriter.buffer)) ∧
    (∀ id data : List Byte, id.length = 65535 →
      ((New.Append id data).Write GoWriter.buffer).1 = none) ∧
    (∀ id data : List Byte, id.length = 65536 →
      ((New.Append id data).Write GoWriter.buffer).1 ≠ none) :=
  Write_fails_iff_id_too_long scenarioBlob GoWriter.buffer rfl

end blob

theorem subslice_shift (front data : List Byte) (z a b : Nat) (hz : z = front.length) :
    subslice (front ++ data) (z + a) (z + b) = subslice data a b := by
  subst hz
  unfold subslice
  rw [List.drop_append, Nat.add_sub_add_left]

theorem subslice_length (data : List Byte) (a b : Nat) (h : b ≤ data.length) :
    (subslice data a b).length = b - a := by
  unfold subslice
  rw [List.length_take, List.length_drop]
  omega

namespace blob

/-! ## The lazy reader on what `Blob.Write` emits -/

theorem findByID_mem : ∀ (h : header) (id : List Byte) (it : indexItem),
    findByID h id = some it → it ∈ h
  | [], _, _, hf => by simp [findByID] at hf
  | x :: rest, id, it, hf => by
    rw [findByID] at hf
    by_cases hx : x.id = id
    · rw [if_pos hx] at hf
      cases hf
      exact List.mem_cons_self _ _
    · rw [if_neg hx] at hf
      exact List.mem_cons_of_mem _ (findByID_mem rest id it hf)

theorem GetByID_cases (b : Blob) (id : List Byte) :
    (b.GetByID id = ([], false) ∧
        ∀ z, (⟨b.header, z⟩ : BlobReader).GetByID id = (none, false)) ∨
    ∃ it ∈ b.header, b.GetByID id = (subslice b.data it.start it.end_, true) ∧
      ∀ z, (⟨b.header, z⟩ : BlobReader).GetByID id
        = (some ((⟨b.header, z⟩ : BlobReader).readerFor it), true) := by
  cases hf : findByID b.header id with
  | none =>
    left
    refine ⟨?_, fun z => ?_⟩
    · unfold Blob.GetByID; rw [hf]
    · unfold BlobReader.GetByID; simp only; rw [hf]
  | some it =>
    right
    refine ⟨it, findByID_mem _ _ _ hf, ?_, fun z => ?_⟩
    · unfold Blob.GetByID; rw [hf]
    · unfold BlobReader.GetByID; simp only; rw [hf]

theorem GetByIndex_cases (b : Blob) (i : Int) :
    (b.GetByIndex i = ([], false) ∧
        ∀ z, (⟨b.header, z⟩ : BlobReader).GetByIndex i = (none, false)) ∨
    ∃ it ∈ b.header, b.GetByIndex i = (subslice b.data it.start it.end_, true) ∧
      ∀ z, (⟨b.header, z⟩ : BlobReader).GetByIndex i
        = (some ((⟨b.header, z⟩ : BlobReader).readerFor it), true) := by
  by_cases hi : i < 0 ∨ i ≥ b.header.length
  · left
    refine ⟨?_, fun z => ?_⟩
    · unfold Blob.GetByIndex; rw [if_pos hi]
    · unfold BlobReader.GetByIndex; simp only; rw [if_pos hi]
  · cases hg : b.header.get? i.toNat with
    | none =>
      left
      refine ⟨?_, fun z => ?_⟩
      · unfold Blob.GetByIndex; rw [if_neg hi, hg]
      · unfold BlobReader.GetByIndex; simp only; rw [if_neg hi, hg]
    | some it =>
      right
      refine ⟨it, List.get?_mem hg, ?_, fun z => ?_⟩
      · unfold Blob.GetByIndex; rw [if_neg hi, hg]
      · unfold BlobReader.GetByIndex; simp only; rw [if_neg hi, hg]

theorem readerFor_eq (h : header) (z : Nat) (it : indexItem) (total : Nat)
    (h1 : it.start ≤ it.end_) (h2 : it.end_ ≤ total) (h3 : z + total < 2 ^ 63) :
    (⟨h, (z : Int)⟩ : BlobReader).readerFor it
      = ⟨((z + it.start : Nat) : Int), ((z + it.start : Nat) : Int),
          ((z + it.end_ : Nat) : Int)⟩ := by
  unfold BlobReader.readerFor
  simp only
  rw [toInt64_of_lt it.start (by omega), toInt64_of_lt it.end_ (by omega),
    wrapInt64_of_bounds _ (by omega) (by omega), wrapInt64_of_bounds _ (by omega) (by omega)]
  simp only [Nat.cast_add]

theorem ReadAll_entry (b : Blob) (pre : List Byte) (it : indexItem) (hb : b.Tiled)
    (hit : it ∈ b.header)
    (hsize : (pre ++ formatBlob b).length < 2 ^ 63)
    (file2 : GoStream) (hw : file2.wellBehaved) (hs : file2.s = pre ++ formatBlob b)
    (fuel : Nat) (sizes : Nat → Nat) (hsz : ∀ k, 0 < sizes k)
    (hfuel : (subslice b.data it.start it.end_).length < fuel) :
    (reader.ReadAll fuel sizes
      ((⟨b.header, ((pre.length + 4 + (formatHeader (lengthsOf b.header)).length : Nat) : Int)⟩
        : BlobReader).readerFor it) file2).map (fun x => x.1)
      = some (subslice b.data it.start it.end_, none) := by
  have hm := tiles_mem _ _ _ hb it hit
  have hfl : (formatBlob b).length
      = 4 + (formatHeader (lengthsOf b.header)).length + b.data.length := by
    simp only [formatBlob, entriesData_eq b hb, leBytes_length, List.length_append]
  have hsz2 : pre.length + 4 + (formatHeader (lengthsOf b.header)).length + b.data.length
      < 2 ^ 63 := by
    rw [List.length_append, hfl] at hsize
    omega
  have hsplit : pre ++ formatBlob b
      = (pre ++ leBytes 4 (formatHeader (lengthsOf b.header)).length
          ++ formatHeader (lengthsOf b.header)) ++ b.data := by
    simp only [formatBlob, entriesData_eq b hb, List.append_assoc]
  have hfront : pre.length + 4 + (formatHeader (lengthsOf b.header)).length
      = (pre ++ leBytes 4 (formatHeader (lengthsOf b.header)).length
          ++ formatHeader (lengthsOf b.header)).length := by
    simp only [List.length_append, leBytes_length]
  rw [readerFor_eq b.header _ it b.data.length hm.2.1 hm.2.2 hsz2, GoStream.eq_plain file2 hw, hs]
  have hlen := subslice_length b.data it.start it.end_ hm.2.2
  obtain ⟨st, hst⟩ := reader.ReadAll_window (pre ++ formatBlob b) file2.errMsg hsize fuel sizes
    ⟨((pre.length + 4 + (formatHeader (lengthsOf b.header)).length + it.start : Nat) : Int),
      ((pre.length + 4 + (formatHeader (lengthsOf b.header)).length + it.start : Nat) : Int),
      ((pre.length + 4 + (formatHeader (lengthsOf b.header)).length + it.end_ : Nat) : Int)⟩
    file2.i [] hsz (by simp only; omega) (by simp only; omega)
    (by simp only; rw [List.length_append, hfl]; omega) (by simp only; omega)
  unfold reader.ReadAll
  rw [hst]
  simp only [Option.map_some', List.nil_append, Int.toNat_ofNat]
  rw [hsplit, subslice_shift _ _ _ _ _ hfront]

/-! ## Claim C3 -/

/-- The agreement of C3 where the header length fits its field: for every blob `b` that
satisfies the tiling invariant, whose ids are
each at most 65535 bytes long and whose header takes less than `2 ^ 32` bytes, and every
prefix `pre`, `Open` on a stream over `pre` followed by the bytes that `b.Write` wrote,
positioned after `pre`, succeeds (the whole stream being shorter than `2 ^ 63` bytes),
reports the same `ItemCount` and `GetIDAtIndex` as `b`, finds exactly the indices and
ids that `b` finds, and the sub-reader it returns for an index or an id, read until
end-of-data while the shared stream is at any position, yields exactly the bytes that
`b.GetByIndex` or `b.GetByID` returns. -/
theorem Open_agrees_with_Blob (b : Blob) (pre : List Byte) (hb : b.Tiled)
    (hid : ∀ it ∈ b.header, it.id.length ≤ MaxIDLen)
    (hhdr : (formatHeader (lengthsOf b.header)).length < 2 ^ 32)
    (hsize : (pre ++ (b.Write GoWriter.buffer).2.out).length < 2 ^ 63) :
    (b.Write GoWriter.buffer).1 = none ∧
    ∃ (br : BlobReader) (file1 : GoStream),
      Open (GoStream.at (pre ++ (b.Write GoWriter.buffer).2.out) pre.length) = (.ok br, file1) ∧
      ItemCount br.header = ItemCount b.header ∧
      (∀ i, GetIDAtIndex br.header i = GetIDAtIndex b.header i) ∧
      (∀ i, (br.GetByIndex i).2 = (b.GetByIndex i).2) ∧
      (∀ id, (br.GetByID id).2 = (b.GetByID id).2) ∧
      (∀ i r, br.GetByIndex i = (some r, true) →
        ∀ file2 : GoStream, file2.wellBehaved → file2.s = file1.s →
        ∀ fuel sizes, (∀ k, 0 < sizes k) → (b.GetByIndex i).1.length < fuel →
          (reader.ReadAll fuel sizes r file2).map (fun x => x.1)
            = some ((b.GetByIndex i).1, none)) ∧
      (∀ id r, br.GetByID id = (some r, true) →
        ∀ file2 : GoStream, file2.wellBehaved → file2.s = file1.s →
        ∀ fuel sizes, (∀ k, 0 < sizes k) → (b.GetByID id).1.length < fuel →
          (reader.ReadAll fuel sizes r file2).map (fun x => x.1)
            = some ((b.GetByID id).1, none)) := by
  have hw := Write_ok b [] "" hb hid
  rw [List.nil_append] at hw
  have hout : (b.Write GoWriter.buffer).2.out = formatBlob b := by
    rw [GoWriter.buffer, hw]
  rw [hout] at hsize ⊢
  have hfl : (formatBlob b).length
      = 4 + (formatHeader (lengthsOf b.header)).length + b.data.length := by
    simp only [formatBlob, entriesData_eq b hb, leBytes_length, List.length_append]
  have hlen : pre.length + 4 + (formatHeader (lengthsOf b.header)).length + b.data.length
      < 2 ^ 63 := by
    rw [List.length_append, hfl] at hsize
    omega
  have ho := Open_format pre [] b "" hb hid hhdr (by omega) (by omega)
  rw [List.append_nil] at ho
  refine ⟨by rw [GoWriter.buffer, hw], _, _, ho, rfl, fun _ => rfl, ?_, ?_, ?_, ?_⟩
  · intro i
    rcases GetByIndex_cases b i with ⟨h1, h2⟩ | ⟨it, _, h1, h2⟩
    · rw [h1, h2]
    · rw [h1, h2]
  · intro id
    rcases GetByID_cases b id with ⟨h1, h2⟩ | ⟨it, _, h1, h2⟩
    · rw [h1, h2]
    · rw [h1, h2]
  · intro i r hr file2 hwb hs fuel sizes hsz hfuel
    rcases GetByIndex_cases b i with ⟨h1, h2⟩ | ⟨it, hit, h1, h2⟩
    · rw [h2] at hr
      cases hr
    · rw [h2] at hr
      rw [h1] at hfuel ⊢
      have hre := (Prod.mk.inj hr).1
      rw [Option.some.injEq] at hre
      rw [← hre]
      exact ReadAll_entry b pre it hb hit hsize file2 hwb hs fuel sizes hsz hfuel
  · intro id r hr file2 hwb hs fuel sizes hsz hfuel
    rcases GetByID_cases b id with ⟨h1, h2⟩ | ⟨it, hit, h1, h2⟩
    · rw [h2] at hr
      cases hr
    · rw [h2] at hr
      rw [h1] at hfuel ⊢
      have hre := (Prod.mk.inj hr).1
      rw [Option.some.injEq] at hre
      rw [← hre]
      exact ReadAll_entry b pre it hb hit hsize file2 hwb hs fuel sizes hsz hfuel

/-- Witness of `Open_agrees_with_Blob`: the blob of the scenario after a prefix of two
bytes. -/
theorem Open_agrees_with_Blob_witness :
    (scenarioBlob.Write GoWriter.buffer).1 = none ∧
    ∃ (br : BlobReader) (file1 : GoStream),
      Open (GoStream.at (([9, 9] : List Byte) ++ (scenarioBlob.Write GoWriter.buffer).2.out)
        ([9, 9] : List Byte).length) = (.ok br, file1) ∧
      ItemCount br.header = ItemCount scenarioBlob.header ∧
      (∀ i, GetIDAtIndex br.header i = GetIDAtIndex scenarioBlob.header i) ∧
      (∀ i, (br.GetByIndex i).2 = (scenarioBlob.GetByIndex i).2) ∧
      (∀ id, (br.GetByID id).2 = (scenarioBlob.GetByID id).2) ∧
      (∀ i r, br.GetByIndex i = (some r, true) →
        ∀ file2 : GoStream, file2.wellBehaved → file2.s = file1.s →
        ∀ fuel sizes, (∀ k, 0 < sizes k) → (scenarioBlob.GetByIndex i).1.length < fuel →
          (reader.ReadAll fuel sizes r file2).map (fun x => x.1)
            = some ((scenarioBlob.GetByIndex i).1, none)) ∧
      (∀ id r, br.GetByID id = (some r, true) →
        ∀ file2 : GoStream, file2.wellBehaved → file2.s = file1.s →
        ∀ fuel sizes, (∀ k, 0 < sizes k) → (scenarioBlob.GetByID id).1.length < fuel →
          (reader.ReadAll fuel sizes r file2).map (fun x => x.1)
            = some ((scenarioBlob.GetByID id).1, none)) :=
  Open_agrees_with_Blob scenarioBlob [9, 9] (by decide) (by decide) (by decide) (by decide)

/-- C3 fails on the code: the blob built from `hugePairs` has ids within the limit and
`Write` returns no error for it, but it stores a header length of zero, so `Open` on the
bytes that `Write` wrote succeeds with a reader that reports no items, while the blob
has `65536`. -/
theorem Open_disagrees_at_hugePairs :
    (∀ it ∈ (appendAll New hugePairs).header, it.id.length ≤ 65535) ∧
    ((appendAll New hugePairs).Write GoWriter.buffer).1 = none ∧
    ∃ (br : BlobReader) (file1 : GoStream),
      Open (GoStream.at ((appendAll New hugePairs).Write GoWriter.buffer).2.out 0)
        = (.ok br, file1) ∧
      ItemCount br.header = 0 ∧ ItemCount (appendAll New hugePairs).header = 65536 := by
  refine ⟨ids_appendAll _ hugePairs_ids, by rw [hugePairs_Write_buffer], ⟨[], 4⟩,
    ⟨[0, 0, 0, 0] ++ formatHeader (lengthsOf (appendAll New hugePairs).header), 4, none, none, ""⟩,
    ?_, rfl, ?_⟩
  · rw [hugePairs_Write_buffer, GoStream.at]
    exact Open_zero _ _
  · unfold ItemCount
    rw [appendAll_header_length, hugePairs, List.length_replicate]
    rfl

end blob

theorem GoStream.Seek_end_plain (s : List Byte) (i : Nat) (m : String) (k : Nat)
    (hk : k ≤ s.length) (hs : s.length < 2 ^ 63) :
    (⟨s, i, none, none, m⟩ : GoStream).Seek (-(k : Int)) SeekEnd =
      ((((s.length - k : Nat) : Int), none), ⟨s, s.length - k, none, none, m⟩) := by
  have h : wrapInt64 ((s.length : Int) + -(k : Int)) = ((s.length - k : Nat) : Int) := by
    rw [wrapInt64_of_bounds _ (by omega) (by omega)]
    omega
  have h2 : ¬ ((s.length - k : Nat) : Int) < 0 := by omega
  simp [GoStream.Seek, SeekStart, SeekCurrent, SeekEnd, h]

namespace payload

/-! ## Package payload: the appendix round trip -/

theorem Open_of_steps (file f1 f2 f3 f4 : GoStream) (dataEnd x : Int) (bs : List Byte)
    (h1 : file.Seek (-16) SeekEnd = ((dataEnd, none), f1))
    (h2 : ReadFull f1 8 = ((magic, none), f2))
    (h3 : ReadFull f2 8 = ((bs, none), f3))
    (h4 : ¬ leValue bs > toUint64 dataEnd)
    (h5 : f3.Seek (toInt64 (leValue bs)) SeekStart = ((x, none), f4)) :
    Open file = (.ok ⟨toInt64 (leValue bs), toInt64 (leValue bs), dataEnd⟩, f4) := by
  unfold Open
  rw [h1]
  simp only
  rw [h2]
  simp only [ne_eq, not_true_eq_false, if_false]
  rw [h3]
  simp only
  rw [if_neg h4, h5]

theorem reader.Read_at_end (r : reader) (file : GoStream) (n : Nat) (h : r.pos ≥ r.end_) :
    r.Read file n = ((([], some .EOF), r), file) := by
  unfold reader.Read
  rw [if_pos h]

theorem reader.Read_in_window (r : reader) (s : List Byte) (m : String) (n : Nat)
    (h0 : 0 ≤ r.pos) (h1 : r.pos < r.end_) (h2 : r.end_ ≤ s.length) (h3 : s.length < 2 ^ 63) :
    r.Read ⟨s, r.pos.toNat, none, none, m⟩ n =
      (((subslice s r.pos.toNat (r.pos.toNat + min n (r.end_ - r.pos).toNat), none),
          ⟨r.start, r.pos + (min n (r.end_ - r.pos).toNat : Nat), r.end_⟩),
        ⟨s, r.pos.toNat + min n (r.end_ - r.pos).toNat, none, none, m⟩) := by
  have hw : wrapInt64 (r.end_ - r.pos) = r.end_ - r.pos :=
    wrapInt64_of_bounds _ (by omega) (by omega)
  have hn1 : (if (n : Int) > wrapInt64 (r.end_ - r.pos)
      then (wrapInt64 (r.end_ - r.pos)).toNat else n) = min n (r.end_ - r.pos).toNat := by
    rw [hw]
    split <;> omega
  have hlen : ¬ s.length ≤ r.pos.toNat := by omega
  have hbs : ((s.drop r.pos.toNat).take (min n (r.end_ - r.pos).toNat)).length
      = min n (r.end_ - r.pos).toNat := by
    rw [List.length_take, List.length_drop]; omega
  have hsub : subslice s r.pos.toNat (r.pos.toNat + min n (r.end_ - r.pos).toNat)
      = (s.drop r.pos.toNat).take (min n (r.end_ - r.pos).toNat) := by
    unfold subslice
    rw [Nat.add_sub_cancel_left]
  unfold reader.Read
  rw [if_neg (by omega)]
  simp only
  rw [hn1, GoStream.Read_plain, if_neg hlen]
  simp only
  rw [hbs, hsub, wrapInt64_of_bounds _ (by omega) (by omega)]

theorem readAll_window (s : List Byte) (m : String) (hs : s.length < 2 ^ 63) :
    ∀ (fuel : Nat) (sizes : Nat → Nat) (r : reader) (acc : List Byte),
      (∀ k, 0 < sizes k) → 0 ≤ r.pos → r.pos ≤ r.end_ → r.end_ ≤ s.length →
      (r.end_ - r.pos).toNat < fuel →
      ∃ st, readAllLoop reader.step fuel sizes (r, ⟨s, r.pos.toNat, none, none, m⟩) acc =
        some ((acc ++ subslice s r.pos.toNat r.end_.toNat, none), st)
  | 0, _, _, _, _, _, _, _, hf => by omega
  | fuel + 1, sizes, r, acc, hsz, h0, h1, h2, hf => by
    by_cases hend : r.pos ≥ r.end_
    · have hstep : reader.step (r, ⟨s, r.pos.toNat, none, none, m⟩) (sizes 0)
          = (([], some .EOF), (r, ⟨s, r.pos.toNat, none, none, m⟩)) := by
        unfold reader.step
        simp only
        rw [reader.Read_at_end r _ _ hend]
      refine ⟨(r, ⟨s, r.pos.toNat, none, none, m⟩), ?_⟩
      rw [readAllLoop_eof reader.step fuel sizes _ _ acc [] hstep]
      have he : r.pos = r.end_ := by omega
      simp [subslice, he]
    · have hlt : r.pos < r.end_ := by omega
      have hk := hsz 0
      have hstep : reader.step (r, ⟨s, r.pos.toNat, none, none, m⟩) (sizes 0)
          = ((subslice s r.pos.toNat (r.pos.toNat + min (sizes 0) (r.end_ - r.pos).toNat), none),
              ((⟨r.start, r.pos + (min (sizes 0) (r.end_ - r.pos).toNat : Nat), r.end_⟩ : reader),
                (⟨s, r.pos.toNat + min (sizes 0) (r.end_ - r.pos).toNat, none, none, m⟩
                  : GoStream))) := by
        unfold reader.step
        simp only
        rw [reader.Read_in_window r s m (sizes 0) h0 hlt h2 hs]
      have e1 : (r.pos + ((min (sizes 0) (r.end_ - r.pos).toNat : Nat) : Int)).toNat
          = r.pos.toNat + min (sizes 0) (r.end_ - r.pos).toNat := by omega
      obtain ⟨st, hst⟩ := readAll_window s m hs fuel (fun k => sizes (k + 1))
        ⟨r.start, r.pos + (min (sizes 0) (r.end_ - r.pos).toNat : Nat), r.end_⟩
        (acc ++ subslice s r.pos.toNat (r.pos.toNat + min (sizes 0) (r.end_ - r.pos).toNat))
        (fun k => hsz (k + 1)) (by simp only; omega) (by simp only; omega) h2
        (by simp only; omega)
      simp only [e1] at hst
      refine ⟨st, ?_⟩
      rw [readAllLoop_more reader.step fuel sizes _ _ acc _ hstep, hst]
      simp only [List.append_assoc]
      rw [subslice_append s _ _ _ (by omega) (by omega)]

theorem Read_of_ok (fuel : Nat) (sizes : Nat → Nat) (file f1 : GoStream) (r : reader)
    (data : List Byte) (st : reader × GoStream)
    (h1 : Open file = (.ok r, f1))
    (h2 : readAllLoop reader.step fuel sizes (r, f1) [] = some ((data, none), st)) :
    Read fuel sizes file = some (.ok data) := by
  unfold Read
  rw [h1]
  simp only
  rw [h2]

theorem cmdMain_length (H D : List Byte) : (cmdMain H D).length = H.length + D.length + 16 := by
  simp only [cmdMain, List.length_append, leBytes_length, magic, List.length_cons,
    List.length_nil]

theorem Open_cmdMain (H D : List Byte) (hsize : H.length + D.length + 16 < 2 ^ 63) :
    Open (GoStream.at (cmdMain H D) 0) =
      (.ok ⟨(H.length : Int), (H.length : Int), ((H.length + D.length : Nat) : Int)⟩,
        ⟨cmdMain H D, H.length, none, none, ""⟩) := by
  have hlen := cmdMain_length H D
  have hs : (cmdMain H D).length < 2 ^ 63 := by omega
  have h1 := GoStream.Seek_end_plain (cmdMain H D) 0 "" 16 (by omega) hs
  have e16 : (cmdMain H D).length - 16 = H.length + D.length := by omega
  rw [e16] at h1
  have h2 := ReadFull_plain (cmdMain H D) (H.length + D.length) "" 8 (by omega)
  have m1 : ((cmdMain H D).drop (H.length + D.length)).take 8 = magic := by
    have e : cmdMain H D = (H ++ D) ++ (magic ++ leBytes 8 (H.length % 2 ^ 64)) := by
      simp only [cmdMain, List.append_assoc]
    rw [e]
    exact drop_take_mid _ _ _ _ _ (by simp only [List.length_append]) rfl
  rw [m1] at h2
  have h3 := ReadFull_plain (cmdMain H D) (H.length + D.length + 8) "" 8 (by omega)
  have m2 : ((cmdMain H D).drop (H.length + D.length + 8)).take 8
      = leBytes 8 (H.length % 2 ^ 64) := by
    have e : cmdMain H D = (H ++ D ++ magic) ++ (leBytes 8 (H.length % 2 ^ 64) ++ []) := by
      simp only [cmdMain, List.append_assoc, List.append_nil]
    rw [e]
    exact drop_take_mid _ _ _ _ _ (by simp only [List.length_append, magic, List.length_cons,
      List.length_nil]) (leBytes_length _ _).symm
  rw [m2] at h3
  have hv : leValue (leBytes 8 (H.length % 2 ^ 64)) = H.length := by
    rw [leValue_leBytes_of_lt 8 _ (by
      have : H.length % 2 ^ 64 < 2 ^ 64 := Nat.mod_lt _ (by norm_num)
      norm_num at this ⊢
      exact this)]
    exact Nat.mod_eq_of_lt (by omega)
  have hu : toUint64 ((H.length + D.length : Nat) : Int) = H.length + D.length := by
    rw [toUint64_of_nonneg _ (by omega) (by omega)]
    simp only [Int.toNat_ofNat]
  have h4 : ¬ leValue (leBytes 8 (H.length % 2 ^ 64))
      > toUint64 ((H.length + D.length : Nat) : Int) := by
    rw [hv, hu]
    omega
  have hi : toInt64 (leValue (leBytes 8 (H.length % 2 ^ 64))) = (H.length : Int) := by
    rw [hv, toInt64_of_lt _ (by omega)]
  have h5 := GoStream.Seek_start_plain (cmdMain H D) (H.length + D.length + 8 + 8) ""
    (H.length : Int) (by omega)
  rw [← hi] at h5
  have ho := Open_of_steps (GoStream.at (cmdMain H D) 0) _ _ _ _ _ _ _
    (by rw [GoStream.at]; exact h1) h2 h3 h4 h5
  rw [ho, hi]
  simp only [Int.toNat_ofNat]

/-! ## Claim C4 -/

/-- C4: for every host `H` and data `D` (the combined file fitting a Go slice), the trailer
logic of `payload.Open` accepts the file that the append tool builds from `H` and `D`,
with `dataStart = len(H)` and `dataEnd = len(H) + len(D)`; reading the returned reader
until end-of-data yields exactly `D`, and so does `payload.Read`. -/
theorem appendix_roundtrip (H D : List Byte) (hsize : H.length + D.length + 16 < 2 ^ 63) :
    ∃ (r : reader) (f1 : GoStream),
      Open (GoStream.at (cmdMain H D) 0) = (.ok r, f1) ∧
      r.start = H.length ∧ r.pos = H.length ∧ r.end_ = H.length + D.length ∧
      ∀ fuel sizes, (∀ k, 0 < sizes k) → D.length < fuel →
        (readAllLoop reader.step fuel sizes (r, f1) []).map (fun x => x.1) = some (D, none) ∧
        Read fuel sizes (GoStream.at (cmdMain H D) 0) = some (.ok D) := by
  have hlen := cmdMain_length H D
  have ho := Open_cmdMain H D hsize
  refine ⟨_, _, ho, rfl, rfl, by simp only [Nat.cast_add], ?_⟩
  intro fuel sizes hsz hfuel
  obtain ⟨st, hst⟩ := readAll_window (cmdMain H D) "" (by omega) fuel sizes
    ⟨(H.length : Int), (H.length : Int), ((H.length + D.length : Nat) : Int)⟩ []
    hsz (by simp only; omega) (by simp only; omega) (by simp only; omega)
    (by simp only; omega)
  simp only [Int.toNat_ofNat, List.nil_append] at hst
  have hsub : subslice (cmdMain H D) H.length (H.length + D.length) = D := by
    unfold subslice
    have e : cmdMain H D = H ++ (D ++ (magic ++ leBytes 8 (H.length % 2 ^ 64))) := by
      simp only [cmdMain, List.append_assoc]
    rw [e, Nat.add_sub_cancel_left]
    exact drop_take_mid _ _ _ _ _ rfl rfl
  rw [hsub] at hst
  refine ⟨by rw [hst]; rfl, Read_of_ok fuel sizes _ _ _ D st ho hst⟩

/-- Witness of `appendix_roundtrip`: a host of three bytes and data of five bytes. -/
theorem appendix_roundtrip_witness :
    ∃ (r : reader) (f1 : GoStream),
      Open (GoStream.at (cmdMain [1, 2, 3] [7, 8, 9, 10, 11]) 0) = (.ok r, f1) ∧
      r.start = ([1, 2, 3] : List Byte).length ∧ r.pos = ([1, 2, 3] : List Byte).length ∧
      r.end_ = ([1, 2, 3] : List Byte).length + ([7, 8, 9, 10, 11] : List Byte).length ∧
      ∀ fuel sizes, (∀ k, 0 < sizes k) → ([7, 8, 9, 10, 11] : List Byte).length < fuel →
        (readAllLoop reader.step fuel sizes (r, f1) []).map (fun x => x.1)
          = some ([7, 8, 9, 10, 11], none) ∧
        Read fuel sizes (GoStream.at (cmdMain [1, 2, 3] [7, 8, 9, 10, 11]) 0)
          = some (.ok [7, 8, 9, 10, 11]) :=
  appendix_roundtrip [1, 2, 3] [7, 8, 9, 10, 11] (by decide)

end payload

namespace blob

/-! ## Truncated headers -/

theorem readHeader_region (hdr post : List Byte) (h0 : 0 < hdr.length)
    (hlen : hdr.length < 2 ^ 32) :
    readHeader (streamDeclaring hdr post) =
      (dissect hdr.length hdr 0 [],
        ⟨leBytes 4 hdr.length ++ (hdr ++ post), 4 + hdr.length, none, none, ""⟩) := by
  have hfull : 0 + 4 ≤ (leBytes 4 hdr.length ++ (hdr ++ post)).length := by
    simp only [List.length_append, leBytes_length]; omega
  have h4 : ((leBytes 4 hdr.length ++ (hdr ++ post)).drop 0).take 4 = leBytes 4 hdr.length := by
    rw [List.drop_zero]
    exact List.take_left' (leBytes_length _ _)
  have hv : leValue (leBytes 4 hdr.length) = hdr.length :=
    leValue_leBytes_of_lt 4 _ (by norm_num at hlen ⊢; exact hlen)
  have hnot : ¬ (leBytes 4 hdr.length ++ (hdr ++ post)).length ≤ 0 + 4 := by
    simp only [List.length_append, leBytes_length]; omega
  have hmid : ((leBytes 4 hdr.length ++ (hdr ++ post)).drop (0 + 4)).take hdr.length = hdr := by
    rw [List.drop_left' (by rw [leBytes_length]), List.take_left]
  unfold readHeader streamDeclaring GoStream.at
  rw [ReadFull_plain _ _ _ _ hfull, h4]
  simp only [hv]
  rw [if_neg (by omega), GoStream.Read_plain, if_neg hnot, hmid]
  simp only [Nat.sub_self, List.replicate_zero, List.append_nil, Nat.zero_add]

theorem Read_of_header_error (r r1 : GoStream) (err : GoError)
    (h : readHeader r = (.error err, r1)) : Read r = (.error err, r1) := by
  unfold Read
  rw [h]

theorem Open_of_header_error (r r1 : GoStream) (err : GoError)
    (h : readHeader r = (.error err, r1)) : Open r = (.error err, r1) := by
  unfold Open
  rw [h]

theorem dissect_one_byte (fuel : Nat) (x : Byte) (overall : Nat) (h : header) :
    dissect (fuel + 1) [x] overall h
      = .error (.New "read blob header id length: unexpected EOF") := by
  simp [dissect, bufferReadFull, GoError.Error]

theorem dissect_short_id (fuel : Nat) (lenBytes part : List Byte) (overall : Nat) (h : header)
    (h2 : lenBytes.length = 2) (hp : part.length < leValue lenBytes) :
    dissect (fuel + 1) (lenBytes ++ part) overall h
      = .error (.New "read blob header id: unexpected EOF") := by
  have hpos : (lenBytes ++ part).length > 0 := by
    rw [List.length_append]; omega
  have r1 : bufferReadFull (lenBytes ++ part) 2 = ((lenBytes, none), part) := by
    have := bufferReadFull_append lenBytes part
    rwa [h2] at this
  have hne : (part.take (leValue lenBytes)).length ≠ leValue lenBytes := by
    rw [List.length_take]; omega
  rw [dissect, if_pos hpos, r1]
  simp only [bufferNext]
  rw [if_pos hne]

theorem dissect_short_length (fuel : Nat) (lenBytes id part : List Byte) (overall : Nat)
    (h : header) (h2 : lenBytes.length = 2) (hid : id.length = leValue lenBytes)
    (hp : part.length < 8) :
    dissect (fuel + 1) (lenBytes ++ (id ++ part)) overall h
      = .error (.New ("read blob header data length: "
          ++ (if part.length = 0 then "EOF" else "unexpected EOF"))) := by
  have hpos : (lenBytes ++ (id ++ part)).length > 0 := by
    rw [List.length_append]; omega
  have r1 : bufferReadFull (lenBytes ++ (id ++ part)) 2 = ((lenBytes, none), id ++ part) := by
    have := bufferReadFull_append lenBytes (id ++ part)
    rwa [h2] at this
  have ht : (id ++ part).take (leValue lenBytes) = id := List.take_left' hid
  have hd : (id ++ part).drop (leValue lenBytes) = part := List.drop_left' hid
  rw [dissect, if_pos hpos, r1]
  simp only [bufferNext, ht, hd]
  rw [if_neg (by rw [hid]; exact fun hn => hn rfl)]
  by_cases hz : part.length = 0
  · have r2 : bufferReadFull part 8 = (([], some .EOF), []) := by
      unfold bufferReadFull
      rw [if_neg (by omega), if_pos hz]
    rw [r2, if_pos hz]
    rfl
  · have r2 : bufferReadFull part 8 = ((part, some .ErrUnexpectedEOF), []) := by
      unfold bufferReadFull
      rw [if_neg (by omega), if_neg hz]
    rw [r2, if_neg hz]
    rfl

theorem dissect_truncated (es : List (List Byte × Nat)) (rest : List Byte) (err : GoError)
    (hes : ∀ e ∈ es, e.1.length < 2 ^ 16 ∧ e.2 < 2 ^ 64) (hrest : 0 < rest.length)
    (hstep : ∀ fuel overall h, dissect (fuel + 1) rest overall h = .error err) :
    dissect (formatHeader es ++ rest).length (formatHeader es ++ rest) 0 [] = .error err := by
  have hl := length_le_formatHeader_length es
  rw [dissect_formatHeader es rest _ 0 [] hes (by rw [List.length_append]; omega)]
  obtain ⟨f, hf⟩ : ∃ f, (formatHeader es ++ rest).length - es.length = f + 1 :=
    ⟨(formatHeader es ++ rest).length - es.length - 1, by rw [List.length_append]; omega⟩
  rw [hf, hstep]

theorem Read_truncated (es : List (List Byte × Nat)) (rest post : List Byte) (err : GoError)
    (hes : ∀ e ∈ es, e.1.length < 2 ^ 16 ∧ e.2 < 2 ^ 64) (hrest : 0 < rest.length)
    (hlen : (formatHeader es ++ rest).length < 2 ^ 32)
    (hstep : ∀ fuel overall h, dissect (fuel + 1) rest overall h = .error err) :
    (Read (streamDeclaring (formatHeader es ++ rest) post)).1 = .error err := by
  have h0 : 0 < (formatHeader es ++ rest).length := by rw [List.length_append]; omega
  have hr := readHeader_region (formatHeader es ++ rest) post h0 hlen
  rw [dissect_truncated es rest err hes hrest hstep] at hr
  rw [Read_of_header_error _ _ _ hr]

/-! ## Claims C7 and C8 -/

/-- C7: when the declared header region is a sequence of complete entries followed by the
beginning of one more entry, `Read` returns an error (and no blob) that names the field
being read: `"read blob header id length: unexpected EOF"` when one byte is left for an
id length, `"read blob header id: unexpected EOF"` when fewer id bytes are left than the
id length declares, and a message starting with `"read blob header data length: "` when
fewer than eight bytes are left for the data length.  Conversely, when the header region
is a sequence of complete entries, `readHeader` does not fail. -/
theorem truncated_header_rejected (es : List (List Byte × Nat)) (post : List Byte)
    (hes : ∀ e ∈ es, e.1.length < 2 ^ 16 ∧ e.2 < 2 ^ 64) :
    (∀ x : Byte, (formatHeader es ++ [x]).length < 2 ^ 32 →
      (Read (streamDeclaring (formatHeader es ++ [x]) post)).1
        = .error (.New "read blob header id length: unexpected EOF")) ∧
    (∀ lenBytes part : List Byte, lenBytes.length = 2 → part.length < leValue lenBytes →
      (formatHeader es ++ (lenBytes ++ part)).length < 2 ^ 32 →
      (Read (streamDeclaring (formatHeader es ++ (lenBytes ++ part)) post)).1
        = .error (.New "read blob header id: unexpected EOF")) ∧
    (∀ lenBytes id part : List Byte, lenBytes.length = 2 → id.length = leValue lenBytes →
      part.length < 8 → (formatHeader es ++ (lenBytes ++ (id ++ part))).length < 2 ^ 32 →
      ∃ tail, (Read (streamDeclaring (formatHeader es ++ (lenBytes ++ (id ++ part))) post)).1
        = .error (.New ("read blob header data length: " ++ tail))) ∧
    ((formatHeader es).length < 2 ^ 32 →
      (readHeader (streamDeclaring (formatHeader es) post)).1 = .ok (runningSum es 0)) := by
  refine ⟨?_, ?_, ?_, ?_⟩
  · intro x hlen
    exact Read_truncated es [x] post _ hes (by simp) hlen
      (fun fuel overall h => dissect_one_byte fuel x overall h)
  · intro lenBytes part h2 hp hlen
    exact Read_truncated es (lenBytes ++ part) post _ hes
      (by rw [List.length_append]; omega) hlen
      (fun fuel overall h => dissect_short_id fuel lenBytes part overall h h2 hp)
  · intro lenBytes id part h2 hid hp hlen
    exact ⟨_, Read_truncated es (lenBytes ++ (id ++ part)) post _ hes
      (by rw [List.length_append]; omega) hlen
      (fun fuel overall h => dissect_short_length fuel lenBytes id part overall h h2 hid hp)⟩
  · intro hlen
    have h := readHeader_format [] post es "" hes hlen
    rw [List.nil_append] at h
    unfold streamDeclaring GoStream.at
    rw [List.length_nil] at h
    rw [h]

/-- Witness of `truncated_header_rejected`: the three truncated inputs of
`blob_test.go`, and the header of one complete entry. -/
theorem truncated_header_rejected_witness :
    (Read (streamDeclaring [1] [])).1
      = .error (.New "read blob header id length: unexpected EOF") ∧
    (Read (streamDeclaring [5, 0, 65, 66, 67] [])).1
      = .error (.New "read blob header id: unexpected EOF") ∧
    (∃ tail, (Read (streamDeclaring [3, 0, 65, 66, 67] [1, 2, 3, 4, 5])).1
      = .error (.New ("read blob header data length: " ++ tail))) ∧
    (readHeader (streamDeclaring (formatHeader [([105, 100], 3)]) [1, 2, 3])).1
      = .ok ([⟨[105, 100], 0, 3⟩], 3) :=
  ⟨(truncated_header_rejected [] [] (by decide)).1 1 (by decide),
    (truncated_header_rejected [] [] (by decide)).2.1 [5, 0] [65, 66, 67] rfl (by decide)
      (by decide),
    (truncated_header_rejected [] [1, 2, 3, 4, 5] (by decide)).2.2.1 [3, 0] [65, 66, 67] []
      rfl (by decide) (by decide) (by decide),
    (truncated_header_rejected [([105, 100], 3)] [1, 2, 3] (by decide)).2.2.2 (by decide)⟩

/-- C8 fails on the code: the stream `10,0,0,0, 0` declares a header of ten bytes and
ends after one of them, yet `Read` and `Open` succeed and return a container with one
entry, with the empty id and no data: `readHeader` ignores how many bytes the one call
`r.Read(headerData)` returned and dissects the zero bytes of the buffer behind them. -/
theorem short_stream_accepted :
    (Read (GoStream.at [10, 0, 0, 0, 0] 0)).1 = .ok ⟨[⟨[], 0, 0⟩], []⟩ ∧
    (Open (GoStream.at [10, 0, 0, 0, 0] 0)).1 = .ok ⟨[⟨[], 0, 0⟩], 5⟩ := by
  constructor
  · decide
  · with_unfolding_all decide

/-! ## Claims C9 and C10 -/

theorem reader.Read_indep (r : reader) (s : List Byte) (n : Nat) :
    ∃ res : (List Byte × Option GoError) × reader,
      ∀ i m, ∃ j, r.Read ⟨s, i, none, none, m⟩ n = (res, ⟨s, j, none, none, m⟩) := by
  obtain ⟨res, _, h, _⟩ := reader.Read_on_plain r s 0 "" n
  exact ⟨res, h⟩

theorem interleave_plain (s : List Byte) : ∀ (calls : List (Bool × Nat)) (r1 r2 : reader)
    (i i1 i2 : Nat) (m m1 m2 : String),
    (interleave calls r1 r2 ⟨s, i, none, none, m⟩).1 =
        alone ((calls.filter (fun c => c.1)).map (fun c => c.2)) r1 ⟨s, i1, none, none, m1⟩ ∧
    (interleave calls r1 r2 ⟨s, i, none, none, m⟩).2 =
        alone ((calls.filter (fun c => !c.1)).map (fun c => c.2)) r2 ⟨s, i2, none, none, m2⟩
  | [], _, _, _, _, _, _, _, _ => by simp [interleave, alone]
  | (true, n) :: rest, r1, r2, i, i1, i2, m, m1, m2 => by
    obtain ⟨res, hres⟩ := reader.Read_indep r1 s n
    obtain ⟨j, hj⟩ := hres i m
    obtain ⟨j1, hj1⟩ := hres i1 m1
    have ih := interleave_plain s rest res.2 r2 j j1 i2 m m1 m2
    simp only [interleave, hj, List.filter_cons, if_true, List.map_cons, alone, hj1,
      Bool.not_true, Bool.false_eq_true, if_false]
    exact ⟨by rw [ih.1], ih.2⟩
  | (false, n) :: rest, r1, r2, i, i1, i2, m, m1, m2 => by
    obtain ⟨res, hres⟩ := reader.Read_indep r2 s n
    obtain ⟨j, hj⟩ := hres i m
    obtain ⟨j2, hj2⟩ := hres i2 m2
    have ih := interleave_plain s rest r1 res.2 j i1 j2 m m1 m2
    simp only [interleave, hj, List.filter_cons, Bool.false_eq_true, if_false, List.map_cons,
      alone, hj2, Bool.not_false, if_true]
    exact ⟨ih.1, by rw [ih.2]⟩

/-- C9: for any two sub-readers over one shared stream that never fails, and every
interleaving of `Read` calls on the two, each sub-reader gets from its calls exactly what
it would get from the same calls made alone (the bytes, the error and its own position
after every call), whatever the position of the shared stream at the start; a `Read` on
one sub-reader does not change what the other one returns. -/
theorem interleaved_reads_as_alone (calls : List (Bool × Nat)) (r1 r2 : reader)
    (file file1 file2 : GoStream) (hw : file.wellBehaved) (hw1 : file1.wellBehaved)
    (hw2 : file2.wellBehaved) (hs1 : file1.s = file.s) (hs2 : file2.s = file.s) :
    (interleave calls r1 r2 file).1 =
        alone ((calls.filter (fun c => c.1)).map (fun c => c.2)) r1 file1 ∧
    (interleave calls r1 r2 file).2 =
        alone ((calls.filter (fun c => !c.1)).map (fun c => c.2)) r2 file2 := by
  rw [GoStream.eq_plain file hw, GoStream.eq_plain file1 hw1, GoStream.eq_plain file2 hw2,
    hs1, hs2]
  exact interleave_plain file.s calls r1 r2 _ _ _ _ _ _

/-- Witness of `interleaved_reads_as_alone`: the two entries of the scenario, read one
byte at a time in alternation. -/
theorem interleaved_reads_as_alone_witness :
    (interleave [(true, 1), (false, 1), (true, 1), (false, 1), (true, 1), (false, 1)]
        ⟨27, 27, 30⟩ ⟨30, 30, 32⟩ (GoStream.at (scenarioBlob.Write GoWriter.buffer).2.out 27)).1 =
      alone (([(true, 1), (false, 1), (true, 1), (false, 1), (true, 1), (false, 1)].filter
          (fun c => c.1)).map (fun c => c.2)) ⟨27, 27, 30⟩
        (GoStream.at (scenarioBlob.Write GoWriter.buffer).2.out 0) ∧
    (interleave [(true, 1), (false, 1), (true, 1), (false, 1), (true, 1), (false, 1)]
        ⟨27, 27, 30⟩ ⟨30, 30, 32⟩ (GoStream.at (scenarioBlob.Write GoWriter.buffer).2.out 27)).2 =
      alone (([(true, 1), (false, 1), (true, 1), (false, 1), (true, 1), (false, 1)].filter
          (fun c => !c.1)).map (fun c => c.2)) ⟨30, 30, 32⟩
        (GoStream.at (scenarioBlob.Write GoWriter.buffer).2.out 0) :=
  interleaved_reads_as_alone _ _ _ _ _ _ (by decide) (by decide) (by decide) rfl rfl

/-- C10: for a sub-reader whose window `[start, end)` of length `L` lies within a shared
stream that never fails, a `Read` with a buffer of `L + k` bytes on the fresh sub-reader
returns exactly the `L` bytes of the window and nothing beyond its end; a `Read` at any
position of the window returns at most `end - pos` bytes; and a `Read` at or past the end
of the window returns no bytes and `io.EOF`. -/
theorem bounded_read (r : reader) (file : GoStream) (hw : file.wellBehaved)
    (h0 : 0 ≤ r.start) (hse : r.start ≤ r.end_) (hend : r.end_ ≤ file.s.length)
    (hsize : file.s.length < 2 ^ 63) :
    (∀ k : Nat, r.pos = r.start →
      (r.Read file ((r.end_ - r.start).toNat + k)).1.1.1
          = subslice file.s r.start.toNat r.end_.toNat ∧
      ((r.Read file ((r.end_ - r.start).toNat + k)).1.1.1.length : Int) = r.end_ - r.start) ∧
    (∀ n : Nat, r.start ≤ r.pos → r.pos ≤ r.end_ →
      ((r.Read file n).1.1.1.length : Int) ≤ r.end_ - r.pos) ∧
    (∀ n : Nat, r.pos ≥ r.end_ → (r.Read file n).1.1 = ([], some .EOF)) := by
  rw [GoStream.eq_plain file hw]
  have hread : ∀ n : Nat, r.start ≤ r.pos → r.pos ≤ r.end_ →
      (r.Read ⟨file.s, file.i, none, none, file.errMsg⟩ n).1.1.1
        = subslice file.s r.pos.toNat (r.pos.toNat + min n (r.end_ - r.pos).toNat) := by
    intro n h1 h2
    by_cases h : r.pos ≥ r.end_
    · rw [reader.Read_end r _ n h]
      have he : (r.end_ - r.pos).toNat = 0 := by omega
      simp [subslice, he]
    · rw [reader.Read_window r file.s file.i file.errMsg n (by omega) (by omega) hend hsize]
  refine ⟨?_, ?_, ?_⟩
  · intro k hpos
    have h := hread ((r.end_ - r.start).toNat + k) (by omega) (by omega)
    rw [hpos] at h
    have hm : min ((r.end_ - r.start).toNat + k) (r.end_ - r.start).toNat
        = (r.end_ - r.start).toNat := by omega
    have he : r.start.toNat + (r.end_ - r.start).toNat = r.end_.toNat := by omega
    rw [hm, he] at h
    refine ⟨h, ?_⟩
    rw [h, subslice_length _ _ _ (by omega)]
    omega
  · intro n h1 h2
    rw [hread n h1 h2, subslice_length _ _ _ (by omega)]
    omega
  · intro n h
    rw [reader.Read_end r _ n h]

/-- Witness of `bounded_read`: the first entry of the scenario, three bytes long. -/
theorem bounded_read_witness :
    (∀ k : Nat, (⟨27, 27, 30⟩ : reader).pos = (⟨27, 27, 30⟩ : reader).start →
      ((⟨27, 27, 30⟩ : reader).Read (GoStream.at (scenarioBlob.Write GoWriter.buffer).2.out 0)
          (((⟨27, 27, 30⟩ : reader).end_ - (⟨27, 27, 30⟩ : reader).start).toNat + k)).1.1.1
        = subslice (GoStream.at (scenarioBlob.Write GoWriter.buffer).2.out 0).s
            (⟨27, 27, 30⟩ : reader).start.toNat (⟨27, 27, 30⟩ : reader).end_.toNat ∧
      (((⟨27, 27, 30⟩ : reader).Read (GoStream.at (scenarioBlob.Write GoWriter.buffer).2.out 0)
          (((⟨27, 27, 30⟩ : reader).end_ - (⟨27, 27, 30⟩ : reader).start).toNat
            + k)).1.1.1.length : Int)
        = (⟨27, 27, 30⟩ : reader).end_ - (⟨27, 27, 30⟩ : reader).start) ∧
    (∀ n : Nat, (⟨27, 27, 30⟩ : reader).start ≤ (⟨27, 27, 30⟩ : reader).pos →
      (⟨27, 27, 30⟩ : reader).pos ≤ (⟨27, 27, 30⟩ : reader).end_ →
      ((((⟨27, 27, 30⟩ : reader).Read (GoStream.at (scenarioBlob.Write GoWriter.buffer).2.out 0)
          n).1.1.1.length : Int)) ≤ (⟨27, 27, 30⟩ : reader).end_ - (⟨27, 27, 30⟩ : reader).pos) ∧
    (∀ n : Nat, (⟨27, 27, 30⟩ : reader).pos ≥ (⟨27, 27, 30⟩ : reader).end_ →
      ((⟨27, 27, 30⟩ : reader).Read (GoStream.at (scenarioBlob.Write GoWriter.buffer).2.out 0)
        n).1.1 = ([], some .EOF)) :=
  bounded_read ⟨27, 27, 30⟩ (GoStream.at (scenarioBlob.Write GoWriter.buffer).2.out 0)
    (by decide) (by decide) (by decide) (by decide) (by decide)

/-! ## The embedding on the inputs of `blob_test.go` -/

/-- `TestOneResourceMakesOneHeaderEntry`. -/
theorem test_one_resource :
    (New.Append [105, 100] [1, 2, 3]).Write GoWriter.buffer =
      (none, ⟨[12, 0, 0, 0, 2, 0, 105, 100, 3, 0, 0, 0, 0, 0, 0, 0, 1, 2, 3], none, ""⟩) := by
  decide

/-- `TestTwoResourcesMakeTwoEntries`. -/
theorem test_two_resources :
    ((New.Append [105, 100] [1, 2, 3]).Append [50, 110, 100] [4, 5]).Write GoWriter.buffer =
      (none, ⟨[25, 0, 0, 0, 2, 0, 105, 100, 3, 0, 0, 0, 0, 0, 0, 0,
        3, 0, 50, 110, 100, 2, 0, 0, 0, 0, 0, 0, 0, 1, 2, 3, 4, 5], none, ""⟩) := by
  decide

/-- `TestReadingTwoEntryBlob`. -/
theorem test_reading_two_entries :
    (Read (GoStream.at [25, 0, 0, 0, 2, 0, 105, 100, 3, 0, 0, 0, 0, 0, 0, 0,
        3, 0, 50, 110, 100, 2, 0, 0, 0, 0, 0, 0, 0, 1, 2, 3, 4, 5] 0)).1 =
      .ok ⟨[⟨[105, 100], 0, 3⟩, ⟨[50, 110, 100], 3, 5⟩], [1, 2, 3, 4, 5]⟩ ∧
    (⟨[⟨[105, 100], 0, 3⟩, ⟨[50, 110, 100], 3, 5⟩], [1, 2, 3, 4, 5]⟩ : Blob).GetByID [105, 100]
      = ([1, 2, 3], true) ∧
    (⟨[⟨[105, 100], 0, 3⟩, ⟨[50, 110, 100], 3, 5⟩], [1, 2, 3, 4, 5]⟩ : Blob).GetByID
      [50, 110, 100] = ([4, 5], true) := by
  decide

/-- The three truncated headers of `TestInvalidIDLengthInHeader`,
`TestHeaderContainsWrongIDLength` and `TestDataLengthInHeaderIsIncomplete`. -/
theorem test_truncated_headers :
    (Read (GoStream.at [1, 0, 0, 0, 1] 0)).1
      = .error (.New "read blob header id length: unexpected EOF") ∧
    (Read (GoStream.at [5, 0, 0, 0, 5, 0, 65, 66, 67] 0)).1
      = .error (.New "read blob header id: unexpected EOF") ∧
    (Read (GoStream.at [5, 0, 0, 0, 3, 0, 65, 66, 67, 1, 2, 3, 4, 5] 0)).1
      = .error (.New "read blob header data length: EOF") := by
  decide

/-- The calls of `TestOpenBlobAndReadData` on the sub-reader of the first entry, made on
the blob of the scenario, whose data start at offset 27 of the written bytes. -/
theorem test_open_and_seek :
    (Open (GoStream.at ((scenarioBlob.Write GoWriter.buffer).2.out) 0)).1
      = .ok ⟨[⟨[97], 0, 3⟩, ⟨[98, 98], 3, 5⟩], 27⟩ ∧
    ((⟨27, 27, 30⟩ : reader).Seek (GoStream.at (scenarioBlob.Write GoWriter.buffer).2.out 27)
        0 123).1 = ((0, some (.New "blob.reader.Seek: invalid whence")), ⟨27, 27, 30⟩) ∧
    ((⟨27, 27, 30⟩ : reader).Seek (GoStream.at (scenarioBlob.Write GoWriter.buffer).2.out 27)
        (-1) SeekStart).1
      = ((0, some (.New "blob.reader.Seek: negative position")), ⟨27, 27, 30⟩) ∧
    ((⟨27, 27, 30⟩ : reader).Seek (GoStream.at (scenarioBlob.Write GoWriter.buffer).2.out 27)
        100 SeekEnd).1 = ((3, none), ⟨27, 30, 30⟩) ∧
    ((⟨27, 27, 30⟩ : reader).Seek (GoStream.at (scenarioBlob.Write GoWriter.buffer).2.out 27)
        2 SeekStart).1 = ((2, none), ⟨27, 29, 30⟩) ∧
    ((⟨27, 29, 30⟩ : reader).Read (GoStream.at (scenarioBlob.Write GoWriter.buffer).2.out 29)
        32).1 = (([3], none), ⟨27, 30, 30⟩) ∧
    ((⟨27, 30, 30⟩ : reader).Seek (GoStream.at (scenarioBlob.Write GoWriter.buffer).2.out 30)
        (-1) SeekEnd).1 = ((2, none), ⟨27, 29, 30⟩) ∧
    ((⟨27, 29, 30⟩ : reader).Seek (GoStream.at (scenarioBlob.Write GoWriter.buffer).2.out 29)
        (-1) SeekCurrent).1 = ((1, none), ⟨27, 28, 30⟩) ∧
    ((⟨27, 28, 30⟩ : reader).Read (GoStream.at (scenarioBlob.Write GoWriter.buffer).2.out 28)
        1).1 = (([2], none), ⟨27, 29, 30⟩) := by
  refine ⟨?_, ?_, ?_, ?_, ?_, ?_, ?_, ?_, ?_⟩ <;> with_unfolding_all decide

end blob

namespace payload

/-- The combined file for a host of three bytes and data of two bytes. -/
theorem test_cmdMain :
    cmdMain [1, 2, 3] [7, 8] =
      [1, 2, 3, 7, 8, 112, 97, 121, 108, 111, 97, 100, 32, 3, 0, 0, 0, 0, 0, 0, 0] := by
  decide

end payload

namespace blob

/-! ## One `Seek` of a sub-reader -/

theorem reader.Seek_invalid (r : reader) (file : GoStream) (offset whence : Int)
    (h : whence ≠ SeekStart ∧ whence ≠ SeekCurrent ∧ whence ≠ SeekEnd) :
    r.Seek file offset whence
      = (((0, some (.New "blob.reader.Seek: invalid whence")), r), file) := by
  unfold reader.Seek
  rw [if_pos h]

theorem reader.Seek_before (r : reader) (file : GoStream) (offset whence newPos : Int)
    (h : ¬ (whence ≠ SeekStart ∧ whence ≠ SeekCurrent ∧ whence ≠ SeekEnd))
    (hn : (if whence = SeekStart then wrapInt64 (r.start + offset)
      else if whence = SeekCurrent then wrapInt64 (r.pos + offset)
      else wrapInt64 (r.end_ + offset)) = newPos)
    (hlt : newPos < r.start) :
    r.Seek file offset whence
      = (((wrapInt64 (r.pos - r.start), some (.New "blob.reader.Seek: negative position")), r),
          file) := by
  unfold reader.Seek
  rw [if_neg h]
  simp only
  rw [hn, if_pos hlt]

theorem reader.Seek_to (r : reader) (file file1 : GoStream) (offset whence newPos p : Int)
    (err : Option GoError)
    (h : ¬ (whence ≠ SeekStart ∧ whence ≠ SeekCurrent ∧ whence ≠ SeekEnd))
    (hn : (if whence = SeekStart then wrapInt64 (r.start + offset)
      else if whence = SeekCurrent then wrapInt64 (r.pos + offset)
      else wrapInt64 (r.end_ + offset)) = newPos)
    (hge : ¬ newPos < r.start)
    (hs : file.Seek (if newPos > r.end_ then r.end_ else newPos) SeekStart = ((p, err), file1)) :
    r.Seek file offset whence = (((wrapInt64 (p - r.start), err), ⟨r.start, p, r.end_⟩), file1) := by
  unfold reader.Seek
  rw [if_neg h]
  simp only
  rw [hn, if_neg hge, hs]

end blob

theorem subslice_drop_take (s : List Byte) (a e t n : Nat) (hat : a + t ≤ e) :
    ((subslice s a e).drop t).take n = subslice s (a + t) (a + t + min n (e - (a + t))) := by
  unfold subslice
  rw [List.drop_take, List.drop_drop, List.take_take, Nat.add_sub_cancel_left]
  congr 1
  omega

namespace blob

theorem whence_cases (whence : Int) (r : reader) (offset base : Int)
    (hbase : (whence = SeekStart ∧ base = r.start) ∨ (whence = SeekCurrent ∧ base = r.pos) ∨
      (whence = SeekEnd ∧ base = r.end_)) :
    ¬ (whence ≠ SeekStart ∧ whence ≠ SeekCurrent ∧ whence ≠ SeekEnd) ∧
    (if whence = SeekStart then wrapInt64 (r.start + offset)
      else if whence = SeekCurrent then wrapInt64 (r.pos + offset)
      else wrapInt64 (r.end_ + offset)) = wrapInt64 (base + offset) := by
  rcases hbase with ⟨hw, hb⟩ | ⟨hw, hb⟩ | ⟨hw, hb⟩
  · subst hw hb
    exact ⟨fun h => h.1 rfl, by rw [if_pos rfl]⟩
  · subst hw hb
    exact ⟨fun h => h.2.1 rfl, by
      rw [if_neg (by unfold SeekCurrent SeekStart; decide), if_pos rfl]⟩
  · subst hw hb
    exact ⟨fun h => h.2.2 rfl, by
      rw [if_neg (by unfold SeekEnd SeekStart; decide),
        if_neg (by unfold SeekEnd SeekCurrent; decide)]⟩

/-- A `Seek` of a sub-reader on a stream that never fails, when the sum of the base
position and the offset does not overflow and is not before the start of the window:
the position becomes the sum, or the end of the window if the sum is beyond it, and the
returned offset is that position relative to the start of the window. -/
theorem reader.Seek_plain_ok (r : reader) (s : List Byte) (i : Nat) (m : String)
    (offset whence base : Int)
    (hbase : (whence = SeekStart ∧ base = r.start) ∨ (whence = SeekCurrent ∧ base = r.pos) ∨
      (whence = SeekEnd ∧ base = r.end_))
    (h0 : 0 ≤ r.start) (hse : r.start ≤ r.end_) (hend : r.end_ < 2 ^ 63)
    (hlo : r.start ≤ base + offset) (hhi : base + offset < 2 ^ 63) :
    r.Seek ⟨s, i, none, none, m⟩ offset whence =
      (((min (base + offset) r.end_ - r.start, none),
          ⟨r.start, min (base + offset) r.end_, r.end_⟩),
        ⟨s, (min (base + offset) r.end_).toNat, none, none, m⟩) := by
  obtain ⟨hv, hn⟩ := whence_cases whence r offset base hbase
  rw [wrapInt64_of_bounds _ (by omega) hhi] at hn
  have hp : (if base + offset > r.end_ then r.end_ else base + offset)
      = min (base + offset) r.end_ := by
    split <;> omega
  have hs := GoStream.Seek_start_plain s i m (min (base + offset) r.end_) (by omega)
  rw [← hp] at hs
  rw [reader.Seek_to r _ _ offset whence (base + offset) _ none hv hn (by omega) hs, hp,
    wrapInt64_of_bounds _ (by omega) (by omega)]

/-- A `Seek` of a sub-reader when the sum of the base position and the offset does not
overflow and is before the start of the window: the error `negative position`, with the
sub-reader and the stream as they were. -/
theorem reader.Seek_plain_before (r : reader) (file : GoStream) (offset whence base : Int)
    (hbase : (whence = SeekStart ∧ base = r.start) ∨ (whence = SeekCurrent ∧ base = r.pos) ∨
      (whence = SeekEnd ∧ base = r.end_))
    (h0 : 0 ≤ r.start) (hsp : r.start ≤ r.pos) (hpos : r.pos < 2 ^ 63)
    (hlo : -(2 ^ 63) ≤ base + offset) (hlt : base + offset < r.start) :
    r.Seek file offset whence =
      (((r.pos - r.start, some (.New "blob.reader.Seek: negative position")), r), file) := by
  obtain ⟨hv, hn⟩ := whence_cases whence r offset base hbase
  rw [wrapInt64_of_bounds _ hlo (by omega)] at hn
  rw [reader.Seek_before r file offset whence (base + offset) hv hn hlt,
    wrapInt64_of_bounds _ (by omega) (by omega)]

theorem reader.base_cases (r : reader) (whence : Int)
    (hv : ¬ (whence ≠ SeekStart ∧ whence ≠ SeekCurrent ∧ whence ≠ SeekEnd)) :
    (whence = SeekStart ∧ r.base whence = r.start) ∨
    (whence = SeekCurrent ∧ r.base whence = r.pos) ∨
    (whence = SeekEnd ∧ r.base whence = r.end_) := by
  unfold reader.base
  by_cases h1 : whence = SeekStart
  · exact Or.inl ⟨h1, by rw [if_pos h1]⟩
  · by_cases h2 : whence = SeekCurrent
    · exact Or.inr (Or.inl ⟨h2, by rw [if_neg h1, if_pos h2]⟩)
    · by_cases h3 : whence = SeekEnd
      · exact Or.inr (Or.inr ⟨h3, by rw [if_neg h1, if_neg h2]⟩)
      · exact absurd ⟨h1, h2, h3⟩ hv

/-! ## Claims C11, C12, C13 -/

/-- C11: for a sub-reader whose window of length `L = end - start` lies within a shared
stream that never fails, a `Seek` with a valid whence whose target `t` (the offset for
`io.SeekStart`, the logical position plus the offset for `io.SeekCurrent`, `L` plus the
offset for `io.SeekEnd`) satisfies `0 ≤ t ≤ L` succeeds and returns `t`, the sub-reader
is then at `start + t`, and the next `Read` returns the bytes of the window beginning
at index `t`. -/
theorem seek_within_window (r : reader) (file : GoStream) (offset whence t : Int)
    (hw : file.wellBehaved) (h0 : 0 ≤ r.start) (h1 : r.start ≤ r.pos) (h2 : r.pos ≤ r.end_)
    (h3 : r.end_ ≤ file.s.length) (h4 : file.s.length < 2 ^ 63)
    (ht : (whence = SeekStart ∧ t = offset) ∨
      (whence = SeekCurrent ∧ t = (r.pos - r.start) + offset) ∨
      (whence = SeekEnd ∧ t = (r.end_ - r.start) + offset))
    (ht0 : 0 ≤ t) (htL : t ≤ r.end_ - r.start) :
    (r.Seek file offset whence).1.1 = (t, none) ∧
    (r.Seek file offset whence).1.2 = ⟨r.start, r.start + t, r.end_⟩ ∧
    ∀ n : Nat, ((r.Seek file offset whence).1.2.Read (r.Seek file offset whence).2 n).1.1.1
      = ((subslice file.s r.start.toNat r.end_.toNat).drop t.toNat).take n := by
  have hbase : ∃ base : Int, ((whence = SeekStart ∧ base = r.start) ∨
      (whence = SeekCurrent ∧ base = r.pos) ∨ (whence = SeekEnd ∧ base = r.end_)) ∧
      base + offset = r.start + t := by
    rcases ht with ⟨hwh, rfl⟩ | ⟨hwh, rfl⟩ | ⟨hwh, rfl⟩
    · exact ⟨r.start, Or.inl ⟨hwh, rfl⟩, rfl⟩
    · exact ⟨r.pos, Or.inr (Or.inl ⟨hwh, rfl⟩), by omega⟩
    · exact ⟨r.end_, Or.inr (Or.inr ⟨hwh, rfl⟩), by omega⟩
  obtain ⟨base, hb, hsum⟩ := hbase
  rw [GoStream.eq_plain file hw]
  have hs := reader.Seek_plain_ok r file.s file.i file.errMsg offset whence base hb h0
    (by omega) (by omega) (by omega) (by omega)
  have hmin : min (base + offset) r.end_ = r.start + t := by omega
  rw [hmin] at hs
  rw [hs]
  refine ⟨by simp only [Prod.mk.injEq, and_true]; omega, rfl, ?_⟩
  intro n
  have hdt : ((subslice file.s r.start.toNat r.end_.toNat).drop t.toNat).take n
      = subslice file.s (r.start.toNat + t.toNat)
          (r.start.toNat + t.toNat + min n (r.end_.toNat - (r.start.toNat + t.toNat))) :=
    subslice_drop_take _ _ _ _ _ (by omega)
  rw [hdt]
  by_cases hend : r.start + t ≥ r.end_
  · rw [reader.Read_end ⟨r.start, r.start + t, r.end_⟩ _ n hend]
    have hz : r.end_.toNat - (r.start.toNat + t.toNat) = 0 := by omega
    rw [hz, Nat.min_zero, Nat.add_zero]
    simp [subslice]
  · rw [reader.Read_window ⟨r.start, r.start + t, r.end_⟩ file.s _ file.errMsg n
      (by simp only; omega) (by simp only; omega) h3 h4]
    simp only
    have e1 : (r.start + t).toNat = r.start.toNat + t.toNat := by omega
    have e2 : (r.end_ - (r.start + t)).toNat = r.end_.toNat - (r.start.toNat + t.toNat) := by
      omega
    rw [e1, e2]

/-- Witness of `seek_within_window`: the first entry of the scenario, a `Seek` to
offset 2 from the start. -/
theorem seek_within_window_witness :
    ((⟨27, 27, 30⟩ : reader).Seek (GoStream.at (written scenarioBlob) 0) 2 SeekStart).1.1
      = (2, none) ∧
    ((⟨27, 27, 30⟩ : reader).Seek (GoStream.at (written scenarioBlob) 0) 2 SeekStart).1.2
      = ⟨(⟨27, 27, 30⟩ : reader).start, (⟨27, 27, 30⟩ : reader).start + 2,
          (⟨27, 27, 30⟩ : reader).end_⟩ ∧
    ∀ n : Nat,
      (((⟨27, 27, 30⟩ : reader).Seek (GoStream.at (written scenarioBlob) 0) 2 SeekStart).1.2.Read
        ((⟨27, 27, 30⟩ : reader).Seek (GoStream.at (written scenarioBlob) 0) 2 SeekStart).2
        n).1.1.1
      = ((subslice (GoStream.at (written scenarioBlob) 0).s (⟨27, 27, 30⟩ : reader).start.toNat
          (⟨27, 27, 30⟩ : reader).end_.toNat).drop (2 : Int).toNat).take n :=
  seek_within_window ⟨27, 27, 30⟩ (GoStream.at (written scenarioBlob) 0) 2 SeekStart 2
    (by decide) (by decide) (by decide) (by decide) (by decide) (by decide)
    (Or.inl ⟨rfl, rfl⟩) (by decide) (by decide)

/-- When the sum of the base position and the offset of a `Seek` fits a signed 64 bit
integer, a `Seek` of a sub-reader on a stream that never fails returns an error exactly
when the whence is invalid or the sum is before the start of the window; in both cases
the sub-reader and the stream are left as they were, the returned offset being 0 for an
invalid whence and the current logical position for a negative position. -/
theorem seek_fails_iff_without_overflow (r : reader) (file : GoStream) (offset whence : Int)
    (hw : file.wellBehaved) (h0 : 0 ≤ r.start) (h1 : r.start ≤ r.pos) (h2 : r.pos ≤ r.end_)
    (h3 : r.end_ < 2 ^ 63) (hlo : -(2 ^ 63) ≤ offset)
    (hhi : r.base whence + offset < 2 ^ 63) :
    ((r.Seek file offset whence).1.1.2 ≠ none ↔
      (whence ≠ SeekStart ∧ whence ≠ SeekCurrent ∧ whence ≠ SeekEnd) ∨
      r.base whence + offset < r.start) ∧
    ((whence ≠ SeekStart ∧ whence ≠ SeekCurrent ∧ whence ≠ SeekEnd) →
      r.Seek file offset whence
        = (((0, some (.New "blob.reader.Seek: invalid whence")), r), file)) ∧
    (¬ (whence ≠ SeekStart ∧ whence ≠ SeekCurrent ∧ whence ≠ SeekEnd) →
      r.base whence + offset < r.start →
      r.Seek file offset whence
        = (((r.pos - r.start, some (.New "blob.reader.Seek: negative position")), r),
            file)) := by
  have hinv := reader.Seek_invalid r file offset whence
  have hbefore : ¬ (whence ≠ SeekStart ∧ whence ≠ SeekCurrent ∧ whence ≠ SeekEnd) →
      r.base whence + offset < r.start →
      r.Seek file offset whence
        = (((r.pos - r.start, some (.New "blob.reader.Seek: negative position")), r),
            file) := by
    intro hv hlt
    have hb := reader.base_cases r whence hv
    have hge : 0 ≤ r.base whence := by
      rcases hb with ⟨_, e⟩ | ⟨_, e⟩ | ⟨_, e⟩ <;> rw [e] <;> omega
    exact reader.Seek_plain_before r file offset whence _ hb h0 h1 (by omega) (by omega) hlt
  refine ⟨⟨?_, ?_⟩, hinv, hbefore⟩
  · intro herr
    by_contra hno
    rw [not_or] at hno
    obtain ⟨hv, hge⟩ := hno
    have hb := reader.base_cases r whence hv
    have hs := reader.Seek_plain_ok r file.s file.i file.errMsg offset whence _ hb h0
      (by omega) h3 (by omega) hhi
    rw [GoStream.eq_plain file hw, hs] at herr
    exact herr rfl
  · intro h
    by_cases hv : whence ≠ SeekStart ∧ whence ≠ SeekCurrent ∧ whence ≠ SeekEnd
    · rw [hinv hv]
      simp
    · rcases h with h | h
      · exact absurd h hv
      · rw [hbefore hv h]
        simp

/-- C12 fails on the code: on the sub-reader of the first entry of the scenario (window
`[27, 30)`, at its start) the call `Seek(9223372036854775807, io.SeekEnd)` has a valid
whence and a target far beyond the end of the window, not before its start, yet it fails
with `"blob.reader.Seek: negative position"`: the sum `r.end + offset` overflows to a
negative `int64`. -/
theorem seek_overflow_reports_negative_position :
    ((⟨27, 27, 30⟩ : reader).Seek (GoStream.at (written scenarioBlob) 0)
        9223372036854775807 SeekEnd).1
      = ((0, some (.New "blob.reader.Seek: negative position")), ⟨27, 27, 30⟩) := by
  with_unfolding_all decide

/-- When the sum of the base position and the offset of a `Seek` fits a signed 64 bit
integer and lies beyond the end of the window, a `Seek` with a valid whence on a stream
that never fails returns the length of the window and no error, the sub-reader is at its
end, and every `Read` after it returns no bytes and `io.EOF`. -/
theorem seek_beyond_end_without_overflow (r : reader) (file : GoStream) (offset whence : Int)
    (hw : file.wellBehaved) (h0 : 0 ≤ r.start) (h1 : r.start ≤ r.end_) (h3 : r.end_ < 2 ^ 63)
    (hv : ¬ (whence ≠ SeekStart ∧ whence ≠ SeekCurrent ∧ whence ≠ SeekEnd))
    (hgt : r.end_ < r.base whence + offset) (hhi : r.base whence + offset < 2 ^ 63) :
    (r.Seek file offset whence).1.1 = (r.end_ - r.start, none) ∧
    (r.Seek file offset whence).1.2 = ⟨r.start, r.end_, r.end_⟩ ∧
    ∀ (file2 : GoStream) (n : Nat),
      ((r.Seek file offset whence).1.2.Read file2 n).1 = (([], some .EOF), ⟨r.start, r.end_, r.end_⟩)
      := by
  have hb := reader.base_cases r whence hv
  have hs := reader.Seek_plain_ok r file.s file.i file.errMsg offset whence _ hb h0 h1 h3
    (by omega) hhi
  have hmin : min (r.base whence + offset) r.end_ = r.end_ := by omega
  rw [hmin] at hs
  rw [GoStream.eq_plain file hw, hs]
  refine ⟨rfl, rfl, fun file2 n => ?_⟩
  rw [reader.Read_end ⟨r.start, r.end_, r.end_⟩ file2 n (by simp only; omega)]

/-- C13 fails on the code: on the sub-reader of the first entry of the scenario (window
`[27, 30)`, length 3) the call `Seek(9223372036854775807, io.SeekStart)` has a target far
beyond the end of the window, yet it does not clamp to the end and return 3: the sum
`r.start + offset` overflows to a negative `int64` and the call fails with
`"blob.reader.Seek: negative position"`, leaving the sub-reader at position 0. -/
theorem seek_far_beyond_end_fails :
    ((⟨27, 27, 30⟩ : reader).Seek (GoStream.at (written scenarioBlob) 0)
        9223372036854775807 SeekStart).1
      = ((0, some (.New "blob.reader.Seek: negative position")), ⟨27, 27, 30⟩) ∧
    ((⟨27, 27, 30⟩ : reader).Seek (GoStream.at (written scenarioBlob) 0) 100 SeekEnd).1
      = ((3, none), ⟨27, 30, 30⟩) := by
  constructor <;> with_unfolding_all decide

/-! ## The tiling invariant in words -/

theorem tiles_iff_inWords : ∀ (h : header) (lo total : Nat),
    tiles h lo total ↔ tilesInWords h lo total
  | [], lo, total => by
    simp [tiles, tilesInWords]
  | x :: rest, lo, total => by
    have ih := tiles_iff_inWords rest x.end_ total
    unfold tilesInWords at ih ⊢
    rw [tiles, ih]
    constructor
    · rintro ⟨hx, hle, hhead, hcons, hmem, hlast, hnil⟩
      refine ⟨?_, ?_, ?_, ?_, ?_⟩
      · intro it hit
        simp only [List.head?_cons, Option.some.injEq] at hit
        rw [← hit]; exact hx
      · intro i a c ha hc
        cases i with
        | zero =>
          simp only [List.get?_cons_zero, Option.some.injEq] at ha
          simp only [zero_add, List.get?_cons_succ] at hc
          rw [← ha]
          cases rest with
          | nil => simp at hc
          | cons y ys =>
            simp only [List.get?_cons_zero, Option.some.injEq] at hc
            rw [← hc]
            exact (hhead y rfl).symm
        | succ k =>
          simp only [List.get?_cons_succ] at ha hc
          exact hcons k a c ha hc
      · intro it hit
        rcases List.mem_cons.1 hit with rfl | hm
        · exact hle
        · exact hmem it hm
      · intro it hit
        cases rest with
        | nil =>
          simp only [List.getLast?_singleton, Option.some.injEq] at hit
          rw [← hit]
          exact hnil rfl
        | cons y ys =>
          rw [List.getLast?_cons_cons] at hit
          exact hlast it hit
      · intro hne
        exact absurd hne (List.cons_ne_nil _ _)
    · rintro ⟨hhead, hcons, hmem, hlast, _⟩
      refine ⟨hhead x rfl, hmem x (List.mem_cons_self _ _), ?_, ?_, ?_, ?_, ?_⟩
      · intro it hit
        cases rest with
        | nil => simp at hit
        | cons y ys =>
          simp only [List.head?_cons, Option.some.injEq] at hit
          rw [← hit]
          exact (hcons 0 x y rfl rfl).symm
      · intro i a c ha hc
        exact hcons (i + 1) a c (by simpa using ha) (by simpa using hc)
      · intro it hit
        exact hmem it (List.mem_cons_of_mem _ hit)
      · intro it hit
        cases rest with
        | nil => simp at hit
        | cons y ys =>
          apply hlast
          rw [List.getLast?_cons_cons]
          exact hit
      · intro hnil
        subst hnil
        exact hlast x rfl

theorem Tiled_iff_tilingInvariant (b : Blob) : b.Tiled ↔ b.tilingInvariant :=
  tiles_iff_inWords b.header 0 b.data.length

/-! ## Claim C14 -/

/-- C14: every blob obtained from `New` by a sequence of `Append` calls satisfies the
tiling invariant in the words of the data model (the first entry starts at 0, each
entry's end is the next entry's start, every entry has `start ≤ end`, the last entry's
end is `len(data)`, and without entries the data is empty); `Append` on any blob that
satisfies the invariant gives a blob that satisfies it; and `Append` leaves all earlier
entries and all earlier data bytes unchanged. -/
theorem append_keeps_tiling (pairs : List (List Byte × List Byte)) :
    (appendAll New pairs).tilingInvariant ∧
    (∀ (b : Blob) (id data : List Byte), b.tilingInvariant →
      (b.Append id data).tilingInvariant) ∧
    (∀ (b : Blob) (id data : List Byte),
      (b.Append id data).header.take b.header.length = b.header ∧
      (b.Append id data).header.length = b.header.length + 1 ∧
      (b.Append id data).data.take b.data.length = b.data) := by
  refine ⟨?_, ?_, ?_⟩
  · exact (Tiled_iff_tilingInvariant _).1 (Tiled_appendAll pairs New Tiled_New)
  · intro b id data hb
    exact (Tiled_iff_tilingInvariant _).1
      (Tiled_Append b id data ((Tiled_iff_tilingInvariant b).2 hb))
  · intro b id data
    simp [Blob.Append]

/-! ## Access after `Append` -/

theorem appendAll_header_prefix : ∀ (pairs : List (List Byte × List Byte)) (b : Blob),
    ∃ more, (appendAll b pairs).header = b.header ++ more
  | [], b => ⟨[], by simp [appendAll]⟩
  | p :: rest, b => by
    obtain ⟨more, hm⟩ := appendAll_header_prefix rest (b.Append p.1 p.2)
    refine ⟨⟨p.1, b.data.length, b.data.length + p.2.length⟩ :: more, ?_⟩
    rw [appendAll, hm]
    simp [Blob.Append]

theorem appendAll_get : ∀ (pairs : List (List Byte × List Byte)) (b : Blob) (i : Nat)
    (p : List Byte × List Byte), pairs.get? i = some p →
    ∃ it, (appendAll b pairs).header.get? (b.header.length + i) = some it ∧ it.id = p.1 ∧
      subslice (appendAll b pairs).data it.start it.end_ = p.2
  | [], _, _, _, h => by simp at h
  | q :: rest, b, 0, p, h => by
    simp only [List.get?_cons_zero, Option.some.injEq] at h
    subst h
    obtain ⟨more, hm⟩ := appendAll_header_prefix rest (b.Append q.1 q.2)
    refine ⟨⟨q.1, b.data.length, b.data.length + q.2.length⟩, ?_, rfl, ?_⟩
    · rw [appendAll, hm]
      simp only [Blob.Append, List.append_assoc, List.singleton_append, Nat.add_zero]
      rw [List.get?_eq_getElem?, List.getElem?_append_right (Nat.le_refl _), Nat.sub_self]
      exact List.getElem?_cons_zero
    · rw [appendAll, appendAll_data]
      simp only [Blob.Append, subslice, Nat.add_sub_cancel_left, List.append_assoc]
      rw [List.drop_left, List.take_left]
  | q :: rest, b, i + 1, p, h => by
    simp only [List.get?_cons_succ] at h
    obtain ⟨it, h1, h2, h3⟩ := appendAll_get rest (b.Append q.1 q.2) i p h
    refine ⟨it, ?_, h2, ?_⟩
    · rw [appendAll]
      have e : (b.Append q.1 q.2).header.length + i = b.header.length + (i + 1) := by
        simp [Blob.Append]; omega
      rw [← e]
      exact h1
    · rw [appendAll]
      exact h3

theorem GetByIndex_of_get (b : Blob) (i : Nat) (it : indexItem)
    (h : b.header.get? i = some it) :
    b.GetByIndex (i : Int) = (subslice b.data it.start it.end_, true) := by
  have hlt : i < b.header.length := by
    by_contra hge
    rw [List.get?_eq_none.2 (by omega)] at h
    cases h
  unfold Blob.GetByIndex
  rw [if_neg (by omega), Int.toNat_ofNat, h]

theorem GetIDAtIndex_of_get (h : header) (i : Nat) (it : indexItem)
    (hg : h.get? i = some it) : GetIDAtIndex h (i : Int) = it.id := by
  have hlt : i < h.length := by
    by_contra hge
    rw [List.get?_eq_none.2 (by omega)] at hg
    cases hg
  unfold GetIDAtIndex
  rw [if_neg (by omega), Int.toNat_ofNat, hg]

theorem GetByIndex_appendAll (pairs : List (List Byte × List Byte)) (i : Nat)
    (p : List Byte × List Byte) (h : pairs.get? i = some p) :
    (appendAll New pairs).GetByIndex (i : Int) = (p.2, true) ∧
    GetIDAtIndex (appendAll New pairs).header (i : Int) = p.1 := by
  obtain ⟨it, h1, h2, h3⟩ := appendAll_get pairs New i p h
  have e : New.header.length + i = i := by simp [New]
  rw [e] at h1
  rw [GetByIndex_of_get _ i it h1, GetIDAtIndex_of_get _ i it h1, h2, h3]
  exact ⟨rfl, rfl⟩

/-! ## Claim C16 -/

/-- C16: after appending the pairs `(id_0, d_0)`, ..., `(id_{n-1}, d_{n-1})` in order to a
fresh blob, `ItemCount` returns `n`, and for every index `i` with `0 ≤ i < n`
`GetIDAtIndex(i)` returns `id_i` and `GetByIndex(i)` returns `(d_i, true)`. -/
theorem append_then_access (pairs : List (List Byte × List Byte)) :
    ItemCount (appendAll New pairs).header = pairs.length ∧
    ∀ (i : Nat) (p : List Byte × List Byte), pairs.get? i = some p →
      GetIDAtIndex (appendAll New pairs).header (i : Int) = p.1 ∧
      (appendAll New pairs).GetByIndex (i : Int) = (p.2, true) := by
  refine ⟨?_, fun i p h => ?_⟩
  · unfold ItemCount
    rw [appendAll_header_length]
    simp [New]
  · obtain ⟨h1, h2⟩ := GetByIndex_appendAll pairs i p h
    exact ⟨h2, h1⟩

/-! ## Claim C17 -/

theorem findByID_isSome_iff : ∀ (h : header) (id : List Byte),
    (findByID h id).isSome = true ↔ ∃ it ∈ h, it.id = id
  | [], id => by simp [findByID]
  | x :: rest, id => by
    rw [findByID]
    by_cases hx : x.id = id
    · rw [if_pos hx]
      simp only [Option.isSome_some, true_iff]
      exact ⟨x, List.mem_cons_self _ _, hx⟩
    · rw [if_neg hx, findByID_isSome_iff rest id]
      constructor
      · rintro ⟨it, hit, hid⟩
        exact ⟨it, List.mem_cons_of_mem _ hit, hid⟩
      · rintro ⟨it, hit, hid⟩
        rcases List.mem_cons.1 hit with rfl | hm
        · exact absurd hid hx
        · exact ⟨it, hm, hid⟩

theorem Blob.GetByIndex_found_iff (b : Blob) (i : Int) :
    (b.GetByIndex i).2 = true ↔ 0 ≤ i ∧ i < ItemCount b.header := by
  unfold Blob.GetByIndex ItemCount
  by_cases hi : i < 0 ∨ i ≥ b.header.length
  · rw [if_pos hi]
    simp only [Bool.false_eq_true, false_iff]
    omega
  · rw [if_neg hi]
    have hlt : i.toNat < b.header.length := by omega
    rw [List.get?_eq_get hlt]
    simp only [true_iff]
    omega

theorem BlobReader.readerByIndex_found_iff (b : BlobReader) (i : Int) :
    (b.GetByIndex i).2 = true ↔ 0 ≤ i ∧ i < ItemCount b.header := by
  unfold BlobReader.GetByIndex ItemCount
  by_cases hi : i < 0 ∨ i ≥ b.header.length
  · rw [if_pos hi]
    simp only [Bool.false_eq_true, false_iff]
    omega
  · rw [if_neg hi]
    have hlt : i.toNat < b.header.length := by omega
    rw [List.get?_eq_get hlt]
    simp only [true_iff]
    omega

theorem Blob.GetByID_found_iff (b : Blob) (id : List Byte) :
    (b.GetByID id).2 = true ↔ ∃ it ∈ b.header, it.id = id := by
  rw [← findByID_isSome_iff]
  unfold Blob.GetByID
  cases findByID b.header id <;> simp

theorem BlobReader.readerByID_found_iff (b : BlobReader) (id : List Byte) :
    (b.GetByID id).2 = true ↔ ∃ it ∈ b.header, it.id = id := by
  rw [← findByID_isSome_iff]
  unfold BlobReader.GetByID
  cases findByID b.header id <;> simp

/-- C17: on a `Blob` and on a `BlobReader`, `GetByIndex(i)` reports `found = true`
exactly when `0 ≤ i < ItemCount`, and `GetByID(id)` reports `found = true` exactly when
some entry has that id; whenever `found` is false the returned data is `nil` (the empty
byte sequence) and the returned sub-reader is `nil`; and `GetIDAtIndex(i)` returns the
empty string for every index outside `0 .. ItemCount - 1`. -/
theorem absent_lookups (b : Blob) (br : BlobReader) :
    (∀ i : Int, (b.GetByIndex i).2 = true ↔ 0 ≤ i ∧ i < ItemCount b.header) ∧
    (∀ i : Int, (br.GetByIndex i).2 = true ↔ 0 ≤ i ∧ i < ItemCount br.header) ∧
    (∀ id, (b.GetByID id).2 = true ↔ ∃ it ∈ b.header, it.id = id) ∧
    (∀ id, (br.GetByID id).2 = true ↔ ∃ it ∈ br.header, it.id = id) ∧
    (∀ i : Int, (b.GetByIndex i).2 = false → (b.GetByIndex i).1 = []) ∧
    (∀ id, (b.GetByID id).2 = false → (b.GetByID id).1 = []) ∧
    (∀ i : Int, (br.GetByIndex i).2 = false → (br.GetByIndex i).1 = none) ∧
    (∀ id, (br.GetByID id).2 = false → (br.GetByID id).1 = none) ∧
    (∀ i : Int, ¬ (0 ≤ i ∧ i < ItemCount b.header) → GetIDAtIndex b.header i = []) ∧
    (∀ i : Int, ¬ (0 ≤ i ∧ i < ItemCount br.header) → GetIDAtIndex br.header i = []) := by
  have hid : ∀ (h : header) (i : Int), ¬ (0 ≤ i ∧ i < ItemCount h) → GetIDAtIndex h i = [] := by
    intro h i hi
    unfold GetIDAtIndex
    unfold ItemCount at hi
    rw [if_pos (by omega)]
  refine ⟨b.GetByIndex_found_iff, br.readerByIndex_found_iff, b.GetByID_found_iff,
    br.readerByID_found_iff, ?_, ?_, ?_, ?_, hid b.header, hid br.header⟩
  · intro i
    rcases GetByIndex_cases b i with ⟨h1, _⟩ | ⟨it, _, h1, _⟩ <;> rw [h1] <;> simp
  · intro id
    rcases GetByID_cases b id with ⟨h1, _⟩ | ⟨it, _, h1, _⟩ <;> rw [h1] <;> simp
  · intro i
    rcases GetByIndex_cases ⟨br.header, []⟩ i with ⟨_, h2⟩ | ⟨it, _, _, h2⟩
    · rw [show br = ⟨br.header, br.zero⟩ from rfl, h2 br.zero]; simp
    · rw [show br = ⟨br.header, br.zero⟩ from rfl, h2 br.zero]; simp
  · intro id
    rcases GetByID_cases ⟨br.header, []⟩ id with ⟨_, h2⟩ | ⟨it, _, _, h2⟩
    · rw [show br = ⟨br.header, br.zero⟩ from rfl, h2 br.zero]; simp
    · rw [show br = ⟨br.header, br.zero⟩ from rfl, h2 br.zero]; simp

/-! ## Claim C18 -/

theorem findByID_first : ∀ (h : header) (id : List Byte) (i : Nat) (it : indexItem),
    h.get? i = some it → it.id = id →
    (∀ (j : Nat) (jt : indexItem), j < i → h.get? j = some jt → jt.id ≠ id) →
    findByID h id = some it
  | [], _, _, _, hg, _, _ => by simp at hg
  | x :: rest, id, 0, it, hg, hid, _ => by
    simp only [List.get?_cons_zero, Option.some.injEq] at hg
    subst hg
    rw [findByID, if_pos hid]
  | x :: rest, id, i + 1, it, hg, hid, hfirst => by
    simp only [List.get?_cons_succ] at hg
    have hx : x.id ≠ id := hfirst 0 x (Nat.succ_pos i) rfl
    rw [findByID, if_neg hx]
    exact findByID_first rest id i it hg hid
      (fun j jt hj hjt => hfirst (j + 1) jt (Nat.succ_lt_succ hj) (by simpa using hjt))

/-- C18: when the entry at index `i` carries the id and no entry at a smaller index does
(whatever entries at larger indices carry it too), `GetByID` on a `Blob` returns the data
of the entry at index `i`, as `GetByIndex(i)` does, and `GetByID` on a `BlobReader` with
the same index returns the sub-reader over that entry, as `GetByIndex(i)` does. -/
theorem first_match_wins (b : Blob) (br : BlobReader) (id : List Byte) (i : Nat)
    (it : indexItem) (hbr : br.header = b.header) (hi : b.header.get? i = some it)
    (hid : it.id = id)
    (hfirst : ∀ (j : Nat) (jt : indexItem), j < i → b.header.get? j = some jt → jt.id ≠ id) :
    b.GetByID id = (subslice b.data it.start it.end_, true) ∧
    b.GetByID id = b.GetByIndex (i : Int) ∧
    br.GetByID id = (some (br.readerFor it), true) ∧
    br.GetByID id = br.GetByIndex (i : Int) := by
  have hf := findByID_first b.header id i it hi hid hfirst
  have hlt : i < b.header.length := by
    by_contra hge
    rw [List.get?_eq_none.2 (by omega)] at hi
    cases hi
  have h1 : b.GetByID id = (subslice b.data it.start it.end_, true) := by
    unfold Blob.GetByID
    rw [hf]
  have h2 : br.GetByID id = (some (br.readerFor it), true) := by
    unfold BlobReader.GetByID
    rw [hbr, hf]
  have h3 : br.GetByIndex (i : Int) = (some (br.readerFor it), true) := by
    unfold BlobReader.GetByIndex
    rw [hbr, if_neg (by omega), Int.toNat_ofNat, hi]
  exact ⟨h1, by rw [h1, GetByIndex_of_get b i it hi], h2, by rw [h2, h3]⟩

/-- Witness of `first_match_wins`: the ids `"b"`, `"a"`, `"c"`, `"a"` and the id `"a"`,
first carried at index 1. -/
theorem first_match_wins_witness :
    (appendAll New [([98], [1]), ([97], [2, 3]), ([99], [4]), ([97], [5])]).GetByID [97]
      = (subslice (appendAll New [([98], [1]), ([97], [2, 3]), ([99], [4]), ([97], [5])]).data
          (⟨[97], 1, 3⟩ : indexItem).start (⟨[97], 1, 3⟩ : indexItem).end_, true) ∧
    (appendAll New [([98], [1]), ([97], [2, 3]), ([99], [4]), ([97], [5])]).GetByID [97]
      = (appendAll New [([98], [1]), ([97], [2, 3]), ([99], [4]), ([97], [5])]).GetByIndex
          ((1 : Nat) : Int) ∧
    (⟨(appendAll New [([98], [1]), ([97], [2, 3]), ([99], [4]), ([97], [5])]).header, 48⟩
        : BlobReader).GetByID [97]
      = (some ((⟨(appendAll New [([98], [1]), ([97], [2, 3]), ([99], [4]),
          ([97], [5])]).header, 48⟩ : BlobReader).readerFor ⟨[97], 1, 3⟩), true) ∧
    (⟨(appendAll New [([98], [1]), ([97], [2, 3]), ([99], [4]), ([97], [5])]).header, 48⟩
        : BlobReader).GetByID [97]
      = (⟨(appendAll New [([98], [1]), ([97], [2, 3]), ([99], [4]), ([97], [5])]).header, 48⟩
          : BlobReader).GetByIndex ((1 : Nat) : Int) :=
  first_match_wins (appendAll New [([98], [1]), ([97], [2, 3]), ([99], [4]), ([97], [5])])
    ⟨(appendAll New [([98], [1]), ([97], [2, 3]), ([99], [4]), ([97], [5])]).header, 48⟩
    [97] 1 ⟨[97], 1, 3⟩ rfl (by decide) rfl
    (fun j jt hj hjt => by
      have h0 : j = 0 := by omega
      subst h0
      have e : jt = ⟨[98], 0, 1⟩ := by
        have : (appendAll New [([98], [1]), ([97], [2, 3]), ([99], [4]), ([97], [5])]).header.get? 0
            = some ⟨[98], 0, 1⟩ := by decide
        rw [this] at hjt
        exact (Option.some.inj hjt).symm
      subst e
      decide)

/-! ## Claim C15 -/

/-- C15 fails on the code: the 24 bytes `20,0,0,0, 0,0, 0,0,0,0,0,0,0,128, 0,0,
0,0,0,0,0,0,0,128` declare two entries with the empty id and a data length of `2 ^ 63`
each; the running sum of the lengths overflows the `uint64` to 0, so `Read` reads no
data and succeeds, and the blob it returns has a first entry `[0, 2 ^ 63)` that ends
beyond the empty data and a second entry `[2 ^ 63, 0)` with `start > end`: it does not
satisfy the tiling invariant and `GetByIndex(0)` slices outside the data buffer. -/
theorem Read_overflowing_lengths :
    (Read (GoStream.at [20, 0, 0, 0, 0, 0, 0, 0, 0, 0, 0, 0, 0, 128,
        0, 0, 0, 0, 0, 0, 0, 0, 0, 128] 0)).1
      = .ok ⟨[⟨[], 0, 9223372036854775808⟩, ⟨[], 9223372036854775808, 0⟩], []⟩ ∧
    ¬ (⟨[⟨[], 0, 9223372036854775808⟩, ⟨[], 9223372036854775808, 0⟩], []⟩ : Blob).Tiled ∧
    (([] : List Byte).length < (⟨[], 0, 9223372036854775808⟩ : indexItem).end_) ∧
    ((⟨[], 9223372036854775808, 0⟩ : indexItem).end_
      < (⟨[], 9223372036854775808, 0⟩ : indexItem).start) := by
  refine ⟨by decide, by decide, by decide, by decide⟩

/-! ## Claim C19 -/

theorem readHeader_zero_at (file : GoStream) (hw : file.wellBehaved)
    (hz : (file.s.drop file.i).take 4 = [0, 0, 0, 0]) :
    readHeader file = (.ok ([], 0), ⟨file.s, file.i + 4, none, none, file.errMsg⟩) := by
  have hlen : file.i + 4 ≤ file.s.length := by
    have h := congrArg List.length hz
    rw [List.length_take, List.length_drop] at h
    simp only [List.length_cons, List.length_nil] at h
    omega
  have h := ReadFull_plain file.s file.i file.errMsg 4 hlen
  rw [hz] at h
  rw [GoStream.eq_plain file hw]
  unfold readHeader
  rw [h]
  simp only
  have hv : leValue ([0, 0, 0, 0] : List Byte) = 0 := by decide
  rw [if_pos hv]

theorem Read_of_header_empty (r r1 : GoStream) (h : header)
    (hr : readHeader r = (.ok (h, 0), r1)) : Read r = (.ok ⟨h, []⟩, r1) := by
  unfold Read
  rw [hr]
  simp only
  rw [if_neg (by omega)]

/-- C19: `Write` of a blob with zero entries (and, by the tiling invariant, no data) to a
writer that never fails emits exactly the four bytes `0,0,0,0`; and `Read` and `Open` of
any stream that never fails and whose next four bytes are `0,0,0,0` succeed with
`ItemCount() = 0` and leave the stream just behind these four bytes (for `Open`, the
position being less than `2 ^ 63`). -/
theorem empty_container (b : Blob) (w : GoWriter) (hw : w.failAtWrite = none)
    (hh : b.header = []) (hb : b.Tiled) :
    b.Write w = (none, ⟨w.out ++ [0, 0, 0, 0], none, w.errMsg⟩) ∧
    (∀ file : GoStream, file.wellBehaved → (file.s.drop file.i).take 4 = [0, 0, 0, 0] →
      ∃ b2 : Blob, Read file = (.ok b2, ⟨file.s, file.i + 4, none, none, file.errMsg⟩) ∧
        ItemCount b2.header = 0) ∧
    (∀ file : GoStream, file.wellBehaved → (file.s.drop file.i).take 4 = [0, 0, 0, 0] →
      file.i + 4 < 2 ^ 63 →
      ∃ br : BlobReader, Open file = (.ok br, ⟨file.s, file.i + 4, none, none, file.errMsg⟩) ∧
        ItemCount br.header = 0) := by
  refine ⟨?_, ?_, ?_⟩
  · obtain ⟨out, f, m⟩ := w
    simp only at hw
    subst hw
    have hd : b.data = [] := by
      have := hb
      unfold Blob.Tiled at this
      rw [hh] at this
      simp only [tiles] at this
      exact List.length_eq_zero.1 this.symm
    have hwh : writeHeader b.header [] = .ok [] := by rw [hh]; rfl
    rw [Write_of_header_ok b out [] m hwh, hd]
    simp only [List.length_nil, Nat.zero_mod, List.append_nil]
    rfl
  · intro file hwb hz
    exact ⟨⟨[], []⟩, Read_of_header_empty _ _ _ (readHeader_zero_at file hwb hz), rfl⟩
  · intro file hwb hz hpos
    exact ⟨⟨[], ((file.i + 4 : Nat) : Int)⟩,
      Open_of_ok _ _ _ _ _ _ (readHeader_zero_at file hwb hz)
        (GoStream.Seek_current_plain _ _ _ hpos), rfl⟩

/-- Witness of `empty_container`: the blob `New` and a fresh buffer. -/
theorem empty_container_witness :
    New.Write GoWriter.buffer
      = (none, ⟨GoWriter.buffer.out ++ [0, 0, 0, 0], none, GoWriter.buffer.errMsg⟩) ∧
    (∀ file : GoStream, file.wellBehaved → (file.s.drop file.i).take 4 = [0, 0, 0, 0] →
      ∃ b2 : Blob, Read file = (.ok b2, ⟨file.s, file.i + 4, none, none, file.errMsg⟩) ∧
        ItemCount b2.header = 0) ∧
    (∀ file : GoStream, file.wellBehaved → (file.s.drop file.i).take 4 = [0, 0, 0, 0] →
      file.i + 4 < 2 ^ 63 →
      ∃ br : BlobReader, Open file = (.ok br, ⟨file.s, file.i + 4, none, none, file.errMsg⟩) ∧
        ItemCount br.header = 0) :=
  empty_container New GoWriter.buffer rfl rfl (by decide)

/-! ## Reading back what was written -/

theorem written_eq (b : Blob) (hb : b.Tiled)
    (hid : ∀ it ∈ b.header, it.id.length ≤ MaxIDLen) :
    b.Write GoWriter.buffer = (none, ⟨formatBlob b, none, ""⟩) ∧ written b = formatBlob b := by
  have hw := Write_ok b [] "" hb hid
  rw [List.nil_append] at hw
  refine ⟨by rw [GoWriter.buffer, hw], ?_⟩
  unfold written
  rw [GoWriter.buffer, hw]

theorem formatBlob_length (b : Blob) (hb : b.Tiled) :
    (formatBlob b).length = 4 + (formatHeader (lengthsOf b.header)).length + b.data.length := by
  simp only [formatBlob, entriesData_eq b hb, leBytes_length, List.length_append]

theorem Read_written (b : Blob) (hb : b.Tiled)
    (hid : ∀ it ∈ b.header, it.id.length ≤ MaxIDLen)
    (hhdr : (formatHeader (lengthsOf b.header)).length < 2 ^ 32)
    (hsize : (written b).length < 2 ^ 63) :
    Read (GoStream.at (written b) 0)
      = (.ok b, ⟨written b, (written b).length, none, none, ""⟩) := by
  obtain ⟨_, hwr⟩ := written_eq b hb hid
  rw [hwr] at hsize ⊢
  have hl := formatBlob_length b hb
  have hr := Read_format [] [] b "" hb hid hhdr (by omega)
  rw [List.append_nil, List.nil_append, List.length_nil, Nat.zero_add] at hr
  rw [GoStream.at, hr]

theorem Open_written (b : Blob) (hb : b.Tiled)
    (hid : ∀ it ∈ b.header, it.id.length ≤ MaxIDLen)
    (hhdr : (formatHeader (lengthsOf b.header)).length < 2 ^ 32)
    (hsize : (written b).length < 2 ^ 63) :
    ∃ (br : BlobReader) (file1 : GoStream),
      Open (GoStream.at (written b) 0) = (.ok br, file1) ∧ br.header = b.header ∧
      ∀ i : Int, (b.GetByIndex i = ([], false) ∧ br.GetByIndex i = (none, false)) ∨
        ∃ r, br.GetByIndex i = (some r, true) ∧ (b.GetByIndex i).2 = true ∧
          readsAs r (written b) (b.GetByIndex i).1 := by
  obtain ⟨_, hwr⟩ := written_eq b hb hid
  rw [hwr] at hsize ⊢
  have hl := formatBlob_length b hb
  have ho := Open_format [] [] b "" hb hid hhdr (by omega) (by
    rw [List.length_nil]; omega)
  rw [List.append_nil, List.nil_append] at ho
  refine ⟨_, _, by rw [GoStream.at]; exact ho, rfl, fun i => ?_⟩
  rcases GetByIndex_cases b i with ⟨h1, h2⟩ | ⟨it, hit, h1, h2⟩
  · exact Or.inl ⟨h1, h2 _⟩
  · refine Or.inr ⟨_, h2 _, by rw [h1], ?_⟩
    rw [h1]
    intro file2 hw2 hs2 fuel sizes hsz hfuel
    exact ReadAll_entry b [] it hb hit (by rw [List.nil_append]; exact hsize) file2 hw2
      (by rw [List.nil_append]; exact hs2) fuel sizes hsz hfuel

/-! ## Lists with one pair put in -/

theorem get?_insert_lt (l1 l2 : List (List Byte × List Byte)) (e : List Byte × List Byte)
    (j : Nat) (h : j < l1.length) : (l1 ++ e :: l2).get? j = (l1 ++ l2).get? j := by
  rw [List.get?_eq_getElem?, List.get?_eq_getElem?, List.getElem?_append_left h,
    List.getElem?_append_left h]

theorem get?_insert_eq (l1 l2 : List (List Byte × List Byte)) (e : List Byte × List Byte) :
    (l1 ++ e :: l2).get? l1.length = some e := by
  rw [List.get?_eq_getElem?, List.getElem?_append_right (Nat.le_refl _), Nat.sub_self]
  exact List.getElem?_cons_zero

theorem get?_insert_gt (l1 l2 : List (List Byte × List Byte)) (e : List Byte × List Byte)
    (j : Nat) (h : l1.length ≤ j) : (l1 ++ e :: l2).get? (j + 1) = (l1 ++ l2).get? j := by
  rw [List.get?_eq_getElem?, List.get?_eq_getElem?,
    List.getElem?_append_right (by omega), List.getElem?_append_right h]
  have e1 : j + 1 - l1.length = (j - l1.length) + 1 := by omega
  rw [e1, List.getElem?_cons_succ]

theorem GetByIndex_appendAll_eq (pairs : List (List Byte × List Byte)) (j : Nat) :
    (appendAll New pairs).GetByIndex (j : Int) =
      match pairs.get? j with
      | some p => (p.2, true)
      | none => ([], false) := by
  cases hg : pairs.get? j with
  | some p => exact (GetByIndex_appendAll pairs j p hg).1
  | none =>
    have hlen : pairs.length ≤ j := List.get?_eq_none.1 hg
    unfold Blob.GetByIndex
    rw [appendAll_header_length, if_pos (by simp [New]; omega)]

/-! ## Claim C20 -/

/-- The preservation of C20 where the header length fits its field: appending an entry
with empty data adds exactly one index entry,
with `start = end`, and leaves the data buffer unchanged; and when the ids are each at
most 65535 bytes long, the header takes less than `2 ^ 32` bytes and the written bytes
are fewer than `2 ^ 63`, then after `Write` and `Read` (or `Open`) that entry is found
and yields zero bytes, and every entry before it and every entry after it yields the
same bytes as the entry of the blob built without the empty entry. -/
theorem zero_length_entry_preserved (pairs1 pairs2 : List (List Byte × List Byte))
    (id : List Byte)
    (hid : ∀ p ∈ pairs1 ++ (id, []) :: pairs2, p.1.length ≤ MaxIDLen)
    (hhdr : ((pairs1 ++ (id, []) :: pairs2).map (fun p => p.1.length + 10)).sum < 2 ^ 32)
    (hsize : (written (appendAll New (pairs1 ++ (id, []) :: pairs2))).length < 2 ^ 63) :
    (∀ c : Blob,
      (c.Append id []).header = c.header ++ [⟨id, c.data.length, c.data.length⟩] ∧
      (c.Append id []).data = c.data) ∧
    ∃ (b2 : Blob) (r2 : GoStream) (br : BlobReader) (file1 : GoStream),
      Read (GoStream.at (written (appendAll New (pairs1 ++ (id, []) :: pairs2))) 0)
        = (.ok b2, r2) ∧
      Open (GoStream.at (written (appendAll New (pairs1 ++ (id, []) :: pairs2))) 0)
        = (.ok br, file1) ∧
      b2.GetByIndex (pairs1.length : Int) = ([], true) ∧
      GetIDAtIndex b2.header (pairs1.length : Int) = id ∧
      (∃ r, br.GetByIndex (pairs1.length : Int) = (some r, true) ∧
        readsAs r (written (appendAll New (pairs1 ++ (id, []) :: pairs2))) []) ∧
      (∀ j : Nat, j < pairs1.length →
        b2.GetByIndex (j : Int) = (appendAll New (pairs1 ++ pairs2)).GetByIndex (j : Int) ∧
        ∃ r, br.GetByIndex (j : Int) = (some r, true) ∧
          readsAs r (written (appendAll New (pairs1 ++ (id, []) :: pairs2)))
            ((appendAll New (pairs1 ++ pairs2)).GetByIndex (j : Int)).1) ∧
      (∀ j : Nat, pairs1.length ≤ j →
        b2.GetByIndex ((j + 1 : Nat) : Int)
          = (appendAll New (pairs1 ++ pairs2)).GetByIndex (j : Int) ∧
        (j < pairs1.length + pairs2.length →
          ∃ r, br.GetByIndex ((j + 1 : Nat) : Int) = (some r, true) ∧
            readsAs r (written (appendAll New (pairs1 ++ (id, []) :: pairs2)))
              ((appendAll New (pairs1 ++ pairs2)).GetByIndex (j : Int)).1)) := by
  have hb : (appendAll New (pairs1 ++ (id, []) :: pairs2)).Tiled :=
    Tiled_appendAll _ _ Tiled_New
  have hids := ids_appendAll _ hid
  have hh : (formatHeader (lengthsOf (appendAll New (pairs1 ++ (id, []) :: pairs2)).header)).length
      < 2 ^ 32 := by
    rw [headerSize_appendAll]; exact hhdr
  have hr := Read_written _ hb hids hh hsize
  obtain ⟨br, file1, ho, _, hsub⟩ := Open_written _ hb hids hh hsize
  have hfound : ∀ (i : Nat) (x : List Byte),
      (appendAll New (pairs1 ++ (id, []) :: pairs2)).GetByIndex (i : Int) = (x, true) →
      ∃ r, br.GetByIndex (i : Int) = (some r, true) ∧
        readsAs r (written (appendAll New (pairs1 ++ (id, []) :: pairs2))) x := by
    intro i x hx
    rcases hsub (i : Int) with ⟨h1, _⟩ | ⟨r, h1, _, h3⟩
    · rw [hx] at h1
      cases h1
    · rw [hx] at h3
      exact ⟨r, h1, h3⟩
  have hmid : (appendAll New (pairs1 ++ (id, []) :: pairs2)).GetByIndex (pairs1.length : Int)
      = ([], true) := by
    rw [GetByIndex_appendAll_eq, get?_insert_eq]
  have hlt : ∀ j : Nat, j < pairs1.length →
      (appendAll New (pairs1 ++ (id, []) :: pairs2)).GetByIndex (j : Int)
        = (appendAll New (pairs1 ++ pairs2)).GetByIndex (j : Int) := by
    intro j hj
    rw [GetByIndex_appendAll_eq, GetByIndex_appendAll_eq, get?_insert_lt _ _ _ _ hj]
  have hgt : ∀ j : Nat, pairs1.length ≤ j →
      (appendAll New (pairs1 ++ (id, []) :: pairs2)).GetByIndex ((j + 1 : Nat) : Int)
        = (appendAll New (pairs1 ++ pairs2)).GetByIndex (j : Int) := by
    intro j hj
    rw [GetByIndex_appendAll_eq, GetByIndex_appendAll_eq, get?_insert_gt _ _ _ _ hj]
  have hsome : ∀ j : Nat, j < pairs1.length + pairs2.length →
      ∃ x, (appendAll New (pairs1 ++ pairs2)).GetByIndex (j : Int) = (x, true) := by
    intro j hj
    have hj2 : j < (pairs1 ++ pairs2).length := by rw [List.length_append]; exact hj
    rw [GetByIndex_appendAll_eq, List.get?_eq_get hj2]
    exact ⟨_, rfl⟩
  refine ⟨fun c => ⟨by simp [Blob.Append], by simp [Blob.Append]⟩, _, _, br, file1, hr, ho,
    hmid, ?_, hfound _ _ hmid, ?_, ?_⟩
  · exact (GetByIndex_appendAll _ _ _ (get?_insert_eq pairs1 pairs2 (id, []))).2
  · intro j hj
    refine ⟨hlt j hj, ?_⟩
    obtain ⟨x, hx⟩ := hsome j (by omega)
    rw [hx]
    exact hfound j x (by rw [hlt j hj, hx])
  · intro j hj
    refine ⟨hgt j hj, fun hj2 => ?_⟩
    obtain ⟨x, hx⟩ := hsome j hj2
    rw [hx]
    exact hfound (j + 1) x (by rw [hgt j hj, hx])

/-- Witness of `zero_length_entry_preserved`: the pairs `("1", [1])`, `("_", [])`,
`("2", [2])` of `TestZeroLengthEntryCanGoBetweenTwoEntries`. -/
theorem zero_length_entry_preserved_witness :
    (∀ c : Blob,
      (c.Append [95] []).header = c.header ++ [⟨[95], c.data.length, c.data.length⟩] ∧
      (c.Append [95] []).data = c.data) ∧
    ∃ (b2 : Blob) (r2 : GoStream) (br : BlobReader) (file1 : GoStream),
      Read (GoStream.at (written (appendAll New ([([49], [1])] ++ ([95], []) :: [([50], [2])])))
        0) = (.ok b2, r2) ∧
      Open (GoStream.at (written (appendAll New ([([49], [1])] ++ ([95], []) :: [([50], [2])])))
        0) = (.ok br, file1) ∧
      b2.GetByIndex (([([49], [1])] : List (List Byte × List Byte)).length : Int) = ([], true) ∧
      GetIDAtIndex b2.header (([([49], [1])] : List (List Byte × List Byte)).length : Int)
        = [95] ∧
      (∃ r, br.GetByIndex (([([49], [1])] : List (List Byte × List Byte)).length : Int)
          = (some r, true) ∧
        readsAs r (written (appendAll New ([([49], [1])] ++ ([95], []) :: [([50], [2])])))
          []) ∧
      (∀ j : Nat, j < ([([49], [1])] : List (List Byte × List Byte)).length →
        b2.GetByIndex (j : Int)
          = (appendAll New ([([49], [1])] ++ [([50], [2])])).GetByIndex (j : Int) ∧
        ∃ r, br.GetByIndex (j : Int) = (some r, true) ∧
          readsAs r (written (appendAll New ([([49], [1])] ++ ([95], []) :: [([50], [2])])))
            ((appendAll New ([([49], [1])] ++ [([50], [2])])).GetByIndex (j : Int)).1) ∧
      (∀ j : Nat, ([([49], [1])] : List (List Byte × List Byte)).length ≤ j →
        b2.GetByIndex ((j + 1 : Nat) : Int)
          = (appendAll New ([([49], [1])] ++ [([50], [2])])).GetByIndex (j : Int) ∧
        (j < ([([49], [1])] : List (List Byte × List Byte)).length
              + ([([50], [2])] : List (List Byte × List Byte)).length →
          ∃ r, br.GetByIndex ((j + 1 : Nat) : Int) = (some r, true) ∧
            readsAs r (written (appendAll New ([([49], [1])] ++ ([95], []) :: [([50], [2])])))
              ((appendAll New ([([49], [1])] ++ [([50], [2])])).GetByIndex (j : Int)).1)) :=
  zero_length_entry_preserved [([49], [1])] [([50], [2])] [95] (by decide) (by decide)
    (by decide)

theorem replicate_append_one (n : Nat) (x : List Byte × List Byte) :
    List.replicate n x ++ [x] = List.replicate (n + 1) x := by
  induction n with
  | zero => rfl
  | succ k ih => rw [List.replicate_succ, List.cons_append, ih, ← List.replicate_succ]

theorem replicate_65535_append :
    List.replicate 65535 (List.replicate 65526 (97 : Byte), ([] : List Byte))
        ++ [(List.replicate 65526 (97 : Byte), ([] : List Byte))]
      = List.replicate 65536 (List.replicate 65526 (97 : Byte), ([] : List Byte)) := by
  have h := replicate_append_one 65535 (List.replicate 65526 (97 : Byte), ([] : List Byte))
  have e : 65535 + 1 = 65536 := by norm_num
  rw [e] at h
  exact h

theorem hugeFront_append : hugeFront ++ [(hugeId, [])] = hugePairs := by
  rw [hugeFront, hugeId, hugePairs]
  exact replicate_65535_append

theorem written_of_Write (b : Blob) (x : List Byte) (f : Option Int) (m : String)
    (h : b.Write GoWriter.buffer = (none, ⟨x, f, m⟩)) : written b = x := by
  unfold written
  rw [h]

theorem hugePairs_written :
    written (appendAll New hugePairs)
      = [0, 0, 0, 0] ++ formatHeader (lengthsOf (appendAll New hugePairs).header) :=
  written_of_Write _ _ _ _ hugePairs_Write_buffer

theorem hugePairs_Read_written :
    Read (GoStream.at (written (appendAll New hugePairs)) 0)
      = (.ok ⟨[], []⟩,
        ⟨[0, 0, 0, 0] ++ formatHeader (lengthsOf (appendAll New hugePairs).header), 4, none,
          none, ""⟩) := by
  rw [hugePairs_written, GoStream.at]
  exact Read_zero _ _

theorem GetByIndex_empty (i : Int) : (⟨[], []⟩ : Blob).GetByIndex i = ([], false) := by
  unfold Blob.GetByIndex
  rw [if_pos (by simp only [List.length_nil, Nat.cast_zero]; omega)]

theorem GetByID_empty (id : List Byte) : (⟨[], []⟩ : Blob).GetByID id = ([], false) := rfl

/-- C20 fails on the code: after the `65535` pairs `hugeFront`, whose ids of `65526`
bytes are within the limit, the entry `(hugeId, [])` with empty data makes the header
`2 ^ 32` bytes long; `Write` returns no error but stores a header length of zero, and
after `Read` the entry is not found, neither by its index nor by its id. -/
theorem zero_length_entry_lost_at_hugeFront :
    (∀ p ∈ hugeFront ++ [(hugeId, [])], p.1.length ≤ 65535) ∧
    ((appendAll New (hugeFront ++ [(hugeId, [])])).Write GoWriter.buffer).1 = none ∧
    ∃ (b2 : Blob) (r2 : GoStream),
      Read (GoStream.at (written (appendAll New (hugeFront ++ [(hugeId, [])]))) 0)
        = (.ok b2, r2) ∧
      b2.GetByIndex (hugeFront.length : Int) = ([], false) ∧
      b2.GetByID hugeId = ([], false) := by
  rw [hugeFront_append]
  exact ⟨hugePairs_ids, by rw [hugePairs_Write_buffer], _, _, hugePairs_Read_written,
    GetByIndex_empty _, GetByID_empty _⟩

end blob

namespace payload

/-! ## Claims C21, C22, C23: the combined file and its trailer -/

theorem cmdMain_eq (H D : List Byte) :
    cmdMain H D = H ++ D ++ magic ++ leBytes 8 H.length := by
  have h := leBytes_mod 8 H.length
  have e : (256 : Nat) ^ 8 = 2 ^ 64 := by norm_num
  rw [e] at h
  unfold cmdMain
  simp only
  rw [h]

theorem cmd.main_written (env : cmd.Env) (p : String × List Byte × Nat)
    (h : (cmd.main env).written = some p) :
    ∃ H D mode, env.readExe = .ok H ∧ env.readData = .ok D ∧ env.stat = .ok mode ∧
      env.writeFile = none ∧ p.2 = (cmdMain H D, mode) := by
  unfold cmd.main at h
  by_cases hf : env.exeFile = "" ∨ env.dataFile = ""
  · rw [if_pos hf] at h
    simp at h
  · rw [if_neg hf] at h
    cases hs : env.stat with
    | error e => rw [hs] at h; simp at h
    | ok mode =>
      cases he : env.readExe with
      | error e => rw [hs, he] at h; simp at h
      | ok H =>
        cases hd : env.readData with
        | error e => rw [hs, he, hd] at h; simp at h
        | ok D =>
          cases hwf : env.writeFile with
          | some e => rw [hs, he, hd, hwf] at h; simp at h
          | none =>
            rw [hs, he, hd, hwf] at h
            simp only [Option.some.injEq] at h
            subst h
            exact ⟨H, D, mode, rfl, rfl, rfl, rfl, rfl⟩

theorem cmd.main_writes (env : cmd.Env) (H D : List Byte) (mode : Nat)
    (hexe : env.exeFile ≠ "") (hdata : env.dataFile ≠ "") (hs : env.stat = .ok mode)
    (he : env.readExe = .ok H) (hd : env.readData = .ok D) (hw : env.writeFile = none) :
    cmd.main env
      = ⟨[], [], some (if env.outputFile = "" then env.exeFile else env.outputFile,
          cmdMain H D, mode), 0⟩ := by
  unfold cmd.main
  rw [if_neg (by rintro (h | h); exact hexe h; exact hdata h), hs, he, hd, hw]

/-- C21: for every host `H` (whose length is an `int`) and data `D`, whenever both
flags are given, `os.Stat` and the two `ioutil.ReadFile` succeed with `H` and `D`, and
`ioutil.WriteFile` succeeds, the append tool writes, to the output path (the path of the
executable when none is given) and with the mode of the executable, exactly
`H ++ D ++ "payload " ++` the length of `H` as a little-endian `uint64`, from which the
length is decoded again, and it prints nothing; this output is `len(H) + len(D) + 16`
bytes long, its last 16 bytes are the trailer, and `H` is its beginning; and the tool
writes no file with other contents. -/
theorem combined_file_layout (H D : List Byte) (hH : H.length < 2 ^ 63) :
    (∀ (env : cmd.Env) (mode : Nat), env.exeFile ≠ "" → env.dataFile ≠ "" →
      env.stat = .ok mode → env.readExe = .ok H → env.readData = .ok D →
      env.writeFile = none →
      cmd.main env
        = ⟨[], [], some (if env.outputFile = "" then env.exeFile else env.outputFile,
            H ++ D ++ magic ++ leBytes 8 H.length, mode), 0⟩) ∧
    cmdMain H D = H ++ D ++ magic ++ leBytes 8 H.length ∧
    magic.map (fun b => Char.ofNat b.val) = "payload ".data ∧
    leValue (leBytes 8 H.length) = H.length ∧
    (cmdMain H D).length = H.length + D.length + 16 ∧
    (cmdMain H D).drop ((cmdMain H D).length - 16) = magic ++ leBytes 8 H.length ∧
    (cmdMain H D).take H.length = H ∧
    (∀ (env : cmd.Env) (p : String × List Byte × Nat), env.readExe = .ok H →
      env.readData = .ok D → (cmd.main env).written = some p → p.2.1 = cmdMain H D) := by
  have hlen := cmdMain_length H D
  refine ⟨?_, cmdMain_eq H D, by decide, ?_, hlen, ?_, ?_, ?_⟩
  · intro env mode hexe hdata hs he hd hw
    rw [cmd.main_writes env H D mode hexe hdata hs he hd hw, cmdMain_eq]
  · rw [leValue_leBytes]
    exact Nat.mod_eq_of_lt (by norm_num; omega)
  · rw [hlen, cmdMain_eq]
    have e : H ++ D ++ magic ++ leBytes 8 H.length
        = (H ++ D) ++ (magic ++ leBytes 8 H.length) := by
      simp only [List.append_assoc]
    rw [e]
    have e2 : H.length + D.length + 16 - 16 = (H ++ D).length := by
      rw [List.length_append]; omega
    rw [e2, List.drop_left]
  · rw [cmdMain_eq]
    simp only [List.append_assoc]
    rw [List.take_left]
  · intro env p h1 h2 h3
    obtain ⟨H1, D1, mode, e1, e2, _, _, e5⟩ := cmd.main_written env p h3
    rw [h1] at e1
    rw [h2] at e2
    injection e1 with e1
    injection e2 with e2
    rw [e5, e1, e2]

/-- Witness of `combined_file_layout`: a run of the tool on a host of three bytes and
data of two bytes, without the flag `-output`. -/
theorem combined_file_layout_witness :
    cmd.main ⟨"game.exe", "data.blob", "", "usage", .ok 493, .ok [1, 2, 3], .ok [7, 8], none⟩
      = ⟨[], [], some ("game.exe",
          [1, 2, 3, 7, 8, 112, 97, 121, 108, 111, 97, 100, 32, 3, 0, 0, 0, 0, 0, 0, 0], 493),
          0⟩ ∧
    (cmdMain [1, 2, 3] [7, 8]).length = 3 + 2 + 16 :=
  ⟨(combined_file_layout [1, 2, 3] [7, 8] (by decide)).1
      ⟨"game.exe", "data.blob", "", "usage", .ok 493, .ok [1, 2, 3], .ok [7, 8], none⟩ 493
      (by decide) (by decide) rfl rfl rfl rfl,
    (combined_file_layout [1, 2, 3] [7, 8] (by decide)).2.2.2.2.1⟩

end payload

theorem String.append_ne_of_take (a x b : String) (n : Nat) (hn : n ≤ a.data.length)
    (h : a.data.take n ≠ b.data.take n) : a ++ x ≠ b := by
  intro e
  apply h
  have e1 : (a ++ x).data = b.data := by rw [e]
  rw [String.data_append] at e1
  rw [← e1, List.take_append_of_le_length hn]

namespace payload

theorem annotate_some_ne_absent (msg : String) (e : GoError)
    (hn : 15 ≤ (("payload.Open: " ++ msg) ++ ": ").data.length)
    (h : (("payload.Open: " ++ msg) ++ ": ").data.take 15
      ≠ ("payload.Open: the executable does not contain a payload" : String).data.take 15) :
    annotate msg (some e) ≠ .New "payload.Open: the executable does not contain a payload" := by
  unfold annotate
  simp only [ne_eq, GoError.New.injEq]
  exact String.append_ne_of_take _ _ _ 15 hn h

theorem Open_of_seek_error (file f1 : GoStream) (x : Int) (err : GoError)
    (h1 : file.Seek (-16) SeekEnd = ((x, some err), f1)) :
    Open file = (.error (annotate "unable to seek to executable's end" (some err)), f1) := by
  unfold Open
  rw [h1]

theorem Open_of_magic_error (file f1 f2 : GoStream) (dataEnd : Int) (bs : List Byte)
    (err : GoError)
    (h1 : file.Seek (-16) SeekEnd = ((dataEnd, none), f1))
    (h2 : ReadFull f1 8 = ((bs, some err), f2)) :
    Open file = (.error (annotate "unable to read magic string" (some err)), f2) := by
  unfold Open
  rw [h1]
  simp only
  rw [h2]

theorem Open_of_magic_mismatch (file f1 f2 : GoStream) (dataEnd : Int) (bs : List Byte)
    (h1 : file.Seek (-16) SeekEnd = ((dataEnd, none), f1))
    (h2 : ReadFull f1 8 = ((bs, none), f2)) (h3 : bs ≠ magic) :
    Open file = (.error (annotate "the executable does not contain a payload" none), f2) := by
  unfold Open
  rw [h1]
  simp only
  rw [h2]
  simp only
  rw [if_pos h3]

theorem Open_of_size_error (file f1 f2 f3 : GoStream) (dataEnd : Int) (bs : List Byte)
    (err : GoError)
    (h1 : file.Seek (-16) SeekEnd = ((dataEnd, none), f1))
    (h2 : ReadFull f1 8 = ((magic, none), f2))
    (h3 : ReadFull f2 8 = ((bs, some err), f3)) :
    Open file = (.error (annotate "unable to read payload size" (some err)), f3) := by
  unfold Open
  rw [h1]
  simp only
  rw [h2]
  simp only [ne_eq, not_true_eq_false, if_false]
  rw [h3]

theorem Open_of_invalid_size (file f1 f2 f3 : GoStream) (dataEnd : Int) (bs : List Byte)
    (h1 : file.Seek (-16) SeekEnd = ((dataEnd, none), f1))
    (h2 : ReadFull f1 8 = ((magic, none), f2))
    (h3 : ReadFull f2 8 = ((bs, none), f3))
    (h4 : leValue bs > toUint64 dataEnd) :
    Open file = (.error (annotate "invalid data size at file end" none), f3) := by
  unfold Open
  rw [h1]
  simp only
  rw [h2]
  simp only [ne_eq, not_true_eq_false, if_false]
  rw [h3]
  simp only
  rw [if_pos h4]

theorem Open_of_start_error (file f1 f2 f3 f4 : GoStream) (dataEnd x : Int) (bs : List Byte)
    (err : GoError)
    (h1 : file.Seek (-16) SeekEnd = ((dataEnd, none), f1))
    (h2 : ReadFull f1 8 = ((magic, none), f2))
    (h3 : ReadFull f2 8 = ((bs, none), f3))
    (h4 : ¬ leValue bs > toUint64 dataEnd)
    (h5 : f3.Seek (toInt64 (leValue bs)) SeekStart = ((x, some err), f4)) :
    Open file = (.error (annotate "unable to seek to payload start" (some err)), f4) := by
  unfold Open
  rw [h1]
  simp only
  rw [h2]
  simp only [ne_eq, not_true_eq_false, if_false]
  rw [h3]
  simp only
  rw [if_neg h4, h5]

/-- The error of no appendix is returned by `Open` only after the magic string has been
read and has not matched. -/
theorem Open_absent_only_on_mismatch (f : GoStream)
    (h : (Open f).1 = .error (.New "payload.Open: the executable does not contain a payload")) :
    ∃ (dataEnd : Int) (f1 : GoStream) (bs : List Byte) (f2 : GoStream),
      f.Seek (-16) SeekEnd = ((dataEnd, none), f1) ∧ ReadFull f1 8 = ((bs, none), f2) ∧
      bs ≠ magic := by
  rcases h1 : f.Seek (-16) SeekEnd with ⟨⟨dataEnd, e1⟩, f1⟩
  cases e1 with
  | some err =>
    rw [Open_of_seek_error f f1 dataEnd err h1] at h
    simp only [Except.error.injEq] at h
    exact absurd h (annotate_some_ne_absent _ _ (by decide) (by decide))
  | none =>
    rcases h2 : ReadFull f1 8 with ⟨⟨bs, e2⟩, f2⟩
    cases e2 with
    | some err =>
      rw [Open_of_magic_error f f1 f2 dataEnd bs err h1 h2] at h
      simp only [Except.error.injEq] at h
      exact absurd h (annotate_some_ne_absent _ _ (by decide) (by decide))
    | none =>
      by_cases hm : bs = magic
      · subst hm
        rcases h3 : ReadFull f2 8 with ⟨⟨ds, e3⟩, f3⟩
        cases e3 with
        | some err =>
          rw [Open_of_size_error f f1 f2 f3 dataEnd ds err h1 h2 h3] at h
          simp only [Except.error.injEq] at h
          exact absurd h (annotate_some_ne_absent _ _ (by decide) (by decide))
        | none =>
          by_cases h4 : leValue ds > toUint64 dataEnd
          · rw [Open_of_invalid_size f f1 f2 f3 dataEnd ds h1 h2 h3 h4] at h
            simp only [Except.error.injEq] at h
            exact absurd h (by decide)
          · rcases h5 : f3.Seek (toInt64 (leValue ds)) SeekStart with ⟨⟨x, e5⟩, f4⟩
            cases e5 with
            | some err =>
              rw [Open_of_start_error f f1 f2 f3 f4 dataEnd x ds err h1 h2 h3 h4 h5] at h
              simp only [Except.error.injEq] at h
              exact absurd h (annotate_some_ne_absent _ _ (by decide) (by decide))
            | none =>
              rw [Open_of_steps f f1 f2 f3 f4 dataEnd x ds h1 h2 h3 h4 h5] at h
              simp at h
      · exact ⟨dataEnd, f1, bs, f2, rfl, h2, hm⟩

end payload

theorem GoStream.Seek_end_short (s : List Byte) (i : Nat) (m : String) (h : s.length < 16) :
    (⟨s, i, none, none, m⟩ : GoStream).Seek (-16) SeekEnd =
      ((0, some (.New "bytes.Reader.Seek: negative position")), ⟨s, i, none, none, m⟩) := by
  have hw : wrapInt64 ((s.length : Int) + -16) = (s.length : Int) - 16 := by
    rw [wrapInt64_of_bounds _ (by omega) (by omega)]
    omega
  have hn : (s.length : Int) - 16 < 0 := by omega
  simp [GoStream.Seek, SeekStart, SeekCurrent, SeekEnd, hw, hn]

namespace payload

theorem Open_short (f : GoStream) (hw : f.wellBehaved) (h : f.s.length < 16) :
    Open f = (.error (annotate "unable to seek to executable's end"
      (some (.New "bytes.Reader.Seek: negative position"))), f) := by
  have e := GoStream.eq_plain f hw
  have h1 := GoStream.Seek_end_short f.s f.i f.errMsg h
  rw [← e] at h1
  exact Open_of_seek_error f f 0 _ h1

/-- The three steps of `Open` on a file of at least 16 bytes that never fails: the seek
to the trailer and the two reads of eight bytes. -/
theorem Open_plain_steps (s : List Byte) (i : Nat) (m : String) (h16 : 16 ≤ s.length)
    (hs : s.length < 2 ^ 63) :
    (⟨s, i, none, none, m⟩ : GoStream).Seek (-16) SeekEnd
      = ((((s.length - 16 : Nat) : Int), none), ⟨s, s.length - 16, none, none, m⟩) ∧
    ReadFull ⟨s, s.length - 16, none, none, m⟩ 8
      = (((s.drop (s.length - 16)).take 8, none), ⟨s, s.length - 16 + 8, none, none, m⟩) ∧
    ReadFull ⟨s, s.length - 16 + 8, none, none, m⟩ 8
      = (((s.drop (s.length - 16 + 8)).take 8, none),
          ⟨s, s.length - 16 + 8 + 8, none, none, m⟩) := by
  have h1 := GoStream.Seek_end_plain s i m 16 h16 hs
  have e : (-((16 : Nat) : Int)) = -16 := by norm_num
  rw [e] at h1
  exact ⟨h1, ReadFull_plain s _ m 8 (by omega), ReadFull_plain s _ m 8 (by omega)⟩

theorem Open_plain_mismatch (s : List Byte) (i : Nat) (m : String) (h16 : 16 ≤ s.length)
    (hs : s.length < 2 ^ 63) (hm : (s.drop (s.length - 16)).take 8 ≠ magic) :
    Open ⟨s, i, none, none, m⟩
      = (.error (.New "payload.Open: the executable does not contain a payload"),
          ⟨s, s.length - 16 + 8, none, none, m⟩) := by
  obtain ⟨h1, h2, _⟩ := Open_plain_steps s i m h16 hs
  rw [Open_of_magic_mismatch _ _ _ _ _ h1 h2 hm]
  rfl

theorem toUint64_dataEnd (n : Nat) (hs : n < 2 ^ 63) : toUint64 ((n : Nat) : Int) = n := by
  rw [toUint64_of_nonneg _ (by omega) (by omega)]
  simp only [Int.toNat_ofNat]

theorem Open_plain_invalid (s : List Byte) (i : Nat) (m : String) (h16 : 16 ≤ s.length)
    (hs : s.length < 2 ^ 63) (hm : (s.drop (s.length - 16)).take 8 = magic)
    (hgt : leValue ((s.drop (s.length - 16 + 8)).take 8) > s.length - 16) :
    Open ⟨s, i, none, none, m⟩
      = (.error (.New "payload.Open: invalid data size at file end"),
          ⟨s, s.length - 16 + 8 + 8, none, none, m⟩) := by
  obtain ⟨h1, h2, h3⟩ := Open_plain_steps s i m h16 hs
  rw [hm] at h2
  rw [Open_of_invalid_size _ _ _ _ _ _ h1 h2 h3
    (by rw [toUint64_dataEnd _ (by omega)]; exact hgt)]
  rfl

theorem Open_plain_valid (s : List Byte) (i : Nat) (m : String) (h16 : 16 ≤ s.length)
    (hs : s.length < 2 ^ 63) (hm : (s.drop (s.length - 16)).take 8 = magic)
    (hle : leValue ((s.drop (s.length - 16 + 8)).take 8) ≤ s.length - 16) :
    Open ⟨s, i, none, none, m⟩
      = (.ok ⟨(leValue ((s.drop (s.length - 16 + 8)).take 8) : Int),
            (leValue ((s.drop (s.length - 16 + 8)).take 8) : Int),
            ((s.length - 16 : Nat) : Int)⟩,
          ⟨s, leValue ((s.drop (s.length - 16 + 8)).take 8), none, none, m⟩) := by
  obtain ⟨h1, h2, h3⟩ := Open_plain_steps s i m h16 hs
  rw [hm] at h2
  have hi : toInt64 (leValue ((s.drop (s.length - 16 + 8)).take 8))
      = (leValue ((s.drop (s.length - 16 + 8)).take 8) : Int) :=
    toInt64_of_lt _ (by omega)
  have h5 := GoStream.Seek_start_plain s (s.length - 16 + 8 + 8) m
    (leValue ((s.drop (s.length - 16 + 8)).take 8) : Int) (by omega)
  rw [← hi] at h5
  rw [Open_of_steps _ _ _ _ _ _ _ _ h1 h2 h3
    (by rw [toUint64_dataEnd _ (by omega)]; omega) h5, hi]
  simp only [Int.toNat_ofNat]

/-! ## Claim C22 -/

/-- C22, as amended: for every host file of at least 16 bytes (and fewer than `2 ^ 63`)
that never fails and whose last 16 bytes do not begin with the magic string, `Open`
returns no reader and the error `"payload.Open: the executable does not contain a
payload"`; `Open` returns this error, for any file, only after it has read the eight
bytes of the magic string and they have not matched, so it differs from every error of a
malformed trailer or of a failing file; and for a file shorter than 16 bytes `Open`
returns no reader and the error of the failed seek, which is a different one. -/
theorem absent_appendix (file : GoStream) (hw : file.wellBehaved)
    (h16 : 16 ≤ file.s.length) (hs : file.s.length < 2 ^ 63)
    (hm : (file.s.drop (file.s.length - 16)).take 8 ≠ magic) :
    (Open file).1
      = .error (.New "payload.Open: the executable does not contain a payload") ∧
    (∀ f : GoStream,
      (Open f).1 = .error (.New "payload.Open: the executable does not contain a payload") →
      ∃ (dataEnd : Int) (f1 : GoStream) (bs : List Byte) (f2 : GoStream),
        f.Seek (-16) SeekEnd = ((dataEnd, none), f1) ∧ ReadFull f1 8 = ((bs, none), f2) ∧
        bs ≠ magic) ∧
    (∀ f : GoStream, f.wellBehaved → f.s.length < 16 →
      (∃ e, (Open f).1 = .error (annotate "unable to seek to executable's end" (some e))) ∧
      (Open f).1 ≠ .error (.New "payload.Open: the executable does not contain a payload")) := by
  refine ⟨?_, Open_absent_only_on_mismatch, ?_⟩
  · rw [GoStream.eq_plain file hw, Open_plain_mismatch _ _ _ h16 hs hm]
  · intro f hf hlen
    rw [Open_short f hf hlen]
    refine ⟨⟨_, rfl⟩, ?_⟩
    simp only [ne_eq, Except.error.injEq]
    exact annotate_some_ne_absent _ _ (by decide) (by decide)

/-- Witness of `absent_appendix`: a file of sixteen zero bytes. -/
theorem absent_appendix_witness :
    (Open (GoStream.at (List.replicate 16 0) 0)).1
      = .error (.New "payload.Open: the executable does not contain a payload") :=
  (absent_appendix (GoStream.at (List.replicate 16 0) 0) (by decide) (by decide) (by decide)
    (by decide)).1

/-- C22 fails as stated: for the file of the three bytes `1, 2, 3`, which is shorter than
16 bytes and carries no trailer, `Open` fails at `file.Seek(-16, os.SEEK_END)` and
returns that error with the text `"unable to seek to executable's end"`, not the error
`"payload.Open: the executable does not contain a payload"`. -/
theorem short_file_is_a_seek_error :
    ([1, 2, 3] : List Byte).length < 16 ∧
    (Open (GoStream.at [1, 2, 3] 0)).1
      = .error (annotate "unable to seek to executable's end"
          (some (.New "bytes.Reader.Seek: negative position"))) ∧
    (Open (GoStream.at [1, 2, 3] 0)).1
      ≠ .error (.New "payload.Open: the executable does not contain a payload") := by
  refine ⟨by decide, ?_, ?_⟩
  · rw [Open_short _ (by decide) (by decide)]
  · rw [Open_short _ (by decide) (by decide)]
    simp only [ne_eq, Except.error.injEq]
    exact annotate_some_ne_absent _ _ (by decide) (by decide)

/-! ## Claim C23 -/

/-- C23: for every file of at least 16 bytes (and fewer than `2 ^ 63`) that never fails
and whose trailer begins with the magic string, `Open` fails exactly when the `uint64`
in the last eight bytes, `dataStart`, is greater than `dataEnd = fileSize - 16`, and then
with the error `"payload.Open: invalid data size at file end"`; every reader that `Open`
returns has `start = pos = dataStart` and `end = dataEnd` with
`0 ≤ dataStart ≤ dataEnd`, the conversion of `dataStart` to `int64` being exact, and the
file is then positioned at `dataStart`. -/
theorem trailer_offset_validation (file : GoStream) (hw : file.wellBehaved)
    (h16 : 16 ≤ file.s.length) (hs : file.s.length < 2 ^ 63)
    (hm : (file.s.drop (file.s.length - 16)).take 8 = magic) :
    ((∃ e, (Open file).1 = .error e) ↔
      leValue (file.s.drop (file.s.length - 8)) > file.s.length - 16) ∧
    (leValue (file.s.drop (file.s.length - 8)) > file.s.length - 16 →
      (Open file).1 = .error (.New "payload.Open: invalid data size at file end")) ∧
    (∀ r : reader, (Open file).1 = .ok r →
      r.start = (leValue (file.s.drop (file.s.length - 8)) : Int) ∧
      r.pos = r.start ∧
      r.end_ = ((file.s.length - 16 : Nat) : Int) ∧
      0 ≤ r.start ∧ r.start ≤ r.end_ ∧
      (Open file).2.i = leValue (file.s.drop (file.s.length - 8))) := by
  have e8 : file.s.length - 16 + 8 = file.s.length - 8 := by omega
  have et : (file.s.drop (file.s.length - 8)).take 8 = file.s.drop (file.s.length - 8) :=
    List.take_of_length_le (by rw [List.length_drop]; omega)
  have hinv : leValue (file.s.drop (file.s.length - 8)) > file.s.length - 16 →
      Open file = (.error (.New "payload.Open: invalid data size at file end"),
        ⟨file.s, file.s.length - 16 + 8 + 8, none, none, file.errMsg⟩) := by
    intro hgt
    rw [GoStream.eq_plain file hw]
    exact Open_plain_invalid _ _ _ h16 hs hm (by rw [e8, et]; exact hgt)
  have hval : leValue (file.s.drop (file.s.length - 8)) ≤ file.s.length - 16 →
      Open file = (.ok ⟨(leValue (file.s.drop (file.s.length - 8)) : Int),
            (leValue (file.s.drop (file.s.length - 8)) : Int),
            ((file.s.length - 16 : Nat) : Int)⟩,
          ⟨file.s, leValue (file.s.drop (file.s.length - 8)), none, none, file.errMsg⟩) := by
    intro hle
    have h := Open_plain_valid file.s file.i file.errMsg h16 hs hm (by rw [e8, et]; exact hle)
    rw [e8, et] at h
    rw [GoStream.eq_plain file hw]
    exact h
  refine ⟨⟨?_, ?_⟩, ?_, ?_⟩
  · rintro ⟨e, he⟩
    by_contra hc
    rw [hval (by omega)] at he
    simp at he
  · intro hgt
    exact ⟨_, by rw [hinv hgt]⟩
  · intro hgt
    rw [hinv hgt]
  · intro r hr
    by_cases hgt : leValue (file.s.drop (file.s.length - 8)) > file.s.length - 16
    · rw [hinv hgt] at hr
      simp at hr
    · rw [hval (by omega)] at hr ⊢
      simp only [Except.ok.injEq] at hr
      subst hr
      exact ⟨rfl, rfl, rfl, by simp only; omega, by simp only; omega, rfl⟩

/-- Witness of `trailer_offset_validation`: the combined file of a host of three bytes
and data of two bytes. -/
theorem trailer_offset_validation_witness :
    ((∃ e, (Open (GoStream.at (cmdMain [1, 2, 3] [7, 8]) 0)).1 = .error e) ↔
      leValue ((GoStream.at (cmdMain [1, 2, 3] [7, 8]) 0).s.drop
          ((GoStream.at (cmdMain [1, 2, 3] [7, 8]) 0).s.length - 8))
        > (GoStream.at (cmdMain [1, 2, 3] [7, 8]) 0).s.length - 16) :=
  (trailer_offset_validation (GoStream.at (cmdMain [1, 2, 3] [7, 8]) 0) (by decide)
    (by decide) (by decide) (by decide)).1

end payload

namespace blob

/-! ## Claim C24: failures of the writer -/

/-- `Write` on any writer, once the header has been encoded as `buffer`: the three calls
in their order, each made only if the one before it returned no error, and the writer
returned is the one left by the last call that was made. -/
theorem WriteTo_of_header_ok {σ : Type} (write : σ → List Byte → Option GoError × σ)
    (b : Blob) (w : σ) (buffer : List Byte) (h : writeHeader b.header [] = .ok buffer) :
    (∀ err, (write w (leBytes 4 (buffer.length % 2 ^ 32))).1 = some err →
      b.WriteTo write w
        = (some (.New ("blob.Blob.Write: cannot write header length: " ++ err.Error)),
            (write w (leBytes 4 (buffer.length % 2 ^ 32))).2)) ∧
    ((write w (leBytes 4 (buffer.length % 2 ^ 32))).1 = none →
      ∀ err, (write (write w (leBytes 4 (buffer.length % 2 ^ 32))).2 buffer).1 = some err →
      b.WriteTo write w
        = (some (.New ("write blob header: " ++ err.Error)),
            (write (write w (leBytes 4 (buffer.length % 2 ^ 32))).2 buffer).2)) ∧
    ((write w (leBytes 4 (buffer.length % 2 ^ 32))).1 = none →
      (write (write w (leBytes 4 (buffer.length % 2 ^ 32))).2 buffer).1 = none →
      ∀ err, (write (write (write w (leBytes 4 (buffer.length % 2 ^ 32))).2 buffer).2
        b.data).1 = some err →
      b.WriteTo write w
        = (some (.New ("write blob data: " ++ err.Error)),
            (write (write (write w (leBytes 4 (buffer.length % 2 ^ 32))).2 buffer).2
              b.data).2)) ∧
    ((write w (leBytes 4 (buffer.length % 2 ^ 32))).1 = none →
      (write (write w (leBytes 4 (buffer.length % 2 ^ 32))).2 buffer).1 = none →
      (write (write (write w (leBytes 4 (buffer.length % 2 ^ 32))).2 buffer).2 b.data).1
        = none →
      b.WriteTo write w
        = (none, (write (write (write w (leBytes 4 (buffer.length % 2 ^ 32))).2 buffer).2
            b.data).2)) := by
  unfold Blob.WriteTo
  rw [h]
  simp only
  rcases h1 : write w (leBytes 4 (buffer.length % 2 ^ 32)) with ⟨e1, w1⟩
  cases e1 with
  | some err1 =>
    refine ⟨?_, ?_, ?_, ?_⟩
    · intro err he
      simp only [Option.some.injEq] at he
      subst he
      rfl
    · intro hn; simp at hn
    · intro hn; simp at hn
    · intro hn; simp at hn
  | none =>
    simp only
    rcases h2 : write w1 buffer with ⟨e2, w2⟩
    cases e2 with
    | some err2 =>
      refine ⟨?_, ?_, ?_, ?_⟩
      · intro err he; simp at he
      · intro _ err he
        simp only [Option.some.injEq] at he
        subst he
        rfl
      · intro _ hn; simp at hn
      · intro _ hn; simp at hn
    | none =>
      simp only
      rcases h3 : write w2 b.data with ⟨e3, w3⟩
      cases e3 with
      | some err3 =>
        refine ⟨?_, ?_, ?_, ?_⟩
        · intro err he; simp at he
        · intro _ err he; simp at he
        · intro _ _ err he
          simp only [Option.some.injEq] at he
          subst he
          rfl
        · intro _ _ hn; simp at hn
      | none =>
        refine ⟨?_, ?_, ?_, ?_⟩
        · intro err he; simp at he
        · intro _ err he; simp at he
        · intro _ _ err he; simp at he
        · intro _ _ _
          rfl

theorem GoWriter.Write_failing (w : GoWriter) (p : List Byte) (k : Int)
    (hk : w.failAtWrite = some k) (h0 : k ≤ 0) (hlo : -(2 ^ 63) < k) :
    w.Write p = (some (.New w.errMsg), ⟨w.out, some (k - 1), w.errMsg⟩) := by
  have hw : wrapInt64 (k - 1) = k - 1 := wrapInt64_of_bounds _ (by omega) (by omega)
  unfold GoWriter.Write
  rw [hk]
  simp only [hw]
  rw [if_pos (by omega)]

theorem GoWriter.Write_counting (w : GoWriter) (p : List Byte) (k : Int)
    (hk : w.failAtWrite = some k) (h0 : 0 < k) (hhi : k < 2 ^ 63) :
    w.Write p = (none, ⟨w.out ++ p, some (k - 1), w.errMsg⟩) := by
  have hw : wrapInt64 (k - 1) = k - 1 := wrapInt64_of_bounds _ (by omega) (by omega)
  unfold GoWriter.Write
  rw [hk]
  simp only [hw]
  rw [if_neg (by omega)]

/-- `Write` on the `failingWriter` of the tests that is set up to accept `k` calls. -/
theorem Write_of_header_counting (b : Blob) (w : GoWriter) (buffer : List Byte) (k : Int)
    (h : writeHeader b.header [] = .ok buffer) (hk : w.failAtWrite = some k)
    (h0 : 0 ≤ k) (hhi : k < 2 ^ 63) :
    (k = 0 → b.Write w
      = (some (.New ("blob.Blob.Write: cannot write header length: " ++ w.errMsg)),
          ⟨w.out, some (-1), w.errMsg⟩)) ∧
    (k = 1 → b.Write w
      = (some (.New ("write blob header: " ++ w.errMsg)),
          ⟨w.out ++ leBytes 4 (buffer.length % 2 ^ 32), some (-1), w.errMsg⟩)) ∧
    (k = 2 → b.Write w
      = (some (.New ("write blob data: " ++ w.errMsg)),
          ⟨w.out ++ leBytes 4 (buffer.length % 2 ^ 32) ++ buffer, some (-1), w.errMsg⟩)) ∧
    (3 ≤ k → b.Write w
      = (none, ⟨w.out ++ leBytes 4 (buffer.length % 2 ^ 32) ++ buffer ++ b.data,
          some (k - 3), w.errMsg⟩)) := by
  obtain ⟨g1, g2, g3, g4⟩ := WriteTo_of_header_ok GoWriter.Write b w buffer h
  have m0 : (0 : Int) - 1 = -1 := by norm_num
  have m1 : (1 : Int) - 1 - 1 = -1 := by norm_num
  have m2 : (2 : Int) - 1 - 1 - 1 = -1 := by norm_num
  unfold Blob.Write
  refine ⟨?_, ?_, ?_, ?_⟩
  · rintro rfl
    have c1 := GoWriter.Write_failing w (leBytes 4 (buffer.length % 2 ^ 32)) 0 hk
      (by omega) (by omega)
    rw [c1, m0] at g1
    exact g1 _ rfl
  · rintro rfl
    have c1 := GoWriter.Write_counting w (leBytes 4 (buffer.length % 2 ^ 32)) 1 hk
      (by omega) (by omega)
    rw [c1] at g2
    have c2 := GoWriter.Write_failing
      ⟨w.out ++ leBytes 4 (buffer.length % 2 ^ 32), some (1 - 1), w.errMsg⟩ buffer (1 - 1) rfl
      (by omega) (by omega)
    rw [c2, m1] at g2
    exact g2 rfl _ rfl
  · rintro rfl
    have c1 := GoWriter.Write_counting w (leBytes 4 (buffer.length % 2 ^ 32)) 2 hk
      (by omega) (by omega)
    rw [c1] at g3
    have c2 := GoWriter.Write_counting
      ⟨w.out ++ leBytes 4 (buffer.length % 2 ^ 32), some (2 - 1), w.errMsg⟩ buffer (2 - 1) rfl
      (by omega) (by omega)
    rw [c2] at g3
    have c3 := GoWriter.Write_failing
      ⟨w.out ++ leBytes 4 (buffer.length % 2 ^ 32) ++ buffer, some (2 - 1 - 1), w.errMsg⟩
      b.data (2 - 1 - 1) rfl (by omega) (by omega)
    rw [c3, m2] at g3
    exact g3 rfl rfl _ rfl
  · intro h3
    have c1 := GoWriter.Write_counting w (leBytes 4 (buffer.length % 2 ^ 32)) k hk
      (by omega) hhi
    rw [c1] at g4
    have c2 := GoWriter.Write_counting
      ⟨w.out ++ leBytes 4 (buffer.length % 2 ^ 32), some (k - 1), w.errMsg⟩ buffer (k - 1)
      rfl (by omega) (by omega)
    rw [c2] at g4
    have c3 := GoWriter.Write_counting
      ⟨w.out ++ leBytes 4 (buffer.length % 2 ^ 32) ++ buffer, some (k - 1 - 1), w.errMsg⟩
      b.data (k - 1 - 1) rfl (by omega) (by omega)
    rw [c3] at g4
    have e : k - 1 - 1 - 1 = k - 3 := by omega
    rw [e] at g4
    exact g4 rfl rfl rfl

/-- `Write` on a writer that records its calls and answers them as scripted. -/
theorem Write_of_header_scripted (b : Blob) (buffer : List Byte)
    (calls : List (List Byte)) (rest : List (Option String)) (msg : String)
    (h : writeHeader b.header [] = .ok buffer) :
    b.WriteTo scriptedWriter.Write ⟨calls, some msg :: rest⟩
      = (some (.New ("blob.Blob.Write: cannot write header length: " ++ msg)),
          ⟨calls ++ [leBytes 4 (buffer.length % 2 ^ 32)], rest⟩) ∧
    b.WriteTo scriptedWriter.Write ⟨calls, none :: some msg :: rest⟩
      = (some (.New ("write blob header: " ++ msg)),
          ⟨calls ++ [leBytes 4 (buffer.length % 2 ^ 32)] ++ [buffer], rest⟩) ∧
    b.WriteTo scriptedWriter.Write ⟨calls, none :: none :: some msg :: rest⟩
      = (some (.New ("write blob data: " ++ msg)),
          ⟨calls ++ [leBytes 4 (buffer.length % 2 ^ 32)] ++ [buffer] ++ [b.data], rest⟩) ∧
    b.WriteTo scriptedWriter.Write ⟨calls, none :: none :: none :: rest⟩
      = (none, ⟨calls ++ [leBytes 4 (buffer.length % 2 ^ 32)] ++ [buffer] ++ [b.data],
          rest⟩) := by
  refine ⟨?_, ?_, ?_, ?_⟩ <;>
  · unfold Blob.WriteTo
    rw [h]
    simp only [scriptedWriter.Write, GoError.Error]

/-- C24: for every blob whose ids are at most `MaxIDLen` bytes long, `Write` encodes the
header as a `buffer` and then calls the writer three times in this order, with the
header length, the header and the data, each call being made only if the one before it
returned no error.  For every writer, whatever its state and its method `Write`: if the
first call returns an error the result is `"blob.Blob.Write: cannot write header
length: "` followed by the text of that error, if the second does it is
`"write blob header: "` followed by it, if the third does it is `"write blob data: "`
followed by it, otherwise no error; and the writer is left as the failing call left it.
For the `failingWriter` of the tests that accepts `k` calls: with `k = 0, 1, 2` one, two,
three calls are counted and only the bytes before the failing call are written.  For a
writer that records its calls and fails once, as scripted, at the first, second or third
call: the calls are the header length, then the header, then the data, up to the
failing one, and what the script holds for later calls is left unused. -/
theorem Write_failure_stage (b : Blob)
    (hid : ∀ it ∈ b.header, it.id.length ≤ MaxIDLen) :
    ∃ buffer : List Byte, writeHeader b.header [] = .ok buffer ∧
      (b.Tiled → buffer = formatHeader (lengthsOf b.header)) ∧
      (∀ (σ : Type) (write : σ → List Byte → Option GoError × σ) (w : σ),
        (∀ err, (write w (leBytes 4 (buffer.length % 2 ^ 32))).1 = some err →
          b.WriteTo write w
            = (some (.New ("blob.Blob.Write: cannot write header length: " ++ err.Error)),
                (write w (leBytes 4 (buffer.length % 2 ^ 32))).2)) ∧
        ((write w (leBytes 4 (buffer.length % 2 ^ 32))).1 = none →
          ∀ err, (write (write w (leBytes 4 (buffer.length % 2 ^ 32))).2 buffer).1
            = some err →
          b.WriteTo write w
            = (some (.New ("write blob header: " ++ err.Error)),
                (write (write w (leBytes 4 (buffer.length % 2 ^ 32))).2 buffer).2)) ∧
        ((write w (leBytes 4 (buffer.length % 2 ^ 32))).1 = none →
          (write (write w (leBytes 4 (buffer.length % 2 ^ 32))).2 buffer).1 = none →
          ∀ err, (write (write (write w (leBytes 4 (buffer.length % 2 ^ 32))).2 buffer).2
            b.data).1 = some err →
          b.WriteTo write w
            = (some (.New ("write blob data: " ++ err.Error)),
                (write (write (write w (leBytes 4 (buffer.length % 2 ^ 32))).2 buffer).2
                  b.data).2)) ∧
        ((write w (leBytes 4 (buffer.length % 2 ^ 32))).1 = none →
          (write (write w (leBytes 4 (buffer.length % 2 ^ 32))).2 buffer).1 = none →
          (write (write (write w (leBytes 4 (buffer.length % 2 ^ 32))).2 buffer).2
            b.data).1 = none →
          b.WriteTo write w
            = (none, (write (write (write w (leBytes 4 (buffer.length % 2 ^ 32))).2
                buffer).2 b.data).2))) ∧
      (∀ (w : GoWriter) (k : Int), w.failAtWrite = some k → 0 ≤ k → k < 2 ^ 63 →
        (k = 0 → b.Write w
          = (some (.New ("blob.Blob.Write: cannot write header length: " ++ w.errMsg)),
              ⟨w.out, some (-1), w.errMsg⟩)) ∧
        (k = 1 → b.Write w
          = (some (.New ("write blob header: " ++ w.errMsg)),
              ⟨w.out ++ leBytes 4 (buffer.length % 2 ^ 32), some (-1), w.errMsg⟩)) ∧
        (k = 2 → b.Write w
          = (some (.New ("write blob data: " ++ w.errMsg)),
              ⟨w.out ++ leBytes 4 (buffer.length % 2 ^ 32) ++ buffer, some (-1),
                w.errMsg⟩)) ∧
        (3 ≤ k → b.Write w
          = (none, ⟨w.out ++ leBytes 4 (buffer.length % 2 ^ 32) ++ buffer ++ b.data,
              some (k - 3), w.errMsg⟩)) ∧
        ((b.Write w).1 ≠ none ↔ (b.Write w).2.hasFailed = true)) ∧
      (∀ (calls : List (List Byte)) (rest : List (Option String)) (msg : String),
        b.WriteTo scriptedWriter.Write ⟨calls, some msg :: rest⟩
          = (some (.New ("blob.Blob.Write: cannot write header length: " ++ msg)),
              ⟨calls ++ [leBytes 4 (buffer.length % 2 ^ 32)], rest⟩) ∧
        b.WriteTo scriptedWriter.Write ⟨calls, none :: some msg :: rest⟩
          = (some (.New ("write blob header: " ++ msg)),
              ⟨calls ++ [leBytes 4 (buffer.length % 2 ^ 32)] ++ [buffer], rest⟩) ∧
        b.WriteTo scriptedWriter.Write ⟨calls, none :: none :: some msg :: rest⟩
          = (some (.New ("write blob data: " ++ msg)),
              ⟨calls ++ [leBytes 4 (buffer.length % 2 ^ 32)] ++ [buffer] ++ [b.data],
                rest⟩) ∧
        b.WriteTo scriptedWriter.Write ⟨calls, none :: none :: none :: rest⟩
          = (none, ⟨calls ++ [leBytes 4 (buffer.length % 2 ^ 32)] ++ [buffer] ++ [b.data],
              rest⟩)) := by
  obtain ⟨buffer, hb⟩ := writeHeader_isOk b.header [] hid
  refine ⟨buffer, hb, ?_, fun σ write w => WriteTo_of_header_ok write b w buffer hb, ?_,
    fun calls rest msg => Write_of_header_scripted b buffer calls rest msg hb⟩
  · intro ht
    have hse : ∀ it ∈ b.header, it.start ≤ it.end_ :=
      fun it hit => (tiles_mem _ _ _ ht it hit).2.1
    rw [writeHeader_ok b.header [] hid hse, List.nil_append] at hb
    injection hb with hb
    exact hb.symm
  · intro w k hk h0 hhi
    obtain ⟨c0, c1, c2, c3⟩ := Write_of_header_counting b w buffer k hb hk h0 hhi
    refine ⟨c0, c1, c2, c3, ?_⟩
    by_cases e0 : k = 0
    · rw [c0 e0]
      simp [GoWriter.hasFailed]
    · by_cases e1 : k = 1
      · rw [c1 e1]
        simp [GoWriter.hasFailed]
      · by_cases e2 : k = 2
        · rw [c2 e2]
          simp [GoWriter.hasFailed]
        · rw [c3 (by omega)]
          simp only [ne_eq, not_true_eq_false, false_iff, GoWriter.hasFailed,
            decide_eq_true_eq]
          omega

/-- Witness of `Write_failure_stage`: the blob of `TestFailingWriterForwardsErrorMessage`
on a recording writer whose second call fails and whose later calls would succeed, and
on the `failingWriter` that accepts one call. -/
theorem Write_failure_stage_witness :
    (appendAll New [([97, 98, 99], [65, 66, 67]), ([49, 50, 51], [52, 53, 54])]).WriteTo
        scriptedWriter.Write ⟨[], [none, some "fail on write 1", none, none]⟩
      = (some (.New "write blob header: fail on write 1"),
          ⟨[[26, 0, 0, 0], [3, 0, 97, 98, 99, 3, 0, 0, 0, 0, 0, 0, 0,
            3, 0, 49, 50, 51, 3, 0, 0, 0, 0, 0, 0, 0]], [none, none]⟩) ∧
    (appendAll New [([97, 98, 99], [65, 66, 67]), ([49, 50, 51], [52, 53, 54])]).Write
        ⟨[], some 1, "fail on write 1"⟩
      = (some (.New "write blob header: fail on write 1"),
          ⟨[26, 0, 0, 0], some (-1), "fail on write 1"⟩) := by
  obtain ⟨buffer, h1, h2, _, h4, h5⟩ :=
    Write_failure_stage (appendAll New [([97, 98, 99], [65, 66, 67]),
      ([49, 50, 51], [52, 53, 54])]) (by decide)
  have hb : buffer = [3, 0, 97, 98, 99, 3, 0, 0, 0, 0, 0, 0, 0,
      3, 0, 49, 50, 51, 3, 0, 0, 0, 0, 0, 0, 0] := by
    rw [h2 (by decide)]
    decide
  subst hb
  exact ⟨(h5 [] [none, none] "fail on write 1").2.1,
    (h4 ⟨[], some 1, "fail on write 1"⟩ 1 rfl (by decide) (by decide)).2.1 rfl⟩

end blob

/-! ## Streams that end early, streams that fail -/

theorem ReadFull_short (s : List Byte) (i : Nat) (m : String) (n : Nat)
    (hpn : 0 < n) (h : s.length < i + n) :
    ReadFull ⟨s, i, none, none, m⟩ n =
      ((s.drop i, some (if s.length ≤ i then .EOF else .ErrUnexpectedEOF)),
        ⟨s, max i s.length, none, none, m⟩) := by
  have hn : n ≠ 0 := by omega
  by_cases hi : s.length ≤ i
  · have hd : s.drop i = [] := List.drop_eq_nil_of_le hi
    unfold ReadFull
    rw [readAtLeastLoop]
    simp only [hn, if_false, GoStream.Read_plain, hi, if_true, List.append_nil, hd,
      List.length_nil]
    rw [if_neg (by omega), if_neg (by simp)]
    rw [Nat.max_eq_left hi]
  · have hlen : ((s.drop i).take n).length = s.length - i := by
      simp [List.length_take, List.length_drop]; omega
    have htake : (s.drop i).take n = s.drop i :=
      List.take_of_length_le (by rw [List.length_drop]; omega)
    have hpos : 0 < (s.drop i).length := by rw [List.length_drop]; omega
    have hlt : ¬ n ≤ (s.drop i).length := by rw [List.length_drop]; omega
    unfold ReadFull
    rw [readAtLeastLoop]
    simp only [hn, if_false, GoStream.Read_plain, hi, List.nil_append, htake]
    obtain ⟨k, rfl⟩ : ∃ k, n = k + 1 := ⟨n - 1, by omega⟩
    rw [readAtLeastLoop]
    have hne : k + 1 - (s.drop i).length ≠ 0 := by omega
    have hend : s.length ≤ i + (s.drop i).length := by rw [List.length_drop]; omega
    simp only [hne, if_false, GoStream.Read_plain, hend, if_true, List.append_nil]
    rw [if_neg hlt, if_pos ⟨hpos, trivial⟩]
    have hm : i + (s.drop i).length = max i s.length := by
      rw [List.length_drop]; omega
    rw [hm]

theorem GoStream.Read_failing (s : List Byte) (i : Nat) (fs : Option Nat) (m : String)
    (n : Nat) :
    (⟨s, i, some 0, fs, m⟩ : GoStream).Read n = (([], some (.New m)), ⟨s, i, some 0, fs, m⟩) := by
  simp [GoStream.Read]

theorem GoStream.Read_counting (s : List Byte) (i k : Nat) (fs : Option Nat) (m : String)
    (n : Nat) (h : i < s.length) :
    (⟨s, i, some (k + 1), fs, m⟩ : GoStream).Read n =
      (((s.drop i).take n, none), ⟨s, i + ((s.drop i).take n).length, some k, fs, m⟩) := by
  have hi : ¬ s.length ≤ i := by omega
  simp [GoStream.Read, hi]

theorem ReadFull_failing (s : List Byte) (i : Nat) (fs : Option Nat) (m : String) (n : Nat)
    (hn : 0 < n) :
    ReadFull ⟨s, i, some 0, fs, m⟩ n = (([], some (.New m)), ⟨s, i, some 0, fs, m⟩) := by
  have hn0 : n ≠ 0 := by omega
  unfold ReadFull
  rw [readAtLeastLoop]
  simp only [hn0, if_false, GoStream.Read_failing, List.append_nil, List.length_nil]
  rw [if_neg (by omega), if_neg (by simp)]

theorem ReadFull_counting (s : List Byte) (i k : Nat) (fs : Option Nat) (m : String) (n : Nat)
    (hn : 0 < n) (h : i + n ≤ s.length) :
    ReadFull ⟨s, i, some (k + 1), fs, m⟩ n =
      (((s.drop i).take n, none), ⟨s, i + n, some k, fs, m⟩) := by
  have hlen : ((s.drop i).take n).length = n := by
    simp [List.length_take, List.length_drop]; omega
  have hn0 : n ≠ 0 := by omega
  unfold ReadFull
  rw [readAtLeastLoop]
  simp only [hn0, if_false, GoStream.Read_counting s i k fs m n (by omega), List.nil_append,
    hlen, Nat.sub_self]
  obtain ⟨j, rfl⟩ : ∃ j, n = j + 1 := ⟨n - 1, by omega⟩
  rw [readAtLeastLoop]
  simp [hlen]

namespace blob

theorem runningSum_total : ∀ (es : List (List Byte × Nat)) (overall : Nat),
    overall + (es.map (fun e => e.2)).sum < 2 ^ 64 →
    (runningSum es overall).2 = overall + (es.map (fun e => e.2)).sum
  | [], overall, _ => by simp [runningSum]
  | e :: es, overall, h => by
    simp only [List.map_cons, List.sum_cons] at h
    have hm : (overall + e.2) % 2 ^ 64 = overall + e.2 := Nat.mod_eq_of_lt (by omega)
    simp only [runningSum, List.map_cons, List.sum_cons, hm]
    rw [runningSum_total es (overall + e.2) (by omega)]
    omega

theorem Read_of_data_error (r r1 r2 : GoStream) (h : header) (total : Nat) (bs : List Byte)
    (err : GoError) (h1 : readHeader r = (.ok (h, total), r1)) (h0 : total > 0)
    (h2 : ReadFull r1 total = ((bs, some err), r2)) :
    Read r = (.error (.New ("read blob data: " ++ err.Error)), r2) := by
  unfold Read
  rw [h1]
  simp only
  rw [if_pos h0, h2]

theorem Read_of_data_ok (r r1 r2 : GoStream) (h : header) (total : Nat) (bs : List Byte)
    (h1 : readHeader r = (.ok (h, total), r1)) (h0 : total > 0)
    (h2 : ReadFull r1 total = ((bs, none), r2)) :
    Read r = (.ok ⟨h, bs⟩, r2) := by
  unfold Read
  rw [h1]
  simp only
  rw [if_pos h0, h2]

theorem Read_of_no_data (r r1 : GoStream) (h : header)
    (h1 : readHeader r = (.ok (h, 0), r1)) :
    Read r = (.ok ⟨h, []⟩, r1) := by
  unfold Read
  rw [h1]
  simp only
  rw [if_neg (by omega)]

/-! ## Claim C25: failures of `Read` -/

theorem Read_of_length_error (r r1 : GoStream) (bs : List Byte) (err : GoError)
    (h : ReadFull r 4 = ((bs, some err), r1)) :
    Read r = (.error (.New ("read blob header length: " ++ err.Error)), r1) := by
  unfold Read readHeader
  rw [h]

theorem Read_of_header_read_error (r r1 r2 : GoStream) (bs got : List Byte) (err : GoError)
    (h1 : ReadFull r 4 = ((bs, none), r1)) (h0 : leValue bs ≠ 0)
    (h2 : r1.Read (leValue bs) = ((got, some err), r2)) :
    Read r = (.error (.New ("read blob header: " ++ err.Error)), r2) := by
  unfold Read readHeader
  rw [h1]
  simp only
  rw [if_neg h0, h2]

theorem readHeader_counting (post : List Byte) (es : List (List Byte × Nat)) (k : Nat)
    (fs : Option Nat) (m : String)
    (hes : ∀ e ∈ es, e.1.length < 2 ^ 16 ∧ e.2 < 2 ^ 64)
    (hlen : (formatHeader es).length < 2 ^ 32) (hne : es ≠ []) :
    readHeader ⟨leBytes 4 (formatHeader es).length ++ (formatHeader es ++ post), 0,
        some (k + 2), fs, m⟩ =
      (.ok (runningSum es 0),
        ⟨leBytes 4 (formatHeader es).length ++ (formatHeader es ++ post),
          4 + (formatHeader es).length, some k, fs, m⟩) := by
  have hpos : 0 < (formatHeader es).length := by
    have := length_le_formatHeader_length es
    have : 0 < es.length := List.length_pos.2 hne
    omega
  have h4 : ((leBytes 4 (formatHeader es).length ++ (formatHeader es ++ post)).drop 0).take 4
      = leBytes 4 (formatHeader es).length := by
    rw [List.drop_zero]
    exact List.take_left' (leBytes_length _ _)
  have hv : leValue (leBytes 4 (formatHeader es).length) = (formatHeader es).length :=
    leValue_leBytes_of_lt 4 _ (by norm_num at hlen ⊢; exact hlen)
  have hmid : ((leBytes 4 (formatHeader es).length ++ (formatHeader es ++ post)).drop
      (0 + 4)).take (formatHeader es).length = formatHeader es := by
    rw [List.drop_left' (by rw [leBytes_length]), List.take_left]
  unfold readHeader
  rw [ReadFull_counting _ 0 (k + 1) fs m 4 (by omega)
    (by simp only [List.length_append, leBytes_length]; omega), h4]
  simp only [hv]
  rw [if_neg (by omega), GoStream.Read_counting _ (0 + 4) k fs m _
    (by simp only [List.length_append, leBytes_length]; omega), hmid]
  simp only [Nat.sub_self, List.replicate_zero, List.append_nil, Nat.zero_add]
  rw [dissect_complete es _ 0 [] hes (length_le_formatHeader_length es)]
  simp

/-- When the declared data lengths total less than `2 ^ 63`, `Read` fails as C25 says:
on a stream that declares the entries `es` and ends before all the declared data has
been read the error is `"read blob data: "` followed by `EOF` or `unexpected EOF`; and on
a reader that fails at its first, second or third call with the message `m`, the error
is the stage (`"read blob header length: "`, `"read blob header: "`,
`"read blob data: "`) followed by `m`. -/
theorem Read_fails_cleanly_without_overflow (es : List (List Byte × Nat))
    (post : List Byte) (m : String)
    (hes : ∀ e ∈ es, e.1.length < 2 ^ 16 ∧ e.2 < 2 ^ 64)
    (hlen : (formatHeader es).length < 2 ^ 32)
    (htot : (es.map (fun e => e.2)).sum < 2 ^ 63) :
    (post.length < (es.map (fun e => e.2)).sum →
      (Read (streamDeclaring (formatHeader es) post)).1
        = .error (.New ("read blob data: "
            ++ (if post.length = 0 then "EOF" else "unexpected EOF")))) ∧
    (∀ (s : List Byte) (i : Nat) (fs : Option Nat),
      (Read ⟨s, i, some 0, fs, m⟩).1
        = .error (.New ("read blob header length: " ++ m))) ∧
    (es ≠ [] → ∀ fs : Option Nat,
      (Read ⟨leBytes 4 (formatHeader es).length ++ (formatHeader es ++ post), 0, some 1,
          fs, m⟩).1
        = .error (.New ("read blob header: " ++ m))) ∧
    (0 < (es.map (fun e => e.2)).sum → ∀ fs : Option Nat,
      (Read ⟨leBytes 4 (formatHeader es).length ++ (formatHeader es ++ post), 0, some 2,
          fs, m⟩).1
        = .error (.New ("read blob data: " ++ m))) := by
  have hsum := runningSum_total es 0 (by omega)
  rw [Nat.zero_add] at hsum
  have hne : 0 < (es.map (fun e => e.2)).sum → es ≠ [] := by
    intro h e
    subst e
    simp at h
  refine ⟨?_, ?_, ?_, ?_⟩
  · intro hshort
    have h1 := readHeader_format [] post es "" hes hlen
    simp only [List.nil_append, List.length_nil, Nat.zero_add] at h1
    have hrs : runningSum es 0 = ((runningSum es 0).1, (es.map (fun e => e.2)).sum) := by
      rw [← hsum]
    rw [hrs] at h1
    have h2 := ReadFull_short (leBytes 4 (formatHeader es).length ++ (formatHeader es ++ post))
      (4 + (formatHeader es).length) "" (es.map (fun e => e.2)).sum (by omega)
      (by simp only [List.length_append, leBytes_length]; omega)
    unfold streamDeclaring GoStream.at
    rw [Read_of_data_error _ _ _ _ _ _ _ h1 (by omega) h2]
    simp only [List.length_append, leBytes_length]
    by_cases hp : post.length = 0
    · rw [if_pos (by omega), if_pos hp]
      rfl
    · rw [if_neg (by omega), if_neg hp]
      rfl
  · intro s i fs
    rw [Read_of_length_error _ _ _ _ (ReadFull_failing s i fs m 4 (by omega))]
    rfl
  · intro hnil fs
    have hpos : 0 < (formatHeader es).length := by
      have := length_le_formatHeader_length es
      have : 0 < es.length := List.length_pos.2 hnil
      omega
    have h4 : ((leBytes 4 (formatHeader es).length ++ (formatHeader es ++ post)).drop 0).take 4
        = leBytes 4 (formatHeader es).length := by
      rw [List.drop_zero]
      exact List.take_left' (leBytes_length _ _)
    have hv : leValue (leBytes 4 (formatHeader es).length) = (formatHeader es).length :=
      leValue_leBytes_of_lt 4 _ (by norm_num at hlen ⊢; exact hlen)
    have h1 := ReadFull_counting
      (leBytes 4 (formatHeader es).length ++ (formatHeader es ++ post)) 0 0 fs m 4 (by omega)
      (by simp only [List.length_append, leBytes_length]; omega)
    rw [h4] at h1
    rw [Read_of_header_read_error _ _ _ _ _ _ h1 (by rw [hv]; omega)
      (GoStream.Read_failing _ _ _ _ _)]
    rfl
  · intro h0 fs
    have h1 := readHeader_counting post es 0 fs m hes hlen (hne h0)
    have hrs : runningSum es 0 = ((runningSum es 0).1, (es.map (fun e => e.2)).sum) := by
      rw [← hsum]
    rw [hrs] at h1
    rw [Read_of_data_error _ _ _ _ _ _ _ h1 h0 (ReadFull_failing _ _ fs m _ h0)]
    rfl

/-- C25 fails on the code: the 24 bytes `20,0,0,0, 0,0, 0,0,0,0,0,0,0,128, 0,0,
0,0,0,0,0,0,0,128` are a header that declares two entries with a data length of `2 ^ 63`
each, `2 ^ 64` bytes of data in total, and the stream ends right after the header; yet
`Read` returns a blob and no error, because the `uint64` sum of the declared lengths
wraps to zero. -/
theorem Read_accepts_missing_data :
    GoStream.at [20, 0, 0, 0, 0, 0, 0, 0, 0, 0, 0, 0, 0, 128,
        0, 0, 0, 0, 0, 0, 0, 0, 0, 128] 0
      = streamDeclaring (formatHeader [([], 2 ^ 63), ([], 2 ^ 63)]) [] ∧
    (([([], 2 ^ 63), ([], 2 ^ 63)] : List (List Byte × Nat)).map (fun e => e.2)).sum = 2 ^ 64 ∧
    ∃ b : Blob, (Read (GoStream.at [20, 0, 0, 0, 0, 0, 0, 0, 0, 0, 0, 0, 0, 128,
        0, 0, 0, 0, 0, 0, 0, 0, 0, 128] 0)).1 = .ok b := by
  refine ⟨by decide, by decide, ?_⟩
  exact ⟨⟨[⟨[], 0, 9223372036854775808⟩, ⟨[], 9223372036854775808, 0⟩], []⟩, by decide⟩

end blob

/-! ## Claim C27: the position of a sub-reader -/

theorem GoStream.Read_length_le (r : GoStream) (n : Nat) :
    (r.Read n).1.1.length ≤ n ∧ (r.Read n).2.failAtSeek = r.failAtSeek := by
  obtain ⟨s, i, fr, fs, m⟩ := r
  unfold GoStream.Read
  cases fr with
  | none =>
    simp only
    split
    · exact ⟨Nat.zero_le _, rfl⟩
    · exact ⟨by simp only [List.length_take]; omega, rfl⟩
  | some k =>
    cases k with
    | zero => exact ⟨Nat.zero_le _, rfl⟩
    | succ j =>
      simp only
      split
      · exact ⟨Nat.zero_le _, rfl⟩
      · exact ⟨by simp only [List.length_take]; omega, rfl⟩

theorem GoStream.Seek_start_ok (r : GoStream) (p : Int) (h : r.failAtSeek = none)
    (hp : 0 ≤ p) :
    r.Seek p SeekStart = ((p, none), ⟨r.s, p.toNat, r.failAtRead, none, r.errMsg⟩) := by
  obtain ⟨s, i, fr, fs, m⟩ := r
  simp only at h
  subst h
  simp [GoStream.Seek, SeekStart, SeekCurrent, SeekEnd]
  omega

namespace blob

theorem reader.Read_keeps_window (r : reader) (file : GoStream) (n : Nat)
    (hf : file.failAtSeek = none) (h0 : 0 ≤ r.start) (hw : r.inWindow)
    (he : r.end_ < 2 ^ 63) :
    (r.Read file n).1.2.start = r.start ∧ (r.Read file n).1.2.end_ = r.end_ ∧
    (r.Read file n).1.2.inWindow ∧ (r.Read file n).2.failAtSeek = none := by
  obtain ⟨h1, h2⟩ := hw
  unfold reader.Read
  by_cases hge : r.pos ≥ r.end_
  · rw [if_pos hge]
    exact ⟨rfl, rfl, ⟨h1, h2⟩, hf⟩
  · rw [if_neg hge]
    have hwrap : wrapInt64 (r.end_ - r.pos) = r.end_ - r.pos :=
      wrapInt64_of_bounds _ (by omega) (by omega)
    rw [GoStream.Seek_start_ok file r.pos hf (by omega)]
    simp only [hwrap]
    have hl := GoStream.Read_length_le
      (⟨file.s, r.pos.toNat, file.failAtRead, none, file.errMsg⟩ : GoStream)
      (if (n : Int) > r.end_ - r.pos then (r.end_ - r.pos).toNat else n)
    have hle : ((⟨file.s, r.pos.toNat, file.failAtRead, none, file.errMsg⟩ : GoStream).Read
        (if (n : Int) > r.end_ - r.pos then (r.end_ - r.pos).toNat else n)).1.1.length
        ≤ (r.end_ - r.pos).toNat := by
      refine Nat.le_trans hl.1 ?_
      split
      · exact Nat.le_refl _
      · omega
    have hp : wrapInt64 (r.pos + (((⟨file.s, r.pos.toNat, file.failAtRead, none,
        file.errMsg⟩ : GoStream).Read
          (if (n : Int) > r.end_ - r.pos then (r.end_ - r.pos).toNat else n)).1.1.length : Nat))
        = r.pos + (((⟨file.s, r.pos.toNat, file.failAtRead, none, file.errMsg⟩ : GoStream).Read
          (if (n : Int) > r.end_ - r.pos then (r.end_ - r.pos).toNat else n)).1.1.length : Nat) :=
      wrapInt64_of_bounds _ (by omega) (by omega)
    refine ⟨trivial, trivial, ?_, hl.2⟩
    unfold reader.inWindow
    simp only [hp]
    omega

theorem reader.Seek_keeps_window (r : reader) (file : GoStream) (offset whence : Int)
    (hf : file.failAtSeek = none) (h0 : 0 ≤ r.start) (hw : r.inWindow) :
    (r.Seek file offset whence).1.2.start = r.start ∧
    (r.Seek file offset whence).1.2.end_ = r.end_ ∧
    (r.Seek file offset whence).1.2.inWindow ∧
    (r.Seek file offset whence).2.failAtSeek = none := by
  obtain ⟨h1, h2⟩ := hw
  by_cases hv : whence ≠ SeekStart ∧ whence ≠ SeekCurrent ∧ whence ≠ SeekEnd
  · rw [reader.Seek_invalid r file offset whence hv]
    exact ⟨rfl, rfl, ⟨h1, h2⟩, hf⟩
  · generalize hn : (if whence = SeekStart then wrapInt64 (r.start + offset)
      else if whence = SeekCurrent then wrapInt64 (r.pos + offset)
      else wrapInt64 (r.end_ + offset)) = newPos
    by_cases hlt : newPos < r.start
    · rw [reader.Seek_before r file offset whence newPos hv hn hlt]
      exact ⟨rfl, rfl, ⟨h1, h2⟩, hf⟩
    · have hp : 0 ≤ (if newPos > r.end_ then r.end_ else newPos) := by
        split <;> omega
      rw [reader.Seek_to r file _ offset whence newPos _ none hv hn hlt
        (GoStream.Seek_start_ok file _ hf hp)]
      refine ⟨rfl, rfl, ⟨?_, ?_⟩, rfl⟩
      · simp only
        split <;> omega
      · simp only
        split <;> omega

/-- As long as the `Seek` of the shared stream does not fail (its `Read` may), every
`Read` and every `Seek` of a sub-reader whose window starts at a position that is not
negative and ends below `2 ^ 63` leaves the window as it is and the position within
it, after every call of any sequence of calls. -/
theorem position_invariant_without_seek_failure : ∀ (calls : List Call) (r : reader)
    (file : GoStream), file.failAtSeek = none → 0 ≤ r.start → r.inWindow →
    r.end_ < 2 ^ 63 →
    ∀ r1 ∈ reader.trace calls r file,
      r1.start = r.start ∧ r1.end_ = r.end_ ∧ r1.inWindow
  | [], _, _, _, _, _, _ => by simp [reader.trace]
  | c :: rest, r, file, hf, h0, hw, he => by
    have hstep : (r.call file c).1.start = r.start ∧ (r.call file c).1.end_ = r.end_ ∧
        (r.call file c).1.inWindow ∧ (r.call file c).2.failAtSeek = none := by
      cases c with
      | read n => exact reader.Read_keeps_window r file n hf h0 hw he
      | seek offset whence => exact reader.Seek_keeps_window r file offset whence hf h0 hw
    obtain ⟨e1, e2, e3, e4⟩ := hstep
    intro r1 hr1
    rw [reader.trace] at hr1
    rcases List.mem_cons.1 hr1 with rfl | hmem
    · exact ⟨e1, e2, e3⟩
    · have ih := position_invariant_without_seek_failure rest (r.call file c).1
        (r.call file c).2 e4 (by rw [e1]; exact h0) e3 (by rw [e2]; exact he) r1 hmem
      rw [e1, e2] at ih
      exact ih

/-- C27 fails on the code: on the sub-reader of the first entry of the scenario (window
`[27, 30)`, position 27) over a stream whose `Seek` fails, as the `failingSeeker` of the
tests does, the call `Seek(0, io.SeekStart)` stores the 0 that the failed `Seek` of the
stream returns as the position of the sub-reader: the position is then 0, before the
start of the window.  A `Read` of 30 bytes on this sub-reader, over a stream with the
same bytes whose `Seek` works, returns the first 30 bytes of the stream, the header
included, and not only the three bytes `1, 2, 3` of the window. -/
theorem failing_seek_leaves_window :
    (⟨27, 27, 30⟩ : reader).inWindow ∧
    ((⟨27, 27, 30⟩ : reader).Seek ⟨written scenarioBlob, 0, none, some 0, ""⟩ 0 SeekStart).1
      = ((-27, some (.New "failingSeeker.Seek fails")), ⟨27, 0, 30⟩) ∧
    ¬ (⟨27, 0, 30⟩ : reader).inWindow ∧
    subslice (written scenarioBlob) 27 30 = [1, 2, 3] ∧
    ((⟨27, 0, 30⟩ : reader).Read (GoStream.at (written scenarioBlob) 0) 30).1.1
      = ([23, 0, 0, 0, 1, 0, 97, 3, 0, 0, 0, 0, 0, 0, 0, 2, 0, 98, 98, 2, 0, 0, 0, 0, 0, 0, 0,
          1, 2, 3], none) := by
  refine ⟨by decide, ?_, by decide, by decide, ?_⟩
  · with_unfolding_all decide
  · with_unfolding_all decide

/-! ## Claim C28: the encoding is canonical -/

/-- A round of the loop of `readHeader` that does not fail has read one entry of the
format. -/
theorem dissect_step_ok (fuel : Nat) (buf : List Byte) (overall : Nat) (h : header)
    (res : header × Nat) (hpos : buf.length > 0)
    (hd : dissect (fuel + 1) buf overall h = .ok res) :
    ∃ (id : List Byte) (dl : Nat) (rest : List Byte),
      buf = formatEntry id dl ++ rest ∧ id.length < 2 ^ 16 ∧ dl < 2 ^ 64 := by
  rw [dissect, if_pos hpos] at hd
  by_cases h2 : 2 ≤ buf.length
  · have r1 : bufferReadFull buf 2 = ((buf.take 2, none), buf.drop 2) := by
      unfold bufferReadFull
      rw [if_pos h2]
    rw [r1] at hd
    simp only [bufferNext] at hd
    by_cases hid : ((buf.drop 2).take (leValue (buf.take 2))).length = leValue (buf.take 2)
    · rw [if_neg (by simpa using hid)] at hd
      by_cases h8 : 8 ≤ ((buf.drop 2).drop (leValue (buf.take 2))).length
      · have l2 : (buf.take 2).length = 2 := by
          rw [List.length_take]; omega
        have l8 : (((buf.drop 2).drop (leValue (buf.take 2))).take 8).length = 8 := by
          rw [List.length_take]; omega
        refine ⟨(buf.drop 2).take (leValue (buf.take 2)),
          leValue (((buf.drop 2).drop (leValue (buf.take 2))).take 8),
          ((buf.drop 2).drop (leValue (buf.take 2))).drop 8, ?_, ?_, ?_⟩
        · unfold formatEntry
          rw [hid]
          have e1 := leBytes_leValue (buf.take 2)
          rw [l2] at e1
          have e2 := leBytes_leValue (((buf.drop 2).drop (leValue (buf.take 2))).take 8)
          rw [l8] at e2
          rw [e1, e2]
          simp only [List.append_assoc, List.take_append_drop]
        · rw [hid]
          have := leValue_lt (buf.take 2)
          rw [l2] at this
          norm_num at this ⊢
          exact this
        · have := leValue_lt (((buf.drop 2).drop (leValue (buf.take 2))).take 8)
          rw [l8] at this
          norm_num at this ⊢
          exact this
      · exfalso
        unfold bufferReadFull at hd
        rw [if_neg h8] at hd
        by_cases hz : ((buf.drop 2).drop (leValue (buf.take 2))).length = 0
        · rw [if_pos hz] at hd
          simp at hd
        · rw [if_neg hz] at hd
          simp at hd
    · exfalso
      rw [if_pos (by simpa using hid)] at hd
      simp at hd
  · exfalso
    unfold bufferReadFull at hd
    rw [if_neg h2, if_neg (by omega)] at hd
    simp at hd

theorem formatEntry_length (id : List Byte) (dl : Nat) :
    (formatEntry id dl).length = id.length + 10 := by
  simp only [formatEntry, List.length_append, leBytes_length]
  omega

/-- A header region that the loop of `readHeader` dissects without an error consists
of entries of the format. -/
theorem dissect_ok_format : ∀ (fuel : Nat) (buf : List Byte) (overall : Nat) (h : header)
    (res : header × Nat), buf.length ≤ fuel → dissect fuel buf overall h = .ok res →
    ∃ es : List (List Byte × Nat), buf = formatHeader es ∧
      ∀ e ∈ es, e.1.length < 2 ^ 16 ∧ e.2 < 2 ^ 64
  | 0, buf, _, _, _, hf, _ => by
    have : buf = [] := List.length_eq_zero.1 (by omega)
    subst this
    exact ⟨[], rfl, by simp⟩
  | fuel + 1, buf, overall, h, res, hf, hd => by
    by_cases hpos : buf.length > 0
    · obtain ⟨id, dl, rest, rfl, hid, hdl⟩ := dissect_step_ok fuel buf overall h res hpos hd
      rw [dissect_entry fuel id dl rest overall h hid hdl] at hd
      have hl : rest.length ≤ fuel := by
        rw [List.length_append, formatEntry_length] at hf
        omega
      obtain ⟨es, rfl, hes⟩ := dissect_ok_format fuel rest _ _ res hl hd
      refine ⟨(id, dl) :: es, rfl, ?_⟩
      intro e he
      rcases List.mem_cons.1 he with rfl | hmem
      · exact ⟨hid, hdl⟩
      · exact hes e hmem
    · have : buf = [] := List.length_eq_zero.1 (by omega)
      subst this
      exact ⟨[], rfl, by simp⟩

/-- `Write` encodes the index that the running sum gives for the entries `es` as the
header `formatHeader es`. -/
theorem writeHeader_runningSum : ∀ (es : List (List Byte × Nat)) (overall : Nat)
    (buffer : List Byte), overall < 2 ^ 64 →
    (∀ e ∈ es, e.1.length < 2 ^ 16 ∧ e.2 < 2 ^ 64) →
    writeHeader (runningSum es overall).1 buffer = .ok (buffer ++ formatHeader es)
  | [], _, buffer, _, _ => by simp [runningSum, writeHeader, formatHeader]
  | e :: es, overall, buffer, ho, hes => by
    have he := hes e (List.mem_cons_self _ _)
    have h1 : ¬ e.1.length > MaxIDLen := by
      unfold MaxIDLen
      have := he.1
      norm_num at this
      omega
    have hm : e.1.length % 2 ^ 16 = e.1.length := Nat.mod_eq_of_lt he.1
    have hlt : (overall + e.2) % 2 ^ 64 < 2 ^ 64 := Nat.mod_lt _ (by norm_num)
    have hd : ((overall + e.2) % 2 ^ 64 + 2 ^ 64 - overall) % 2 ^ 64 = e.2 := by
      have := he.2
      norm_num at this ho ⊢
      omega
    simp only [runningSum, writeHeader]
    rw [if_neg h1, hm, hd,
      writeHeader_runningSum es _ _ hlt (fun x hx => hes x (List.mem_cons_of_mem _ hx))]
    simp only [formatHeader, formatEntry, List.append_assoc]

theorem Read_complete_written (hdr data : List Byte) (b : Blob) (r1 : GoStream)
    (hlen : hdr.length < 2 ^ 32)
    (hr : Read (streamDeclaring hdr data) = (.ok b, r1))
    (hc : r1.i = 4 + hdr.length + data.length) :
    b.Write GoWriter.buffer = (none, ⟨leBytes 4 hdr.length ++ (hdr ++ data), none, ""⟩) := by
  by_cases h0 : hdr.length = 0
  · have hnil : hdr = [] := List.length_eq_zero.1 h0
    subst hnil
    have e4 : leBytes 4 ([] : List Byte).length = [0, 0, 0, 0] := by decide
    unfold streamDeclaring GoStream.at at hr
    rw [e4] at hr ⊢
    rw [Read_zero] at hr
    simp only [Prod.mk.injEq, Except.ok.injEq] at hr
    obtain ⟨hb, hr1⟩ := hr
    subst hb
    subst hr1
    simp only [List.length_nil] at hc
    have hd : data = [] := List.length_eq_zero.1 (by omega)
    subst hd
    decide
  · have hreg := readHeader_region hdr data (by omega) hlen
    cases hd : dissect hdr.length hdr 0 [] with
    | error err =>
      rw [hd] at hreg
      rw [Read_of_header_error _ _ _ hreg] at hr
      simp at hr
    | ok res =>
      obtain ⟨h, total⟩ := res
      rw [hd] at hreg
      obtain ⟨es, hes1, hes2⟩ := dissect_ok_format _ _ _ _ _ (Nat.le_refl _) hd
      have hdc := dissect_complete es hdr.length 0 [] hes2
        (by rw [hes1]; exact length_le_formatHeader_length es)
      rw [← hes1, hd] at hdc
      simp only [List.nil_append, Except.ok.injEq, Prod.mk.injEq] at hdc
      have hwh : writeHeader h [] = .ok hdr := by
        rw [hdc.1, writeHeader_runningSum es 0 [] (by norm_num) hes2, List.nil_append, hes1]
      have hmod : hdr.length % 2 ^ 32 = hdr.length := Nat.mod_eq_of_lt hlen
      have hbd : b = ⟨h, data⟩ := by
        by_cases ht : total > 0
        · by_cases hfull : 4 + hdr.length + total ≤ (leBytes 4 hdr.length ++ (hdr ++ data)).length
          · have hrf := ReadFull_plain (leBytes 4 hdr.length ++ (hdr ++ data))
              (4 + hdr.length) "" total hfull
            rw [Read_of_data_ok _ _ _ _ _ _ hreg ht hrf] at hr
            simp only [Prod.mk.injEq, Except.ok.injEq] at hr
            obtain ⟨hb, hr1⟩ := hr
            rw [← hr1] at hc
            simp only at hc
            have htd : total = data.length := by omega
            rw [← hb, htd]
            have e : leBytes 4 hdr.length ++ (hdr ++ data)
                = (leBytes 4 hdr.length ++ hdr) ++ (data ++ []) := by
              simp only [List.append_assoc, List.append_nil]
            rw [e, drop_take_mid _ _ _ _ _
              (by simp only [List.length_append, leBytes_length]) rfl]
          · have hrf := ReadFull_short (leBytes 4 hdr.length ++ (hdr ++ data))
              (4 + hdr.length) "" total ht (by omega)
            rw [Read_of_data_error _ _ _ _ _ _ _ hreg ht hrf] at hr
            simp at hr
        · have ht0 : total = 0 := by omega
          subst ht0
          rw [Read_of_no_data _ _ _ hreg] at hr
          simp only [Prod.mk.injEq, Except.ok.injEq] at hr
          obtain ⟨hb, hr1⟩ := hr
          rw [← hr1] at hc
          simp only at hc
          have hd0 : data = [] := List.length_eq_zero.1 (by omega)
          rw [← hb, hd0]
      subst hbd
      have hw := Write_of_header_ok ⟨h, data⟩ [] hdr "" hwh
      rw [GoWriter.buffer, hw, hmod]
      simp only [List.nil_append, List.append_assoc]

/-- C28: for every byte sequence `x` made of a header length `h` as a `uint32`, `h`
header bytes and data bytes, if `Read` of `x` succeeds and has then read all of `x` (the
data are exactly the bytes that the header declares), `Write` of the returned blob emits
exactly `x`; and every other such sequence that `Read` reads as the same blob is equal
to `x`. -/
theorem canonical_encoding (hdr data : List Byte) (b : Blob) (r1 : GoStream)
    (hlen : hdr.length < 2 ^ 32)
    (hr : Read (streamDeclaring hdr data) = (.ok b, r1))
    (hc : r1.i = 4 + hdr.length + data.length) :
    b.Write GoWriter.buffer = (none, ⟨leBytes 4 hdr.length ++ (hdr ++ data), none, ""⟩) ∧
    ∀ (hdr2 data2 : List Byte) (r2 : GoStream), hdr2.length < 2 ^ 32 →
      Read (streamDeclaring hdr2 data2) = (.ok b, r2) →
      r2.i = 4 + hdr2.length + data2.length →
      leBytes 4 hdr2.length ++ (hdr2 ++ data2) = leBytes 4 hdr.length ++ (hdr ++ data) := by
  have h1 := Read_complete_written hdr data b r1 hlen hr hc
  refine ⟨h1, ?_⟩
  intro hdr2 data2 r2 hlen2 hr2 hc2
  have h2 := Read_complete_written hdr2 data2 b r2 hlen2 hr2 hc2
  rw [h1] at h2
  simp only [Prod.mk.injEq, GoWriter.mk.injEq, true_and, and_true] at h2
  exact h2.symm

/-- Witness of `canonical_encoding`: the bytes of the scenario, a header of 23 bytes and
five bytes of data. -/
theorem canonical_encoding_witness :
    scenarioBlob.Write GoWriter.buffer
      = (none, ⟨leBytes 4 ([1, 0, 97, 3, 0, 0, 0, 0, 0, 0, 0, 2, 0, 98, 98, 2, 0, 0, 0, 0, 0,
          0, 0] : List Byte).length
        ++ ([1, 0, 97, 3, 0, 0, 0, 0, 0, 0, 0, 2, 0, 98, 98, 2, 0, 0, 0, 0, 0, 0, 0]
          ++ [1, 2, 3, 4, 5]), none, ""⟩) :=
  (canonical_encoding [1, 0, 97, 3, 0, 0, 0, 0, 0, 0, 0, 2, 0, 98, 98, 2, 0, 0, 0, 0, 0, 0, 0]
    [1, 2, 3, 4, 5] scenarioBlob
    ⟨[23, 0, 0, 0, 1, 0, 97, 3, 0, 0, 0, 0, 0, 0, 0, 2, 0, 98, 98, 2, 0, 0, 0, 0, 0, 0, 0,
      1, 2, 3, 4, 5], 32, none, none, ""⟩ (by decide) (by decide) (by decide)).1

end blob

/-! ## Claim C26: the exit status of the build tools -/

namespace blob.cmd

theorem errln_eq (msg : String) : errln msg = "ERROR " ++ (msg ++ "\n") := by
  unfold errln
  rw [String.append_assoc]

theorem fill_error (env : Env) (isDir : Bool) (line : String)
    (h : fill env isDir = .error line) : ∃ msg, line = "ERROR " ++ msg := by
  unfold fill at h
  cases isDir with
  | true =>
    simp only [if_true] at h
    cases hw : env.walk with
    | error err =>
      rw [hw] at h
      simp only [Except.error.injEq] at h
      exact ⟨_, by rw [← h, errln_eq]⟩
    | ok files => rw [hw] at h; simp at h
  | false =>
    simp only [Bool.false_eq_true, if_false] at h
    cases hr : env.readFile with
    | error err =>
      rw [hr] at h
      simp only [Except.error.injEq] at h
      exact ⟨_, by rw [← h, errln_eq]⟩
    | ok data => rw [hr] at h; simp at h

/-- Every run of `runMain` either returns 1 after a text that begins with `"ERROR "` on
standard error, and is then not a success, or returns 0 without any text on standard
error after a success: both flags are given, the input is found and read, the output
file is created and the blob is written to it without an error. -/
theorem runMain_cases (env : Env) :
    ((runMain env).exitStatus = 1 ∧ (∃ msg rest, (runMain env).stderr = ("ERROR " ++ msg) :: rest) ∧
      ¬ (env.inPath ≠ "" ∧ env.outPath ≠ "" ∧
        ∃ (isDir : Bool) (b : Blob) (outFile w : GoWriter),
          env.lstat = .ok isDir ∧ fill env isDir = .ok b ∧ env.create = .ok outFile ∧
          b.Write outFile = (none, w))) ∨
    ((runMain env).exitStatus = 0 ∧ (runMain env).stderr = [] ∧
      env.inPath ≠ "" ∧ env.outPath ≠ "" ∧
      ∃ (isDir : Bool) (b : Blob) (outFile w : GoWriter),
        env.lstat = .ok isDir ∧ fill env isDir = .ok b ∧ env.create = .ok outFile ∧
        b.Write outFile = (none, w) ∧ (runMain env).outFile = some w) := by
  unfold runMain
  by_cases h1 : env.inPath = ""
  · rw [if_pos h1]
    exact Or.inl ⟨rfl, ⟨_, [env.usage], congrArg (fun x => [x, env.usage]) (errln_eq _)⟩,
      fun h => h.1 h1⟩
  · rw [if_neg h1]
    by_cases h2 : env.outPath = ""
    · rw [if_pos h2]
      exact Or.inl ⟨rfl, ⟨_, [env.usage], congrArg (fun x => [x, env.usage]) (errln_eq _)⟩,
        fun h => h.2.1 h2⟩
    · rw [if_neg h2]
      cases hl : env.lstat with
      | error err =>
        refine Or.inl ⟨rfl, ⟨_, [], congrArg (fun x => [x]) (errln_eq _)⟩, ?_⟩
        rintro ⟨_, _, isDir, b, outFile, w, e, _⟩
        simp at e
      | ok isDir =>
        simp only
        cases hf : fill env isDir with
        | error line =>
          obtain ⟨msg, hmsg⟩ := fill_error env isDir line hf
          refine Or.inl ⟨rfl, ⟨msg, [], by rw [hmsg]⟩, ?_⟩
          rintro ⟨_, _, isDir2, b, outFile, w, e1, e2, _⟩
          simp only [Except.ok.injEq] at e1
          subst e1
          rw [hf] at e2
          simp at e2
        | ok b =>
          simp only
          cases hc : env.create with
          | error err =>
            refine Or.inl ⟨rfl, ⟨_, [], congrArg (fun x => [x]) (errln_eq _)⟩, ?_⟩
            rintro ⟨_, _, isDir2, b2, outFile, w, _, _, e3, _⟩
            simp at e3
          | ok outFile =>
            simp only
            rcases hw : b.Write outFile with ⟨e, w⟩
            cases e with
            | some err =>
              refine Or.inl ⟨rfl, ⟨_, [], congrArg (fun x => [x]) (errln_eq _)⟩, ?_⟩
              rintro ⟨_, _, isDir2, b2, outFile2, w2, e1, e2, e3, e4⟩
              simp only [Except.ok.injEq] at e1 e3
              subst e1
              subst e3
              rw [hf] at e2
              simp only [Except.ok.injEq] at e2
              subst e2
              rw [hw] at e4
              simp at e4
            | none =>
              exact Or.inr ⟨rfl, rfl, h1, h2, isDir, b, outFile, w, rfl, hf, rfl, hw, rfl⟩

end blob.cmd

namespace payload.cmd

theorem Println_error (rest : String) (err : GoError) :
    Println ("error " ++ rest) err = "error " ++ (rest ++ " " ++ err.Error ++ "\n") := by
  unfold Println
  simp only [String.append_assoc]

theorem main_cases (env : Env) :
    (main env).exitStatus = 0 ∧
    (((main env).written = none ∧
        (((main env).stdout = [] ∧ (main env).stderr = [env.usage]) ∨
          ((main env).stderr = [] ∧ ∃ msg, (main env).stdout = ["error " ++ msg]))) ∨
      ((main env).written ≠ none ∧ (main env).stdout = [] ∧ (main env).stderr = [])) := by
  unfold main
  by_cases hf : env.exeFile = "" ∨ env.dataFile = ""
  · rw [if_pos hf]
    exact ⟨rfl, Or.inl ⟨rfl, Or.inl ⟨rfl, rfl⟩⟩⟩
  · rw [if_neg hf]
    cases hs : env.stat with
    | error e =>
      exact ⟨rfl, Or.inl ⟨rfl, Or.inr ⟨rfl, _, congrArg (fun x => [x])
        (Println_error "reading file attributes:" e)⟩⟩⟩
    | ok mode =>
      cases he : env.readExe with
      | error e =>
        exact ⟨rfl, Or.inl ⟨rfl, Or.inr ⟨rfl, _, congrArg (fun x => [x])
          (Println_error "reading exe file:" e)⟩⟩⟩
      | ok H =>
        cases hd : env.readData with
        | error e =>
          exact ⟨rfl, Or.inl ⟨rfl, Or.inr ⟨rfl, _, congrArg (fun x => [x])
            (Println_error "reading data file:" e)⟩⟩⟩
        | ok D =>
          cases hwf : env.writeFile with
          | some e =>
            exact ⟨rfl, Or.inl ⟨rfl, Or.inr ⟨rfl, _, congrArg (fun x => [x])
              (Println_error "writing output file:" e)⟩⟩⟩
          | none =>
            exact ⟨rfl, Or.inr ⟨by simp, rfl, rfl⟩⟩

end payload.cmd

/-- C26, as amended: the blob container builder exits with status 0 or 1; in every run
with status 1 the first text on standard error begins with `"ERROR "`, and the run is
not a success; status 0 is returned exactly when both flags are given, the input is
found and read, the output file is created and the blob is written without an error,
and then nothing is printed to standard error.  The payload appender exits with status
0 in every run: when it writes no file, either a flag is missing and it prints the
usage text to standard error, or it prints one line that begins with `"error "` to
standard output and nothing to standard error. -/
theorem build_tools_exit_status (benv : blob.cmd.Env) (penv : payload.cmd.Env) :
    ((blob.cmd.main benv).exitStatus = 0 ∨ (blob.cmd.main benv).exitStatus = 1) ∧
    ((blob.cmd.main benv).exitStatus = 1 →
      ∃ msg rest, (blob.cmd.main benv).stderr = ("ERROR " ++ msg) :: rest) ∧
    ((blob.cmd.main benv).exitStatus = 0 ↔
      (benv.inPath ≠ "" ∧ benv.outPath ≠ "" ∧
        ∃ (isDir : Bool) (b : blob.Blob) (outFile w : GoWriter),
          benv.lstat = .ok isDir ∧ blob.cmd.fill benv isDir = .ok b ∧
          benv.create = .ok outFile ∧ b.Write outFile = (none, w))) ∧
    ((blob.cmd.main benv).exitStatus = 0 → (blob.cmd.main benv).stderr = []) ∧
    (payload.cmd.main penv).exitStatus = 0 ∧
    ((payload.cmd.main penv).written = none →
      ((payload.cmd.main penv).stdout = [] ∧ (payload.cmd.main penv).stderr = [penv.usage]) ∨
      ((payload.cmd.main penv).stderr = [] ∧
        ∃ msg, (payload.cmd.main penv).stdout = ["error " ++ msg])) := by
  unfold blob.cmd.main
  have hb := blob.cmd.runMain_cases benv
  have hp := payload.cmd.main_cases penv
  refine ⟨?_, ?_, ⟨?_, ?_⟩, ?_, hp.1, ?_⟩
  · rcases hb with ⟨h, _⟩ | ⟨h, _⟩
    · exact Or.inr h
    · exact Or.inl h
  · intro h1
    rcases hb with ⟨_, h, _⟩ | ⟨h, _⟩
    · exact h
    · rw [h] at h1
      exact absurd h1 (by decide)
  · intro h0
    rcases hb with ⟨h, _⟩ | ⟨_, _, h1, h2, isDir, b, outFile, w, e1, e2, e3, e4, _⟩
    · rw [h] at h0
      exact absurd h0 (by decide)
    · exact ⟨h1, h2, isDir, b, outFile, w, e1, e2, e3, e4⟩
  · intro hs
    rcases hb with ⟨_, _, h⟩ | ⟨h, _⟩
    · exact absurd hs h
    · exact h
  · intro h0
    rcases hb with ⟨h, _⟩ | ⟨_, h, _⟩
    · rw [h] at h0
      exact absurd h0 (by decide)
    · exact h
  · intro hw
    rcases hp.2 with ⟨_, h⟩ | ⟨h, _⟩
    · exact h
    · exact absurd hw h

/-- C26 fails as stated: the payload appender, given both flags and an executable that
`os.Stat` does not find, prints `"error reading file attributes: "` and the error to
standard output, prints nothing to standard error, writes no file and exits with
status 0; and given no `-data` flag it prints the usage text and exits with status 0. -/
theorem payload_tool_exits_zero_on_failure :
    payload.cmd.main ⟨"a.exe", "data.bin", "", "usage", .error (.New "stat a.exe: no such file"),
        .ok [], .ok [], none⟩
      = ⟨["error reading file attributes: stat a.exe: no such file\n"], [], none, 0⟩ ∧
    payload.cmd.main ⟨"a.exe", "", "", "usage", .ok 420, .ok [], .ok [], none⟩
      = ⟨[], ["usage"], none, 0⟩ := by
  constructor <;> decide

/-- The blob container builder on the same failure: the message begins with `"ERROR "`,
goes to standard error, and the status is 1. -/
theorem test_blob_tool_failure :
    blob.cmd.main ⟨"in", "out", "usage", .error (.New "lstat in: no such file"), .ok [], .ok [],
        [], .ok GoWriter.buffer⟩
      = ⟨["ERROR cannot find input path 'in': lstat in: no such file\n"], none, 1⟩ := by
  decide

namespace game

/-! ## Claim C29: the generated assignments -/

theorem tmod_bounds (a b : Int) (ha : 0 ≤ a) (hb : 0 < b) :
    0 ≤ Int.tmod a b ∧ Int.tmod a b < b := by
  rw [Int.tmod_eq_emod ha (le_of_lt hb)]
  exact ⟨Int.emod_nonneg _ (by omega), Int.emod_lt_of_pos _ hb⟩

theorem divisorLoop_spec : ∀ (fuel : Nat) (result a : Int), 1 ≤ a → a < 2 ^ 63 →
    a < fuel + 1 →
    ∃ a1, divisorLoop fuel result a = some a1 ∧ 1 ≤ a1 ∧ a1 ≤ a ∧ Int.tmod result a1 = 0
  | 0, _, a, h1, _, hf => by omega
  | fuel + 1, result, a, h1, h2, hf => by
    rw [divisorLoop]
    by_cases hm : Int.tmod result a ≠ 0
    · rw [if_pos hm]
      have hne : a ≠ 1 := by
        intro e
        rw [e, Int.tmod_one] at hm
        exact hm rfl
      have hw : wrapInt64 (a - 1) = a - 1 := wrapInt64_of_bounds _ (by omega) (by omega)
      rw [hw]
      obtain ⟨a1, e1, e2, e3, e4⟩ := divisorLoop_spec fuel result (a - 1) (by omega) (by omega)
        (by push_cast at hf ⊢; omega)
      exact ⟨a1, e1, e2, by omega, e4⟩
    · rw [if_neg hm]
      exact ⟨a, rfl, h1, le_refl _, by simpa using hm⟩

theorem shrinkLoop_spec : ∀ (fuel : Nat) (max result b : Int), 1 ≤ result → result ≤ max →
    max * max < 2 ^ 63 → 1 ≤ b → b ≤ max → b < fuel + 1 →
    ∃ b1, shrinkLoop fuel max result b = some b1 ∧ 1 ≤ b1 ∧ b1 ≤ b ∧ result * b1 ≤ max
  | 0, _, _, b, _, _, _, h1, _, hf => by omega
  | fuel + 1, max, result, b, hr1, hr2, hmm, h1, h2, hf => by
    have hprod : result * b ≤ max * max := Int.mul_le_mul hr2 h2 (by omega) (by omega)
    have hpos : 0 ≤ result * b := Int.mul_nonneg (by omega) (by omega)
    have hw : wrapInt64 (result * b) = result * b :=
      wrapInt64_of_bounds _ (by omega) (by omega)
    rw [shrinkLoop, hw]
    by_cases hgt : result * b > max
    · rw [if_pos hgt]
      have hne : b ≠ 1 := by
        intro e
        rw [e, Int.mul_one] at hgt
        omega
      have hmax : max < 2 ^ 63 := by nlinarith
      have hw1 : wrapInt64 (b - 1) = b - 1 := wrapInt64_of_bounds _ (by omega) (by omega)
      rw [hw1]
      obtain ⟨b1, e1, e2, e3, e4⟩ := shrinkLoop_spec fuel max result (b - 1) hr1 hr2 hmm
        (by omega) (by omega) (by push_cast at hf ⊢; omega)
      exact ⟨b1, e1, e2, by omega, e4⟩
    · rw [if_neg hgt]
      exact ⟨b, rfl, h1, le_refl _, by omega⟩

end game

namespace game

theorem operands_spec (g : mathGenerator) (rand : Nat → Int) (fuel : Nat)
    (hmax : 1 ≤ g.max) (hbound : g.max * g.max < 2 ^ 63) (hops : g.ops ≠ [])
    (hvalid : ∀ op ∈ g.ops, op = add ∨ op = subtract ∨ op = multiply ∨ op = divide)
    (hrand : ∀ k, 0 ≤ rand k) (hfuel : g.max < fuel) :
    ∃ (op : mathOp) (a b result : Int),
      g.operands fuel rand = some (op, a, b, result) ∧ op ∈ g.ops ∧
      0 ≤ a ∧ 0 ≤ b ∧ 0 ≤ result ∧ result ≤ g.max ∧ evaluate op a b = result ∧
      (op = divide → 1 ≤ result ∧ 1 ≤ b ∧ a ≤ g.max ∧ a = result * b) ∧
      (op = subtract → b ≤ a) := by
  have hM : g.max < 2 ^ 32 := by nlinarith
  have hw1 : wrapInt64 (g.max + 1) = g.max + 1 := wrapInt64_of_bounds _ (by omega) (by omega)
  have hlen : 0 < (g.ops.length : Int) := by
    have : 0 < g.ops.length := List.length_pos.2 hops
    omega
  have hidx := tmod_bounds (rand 0) g.ops.length (hrand 0) hlen
  have hi : (Int.tmod (rand 0) g.ops.length).toNat < g.ops.length := by omega
  have hop : g.ops.getD (Int.tmod (rand 0) g.ops.length).toNat opCount ∈ g.ops := by
    rw [List.getD_eq_getElem _ _ hi]
    exact List.getElem_mem hi
  unfold mathGenerator.operands
  simp only []
  generalize g.ops.getD (Int.tmod (rand 0) g.ops.length).toNat opCount = op at hop ⊢
  have hres := tmod_bounds (rand 1) (g.max + 1) (hrand 1) (by omega)
  rcases hvalid op hop with rfl | rfl | rfl | rfl
  · rw [if_pos rfl, hw1]
    by_cases h0 : Int.tmod (rand 1) (g.max + 1) = 0
    · rw [if_pos h0]
      exact ⟨add, 0, 0, _, rfl, hop, le_refl _, le_refl _, hres.1, by omega,
        by rw [h0]; rfl, by intro h; exact absurd h (by decide),
        by intro h; exact absurd h (by decide)⟩
    · rw [if_neg h0]
      have ha := tmod_bounds (rand 2) (Int.tmod (rand 1) (g.max + 1)) (hrand 2) (by omega)
      have hw : wrapInt64 (Int.tmod (rand 1) (g.max + 1)
          - Int.tmod (rand 2) (Int.tmod (rand 1) (g.max + 1)))
          = Int.tmod (rand 1) (g.max + 1)
            - Int.tmod (rand 2) (Int.tmod (rand 1) (g.max + 1)) :=
        wrapInt64_of_bounds _ (by omega) (by omega)
      rw [hw]
      refine ⟨add, _, _, _, rfl, hop, ha.1, by omega, hres.1, by omega, ?_,
        by intro h; exact absurd h (by decide), by intro h; exact absurd h (by decide)⟩
      unfold evaluate
      rw [if_pos rfl]
      omega
  · rw [if_neg (by decide), if_pos rfl, hw1]
    by_cases h0 : Int.tmod (rand 1) (g.max + 1) = g.max
    · rw [if_pos h0]
      refine ⟨subtract, _, 0, _, rfl, hop, hres.1, le_refl _, hres.1, by omega, ?_,
        by intro h; exact absurd h (by decide), by intro _; exact hres.1⟩
      unfold evaluate
      rw [if_neg (by decide), if_pos rfl]
      omega
    · rw [if_neg h0]
      have hw2 : wrapInt64 (g.max - Int.tmod (rand 1) (g.max + 1))
          = g.max - Int.tmod (rand 1) (g.max + 1) :=
        wrapInt64_of_bounds _ (by omega) (by omega)
      rw [hw2]
      have ha := tmod_bounds (rand 2) (g.max - Int.tmod (rand 1) (g.max + 1)) (hrand 2)
        (by omega)
      have hw3 : wrapInt64 (Int.tmod (rand 1) (g.max + 1)
          + Int.tmod (rand 2) (g.max - Int.tmod (rand 1) (g.max + 1)))
          = Int.tmod (rand 1) (g.max + 1)
            + Int.tmod (rand 2) (g.max - Int.tmod (rand 1) (g.max + 1)) :=
        wrapInt64_of_bounds _ (by omega) (by omega)
      rw [hw3]
      have hw4 : wrapInt64 (Int.tmod (rand 1) (g.max + 1)
          + Int.tmod (rand 2) (g.max - Int.tmod (rand 1) (g.max + 1))
          - Int.tmod (rand 1) (g.max + 1))
          = Int.tmod (rand 2) (g.max - Int.tmod (rand 1) (g.max + 1)) := by
        rw [wrapInt64_of_bounds _ (by omega) (by omega)]
        omega
      rw [hw4]
      refine ⟨subtract, _, _, _, rfl, hop, by omega, ha.1, hres.1, by omega, ?_,
        by intro h; exact absurd h (by decide), by intro _; omega⟩
      unfold evaluate
      rw [if_neg (by decide), if_pos rfl]
      omega
  · rw [if_neg (by decide), if_neg (by decide), if_pos rfl, hw1]
    by_cases h0 : Int.tmod (rand 1) (g.max + 1) = 0
    · rw [if_pos h0]
      have hb := tmod_bounds (rand 2) (g.max + 1) (hrand 2) (by omega)
      by_cases hs : Int.tmod (rand 3) 2 = 0
      · rw [if_pos hs]
        refine ⟨multiply, _, 0, _, rfl, hop, hb.1, le_refl _, hres.1, by omega, ?_,
          by intro h; exact absurd h (by decide), by intro h; exact absurd h (by decide)⟩
        unfold evaluate
        rw [if_neg (by decide), if_neg (by decide), if_pos rfl, h0, Int.mul_zero]
      · rw [if_neg hs]
        refine ⟨multiply, 0, _, _, rfl, hop, le_refl _, hb.1, hres.1, by omega, ?_,
          by intro h; exact absurd h (by decide), by intro h; exact absurd h (by decide)⟩
        unfold evaluate
        rw [if_neg (by decide), if_neg (by decide), if_pos rfl, h0, Int.zero_mul]
    · rw [if_neg h0]
      have ha := tmod_bounds (rand 2) (Int.tmod (rand 1) (g.max + 1)) (hrand 2) (by omega)
      have hw : wrapInt64 (1 + Int.tmod (rand 2) (Int.tmod (rand 1) (g.max + 1)))
          = 1 + Int.tmod (rand 2) (Int.tmod (rand 1) (g.max + 1)) :=
        wrapInt64_of_bounds _ (by omega) (by omega)
      rw [hw]
      obtain ⟨a1, e1, e2, e3, e4⟩ := divisorLoop_spec fuel (Int.tmod (rand 1) (g.max + 1))
        (1 + Int.tmod (rand 2) (Int.tmod (rand 1) (g.max + 1))) (by omega) (by omega)
        (by omega)
      rw [e1]
      simp only []
      have hdiv := Int.tmod_add_tdiv (Int.tmod (rand 1) (g.max + 1)) a1
      rw [e4, Int.zero_add] at hdiv
      have hq : 0 ≤ Int.tdiv (Int.tmod (rand 1) (g.max + 1)) a1 :=
        Int.tdiv_nonneg hres.1 (by omega)
      refine ⟨multiply, a1, _, _, rfl, hop, by omega, hq, hres.1, by omega, ?_,
        by intro h; exact absurd h (by decide), by intro h; exact absurd h (by decide)⟩
      unfold evaluate
      rw [if_neg (by decide), if_neg (by decide), if_pos rfl]
      exact hdiv
  · rw [if_neg (by decide), if_neg (by decide), if_neg (by decide), if_pos rfl]
    have hr := tmod_bounds (rand 1) g.max (hrand 1) (by omega)
    have hb := tmod_bounds (rand 2) g.max (hrand 2) (by omega)
    have hw : wrapInt64 (1 + Int.tmod (rand 1) g.max) = 1 + Int.tmod (rand 1) g.max :=
      wrapInt64_of_bounds _ (by omega) (by omega)
    have hw2 : wrapInt64 (1 + Int.tmod (rand 2) g.max) = 1 + Int.tmod (rand 2) g.max :=
      wrapInt64_of_bounds _ (by omega) (by omega)
    rw [hw, hw2]
    obtain ⟨b1, e1, e2, e3, e4⟩ := shrinkLoop_spec fuel g.max (1 + Int.tmod (rand 1) g.max)
      (1 + Int.tmod (rand 2) g.max) (by omega) (by omega) hbound (by omega) (by omega)
      (by omega)
    rw [e1]
    simp only []
    have hpos : 0 ≤ (1 + Int.tmod (rand 1) g.max) * b1 :=
      Int.mul_nonneg (by omega) (by omega)
    have hw3 : wrapInt64 ((1 + Int.tmod (rand 1) g.max) * b1)
        = (1 + Int.tmod (rand 1) g.max) * b1 :=
      wrapInt64_of_bounds _ (by omega) (by omega)
    rw [hw3]
    refine ⟨divide, _, b1, _, rfl, hop, hpos, by omega, by omega, by omega, ?_,
      by intro _; exact ⟨by omega, e2, e4, rfl⟩, by intro h; exact absurd h (by decide)⟩
    unfold evaluate
    rw [if_neg (by decide), if_neg (by decide), if_neg (by decide)]
    exact Int.mul_tdiv_cancel _ (by omega)

end game

namespace game

/-- C29, as amended: for every generator with `max ≥ 1` and `max * max < 2 ^ 63`, a list
of operators that is not empty and holds only the four operators, and every `rand`
whose values are not negative, `generate` with more than `max` rounds of fuel for its
loops returns an assignment; its operands `a`, `b` and its answer satisfy `0 ≤ a`,
`0 ≤ b`, `0 ≤ answer ≤ max`, and the operation of the question applied to `a` and `b`
gives the answer; for a division `b ≥ 1`, `a ≤ max` and `a = answer * b`, for a
subtraction `a ≥ b`; and with `max = 9` the answer is an index into the ten fire
keys. -/
theorem generate_correct (g : mathGenerator) (rand : Nat → Int) (fuel : Nat)
    (hmax : 1 ≤ g.max) (hbound : g.max * g.max < 2 ^ 63) (hops : g.ops ≠ [])
    (hvalid : ∀ op ∈ g.ops, op = add ∨ op = subtract ∨ op = multiply ∨ op = divide)
    (hrand : ∀ k, 0 ≤ rand k) (hfuel : g.max < fuel) :
    ∃ (op : mathOp) (a b result : Int),
      g.operands fuel rand = some (op, a, b, result) ∧
      g.generate fuel rand
        = some ⟨toString a ++ " " ++ op.String ++ " " ++ toString b, result⟩ ∧
      op ∈ g.ops ∧ 0 ≤ a ∧ 0 ≤ b ∧ 0 ≤ result ∧ result ≤ g.max ∧
      evaluate op a b = result ∧
      (op = divide → 1 ≤ result ∧ 1 ≤ b ∧ a ≤ g.max ∧ a = result * b) ∧
      (op = subtract → b ≤ a) ∧
      (g.max = 9 → result.toNat < fireKeysLen) := by
  obtain ⟨op, a, b, result, h1, h2, h3, h4, h5, h6, h7, h8, h9⟩ :=
    operands_spec g rand fuel hmax hbound hops hvalid hrand hfuel
  refine ⟨op, a, b, result, h1, ?_, h2, h3, h4, h5, h6, h7, h8, h9, ?_⟩
  · unfold mathGenerator.generate
    rw [h1]
  · intro h
    unfold fireKeysLen
    omega

/-- Witness of `generate_correct`: the generator of the game and the `rand` that returns
`0, 1, 2, ...`. -/
theorem generate_correct_witness :
    ∃ (op : mathOp) (a b result : Int),
      gameGenerator.operands 10 (fun k => (k : Int)) = some (op, a, b, result) ∧
      evaluate op a b = result ∧ result.toNat < fireKeysLen := by
  obtain ⟨op, a, b, result, h1, _, _, _, _, _, _, h8, _, _, h11⟩ :=
    generate_correct gameGenerator (fun k => (k : Int)) 10 (by decide) (by decide)
      (by decide) (by decide) (fun k => Int.ofNat_nonneg k) (by decide)
  exact ⟨op, a, b, result, h1, h8, h11 rfl⟩

/-- C29 fails as stated: for the generator with `max = 2 ^ 32` and the operator
`divide` only, and the `rand` that always returns `2 ^ 32 - 1`, the answer and the first
`b` are both `2 ^ 32`; their product `2 ^ 64` wraps to 0 in the `int`, so the loop
`for result*b > g.max` does not run and `a = 0`: the question is `0 / 4294967296` and
the answer is `4294967296`, not the value 0 of the question. -/
theorem division_wraps_for_large_max :
    (1 : Int) ≤ (⟨[divide], 4294967296⟩ : mathGenerator).max ∧
    (⟨[divide], 4294967296⟩ : mathGenerator).operands 4294967297 (fun _ => 4294967295)
      = some (divide, 0, 4294967296, 4294967296) ∧
    (⟨[divide], 4294967296⟩ : mathGenerator).generate 4294967297 (fun _ => 4294967295)
      = some ⟨"0 / 4294967296", 4294967296⟩ ∧
    evaluate divide 0 4294967296 ≠ 4294967296 := by
  refine ⟨by decide, ?_, ?_, by decide⟩
  · unfold mathGenerator.operands shrinkLoop wrapInt64
    decide
  · unfold mathGenerator.generate mathGenerator.operands shrinkLoop wrapInt64
    decide

/-- An assignment of the game: with `rand` returning `7, 10, 13, ...` the operator is
`subtract` and the question is `4 - 4`. -/
theorem test_generate :
    gameGenerator.generate 10 (fun k => 7 + 3 * (k : Int)) = some ⟨"4 - 4", 0⟩ := by
  with_unfolding_all decide

end game

namespace game

/-! ## Claim C30: Roman numerals -/

theorem greedy_fuel : ∀ (f1 f2 : Nat) (t : List (Nat × String)) (n : Nat),
    (∀ e ∈ t, 0 < e.1) → n + t.length ≤ f1 → n + t.length ≤ f2 →
    greedy f1 t n = greedy f2 t n
  | 0, f2, t, n, _, h1, _ => by
    have hn : n = 0 := by omega
    have ht : t = [] := List.length_eq_zero.1 (by omega)
    subst hn
    subst ht
    cases f2 <;> rfl
  | f1 + 1, 0, t, n, _, _, h2 => by
    have hn : n = 0 := by omega
    have ht : t = [] := List.length_eq_zero.1 (by omega)
    subst hn
    subst ht
    rfl
  | f1 + 1, f2 + 1, [], n, _, _, _ => rfl
  | f1 + 1, f2 + 1, (v, s) :: rest, n, hpos, h1, h2 => by
    have hv : 0 < v := hpos (v, s) (List.mem_cons_self _ _)
    simp only [List.length_cons] at h1 h2
    rw [greedy, greedy]
    by_cases hle : v ≤ n
    · rw [if_pos hle, if_pos hle,
        greedy_fuel f1 f2 ((v, s) :: rest) (n - v) hpos
          (by simp only [List.length_cons]; omega) (by simp only [List.length_cons]; omega)]
    · rw [if_neg hle, if_neg hle,
        greedy_fuel f1 f2 rest n (fun e he => hpos e (List.mem_cons_of_mem _ he))
          (by omega) (by omega)]

theorem romanTable_pos : ∀ e ∈ romanTable, 0 < e.1 := by
  decide

theorem standardNumeral_add_thousand (n : Nat) :
    standardNumeral (n + 1000) = "M" ++ standardNumeral n := by
  have hl : romanTable.length = 13 := rfl
  unfold standardNumeral
  rw [hl]
  have e : n + 1000 + 13 = (n + 1012) + 1 := by omega
  rw [e]
  have ht : romanTable = (1000, "M") :: romanTable.tail := rfl
  rw [ht, greedy, if_pos (by omega), ← ht, Nat.add_sub_cancel]
  rw [greedy_fuel (n + 1012) (n + 13) romanTable n romanTable_pos (by rw [hl]; omega)
    (by rw [hl])]

theorem standardNumeral_thousands : ∀ (k m : Nat),
    standardNumeral (m + 1000 * k) = Repeat "M" k ++ standardNumeral m
  | 0, m => by
    rw [Nat.mul_zero, Nat.add_zero]
    exact (String.empty_append _).symm
  | k + 1, m => by
    have e : m + 1000 * (k + 1) = (m + 1000 * k) + 1000 := by omega
    rw [e, standardNumeral_add_thousand, standardNumeral_thousands k m, Repeat,
      String.append_assoc]

theorem thousands_spec : ∀ (fuel : Nat) (result : String) (n : Nat), n / 1000 < fuel →
    thousands fuel result n = some (result ++ Repeat "M" (n / 1000), n % 1000)
  | 0, _, _, h => by omega
  | fuel + 1, result, n, h => by
    rw [thousands]
    by_cases hge : n ≥ 1000
    · rw [if_pos hge, thousands_spec fuel (result ++ "M") (n - 1000) (by omega)]
      have e1 : n / 1000 = (n - 1000) / 1000 + 1 := by omega
      have e2 : (n - 1000) % 1000 = n % 1000 := by omega
      rw [e1, e2, Repeat, String.append_assoc]
    · rw [if_neg hge]
      have e1 : n / 1000 = 0 := by omega
      have e2 : n % 1000 = n := by omega
      rw [e1, e2, Repeat, String.append_empty]

theorem thousands_mono : ∀ (fuel : Nat) (result : String) (n : Nat) (x : String × Nat),
    thousands fuel result n = some x → thousands (fuel + 1) result n = some x
  | 0, _, _, _, h => by simp [thousands] at h
  | fuel + 1, result, n, x, h => by
    rw [thousands] at h ⊢
    by_cases hge : n ≥ 1000
    · rw [if_pos hge] at h ⊢
      exact thousands_mono fuel _ _ x h
    · rw [if_neg hge] at h ⊢
      exact h

theorem romanNumeral_mono : ∀ (fuel n : Nat) (s : String),
    romanNumeral fuel n = some s → romanNumeral (fuel + 1) n = some s
  | 0, _, _, h => by simp [romanNumeral] at h
  | fuel + 1, n, s, h => by
    rw [romanNumeral] at h ⊢
    by_cases h10 : n < 10
    · rw [if_pos h10] at h ⊢
      exact h
    · rw [if_neg h10] at h ⊢
      by_cases h100 : n < 100
      · rw [if_pos h100] at h ⊢
        cases hr : romanNumeral fuel (n % 10) with
        | none => rw [hr] at h; simp at h
        | some s1 =>
          rw [hr] at h
          rw [romanNumeral_mono fuel (n % 10) s1 hr]
          exact h
      · rw [if_neg h100] at h ⊢
        by_cases h1000 : n < 1000
        · rw [if_pos h1000] at h ⊢
          cases hr : romanNumeral fuel (n % 100) with
          | none => rw [hr] at h; simp at h
          | some s1 =>
            rw [hr] at h
            rw [romanNumeral_mono fuel (n % 100) s1 hr]
            exact h
        · rw [if_neg h1000] at h ⊢
          cases ht : thousands fuel "" n with
          | none => rw [ht] at h; simp at h
          | some x =>
            obtain ⟨result, n1⟩ := x
            rw [ht] at h
            rw [thousands_mono fuel "" n _ ht]
            simp only at h ⊢
            cases hr : romanNumeral fuel n1 with
            | none => rw [hr] at h; simp at h
            | some s1 =>
              rw [hr] at h
              rw [romanNumeral_mono fuel n1 s1 hr]
              exact h

theorem romanNumeral_more_fuel (fuel n : Nat) (s : String) (h : romanNumeral fuel n = some s) :
    ∀ k, romanNumeral (fuel + k) n = some s
  | 0 => h
  | k + 1 => romanNumeral_mono (fuel + k) n s (romanNumeral_more_fuel fuel n s h k)

set_option maxRecDepth 1000000 in
theorem small_numerals : ∀ n < 1000, romanNumeral 3 n = some (standardNumeral n) ∧
    numeralValue (standardNumeral n).data = n := by
  decide

theorem symbolValue_le (c : Char) : symbolValue c ≤ 1000 := by
  unfold symbolValue
  split_ifs <;> omega

theorem numeralValue_M (l : List Char) : numeralValue ('M' :: l) = 1000 + numeralValue l := by
  cases l with
  | nil => rfl
  | cons d rest =>
    have h1 : symbolValue 'M' = 1000 := by decide
    have h2 := symbolValue_le d
    rw [numeralValue, h1, if_neg (by omega)]

theorem numeralValue_thousands : ∀ (k : Nat) (s : String),
    numeralValue (Repeat "M" k ++ s).data = 1000 * k + numeralValue s.data
  | 0, s => by
    rw [Repeat, String.empty_append]
    omega
  | k + 1, s => by
    rw [Repeat, String.append_assoc, String.data_append]
    have e : ("M" : String).data = ['M'] := rfl
    rw [e, List.singleton_append, numeralValue_M, numeralValue_thousands k s]
    omega

/-- C30: for every `n ≥ 0` and every fuel of at least `n / 1000 + 4`, `romanNumeral`
returns a result, and the result is the standard Roman numeral of `n` in subtractive
notation, the greedy conversion over the table `1000 M, 900 CM, 500 D, 400 CD, 100 C,
90 XC, 50 L, 40 XL, 10 X, 9 IX, 5 V, 4 IV, 1 I`; the value of this numeral is `n`; it is
the empty string for 0, and the numeral of `n + 1000` is that of `n` after one more
`M`. -/
theorem romanNumeral_standard (n fuel : Nat) (hfuel : n / 1000 + 4 ≤ fuel) :
    romanNumeral fuel n = some (standardNumeral n) ∧
    numeralValue (standardNumeral n).data = n ∧
    standardNumeral 0 = "" ∧
    standardNumeral (n + 1000) = "M" ++ standardNumeral n := by
  have hdecomp : n = n % 1000 + 1000 * (n / 1000) := (Nat.mod_add_div n 1000).symm
  have hsmall := small_numerals (n % 1000) (Nat.mod_lt _ (by omega))
  have hstd : standardNumeral n
      = Repeat "M" (n / 1000) ++ standardNumeral (n % 1000) := by
    have := standardNumeral_thousands (n / 1000) (n % 1000)
    rw [← hdecomp] at this
    exact this
  refine ⟨?_, ?_, by decide, standardNumeral_add_thousand n⟩
  · by_cases h1000 : n < 1000
    · have hm : n % 1000 = n := Nat.mod_eq_of_lt h1000
      rw [hm] at hsmall
      have := romanNumeral_more_fuel 3 n _ hsmall.1 (fuel - 3)
      have e : 3 + (fuel - 3) = fuel := by omega
      rw [e] at this
      exact this
    · obtain ⟨f, rfl⟩ : ∃ f, fuel = f + 1 := ⟨fuel - 1, by omega⟩
      rw [romanNumeral, if_neg (by omega), if_neg (by omega), if_neg h1000,
        thousands_spec f "" n (by omega)]
      simp only
      have := romanNumeral_more_fuel 3 (n % 1000) _ hsmall.1 (f - 3)
      have e : 3 + (f - 3) = f := by omega
      rw [e] at this
      rw [this]
      simp only
      rw [String.empty_append, hstd]
  · rw [hstd, numeralValue_thousands, hsmall.2]
    omega

/-- Witness of `romanNumeral_standard`: the numeral of 3949. -/
theorem romanNumeral_standard_witness :
    romanNumeral 7 3949 = some (standardNumeral 3949) ∧
    numeralValue (standardNumeral 3949).data = 3949 :=
  ⟨(romanNumeral_standard 3949 7 (by decide)).1, (romanNumeral_standard 3949 7 (by decide)).2.1⟩

/-- Numerals of the game: the scores 4, 9, 14, 40, 90, 400, 1994 and 4999. -/
theorem test_romanNumeral :
    [4, 9, 14, 40, 90, 400, 1994, 4999].map (romanNumeral 8)
      = [some "IV", some "IX", some "XIV", some "XL", some "XC", some "CD", some "MCMXCIV",
          some "MMMMCMXCIX"] := by
  decide

end game
